import Mathlib

/-!
# Mesh: bitmaps, miniheaps and the global meshing heap

A shallow embedding of `bitmap.h`, `meshing.h`, `common.h` and
`globalmeshingheap.h`.  Machine words are natural numbers below `2 ^ 64`;
a run of the C++ code that does not return normally (a failed `d_assert`,
`abort()`, an access outside the storage) is an `Except.error` carrying a
`Fault`.  Executions are sequential: no other thread runs between two
statements.
-/

set_option autoImplicit false

namespace Mesh

/-- Ways in which a run of the code stops without returning a value. -/
inductive Fault where
  /-- a `d_assert` of the debug build failed -/
  | assertFail
  /-- the code called `abort()` -/
  | abort
  /-- a word outside the bitmap storage was accessed -/
  | outOfBounds
  /-- a miniheap descriptor that is not live was dereferenced -/
  | badPointer
  /-- a loop did not finish within the iterations granted to the model -/
  | outOfFuel
deriving DecidableEq, Repr

deriving instance DecidableEq for Except

namespace bitmap

/-! ## `bitmap.h`: constants and helpers -/

/-- Number of bits of a `size_t`. -/
def kWordBits : Nat := 64

/-- Number of bytes of a `size_t`. -/
def kWordBytes : Nat := 8

/-- The log of the number of bits in a `size_t`, for shifting. -/
def kWordBitshift : Nat := 6

/-- The value `~0UL`. -/
def allOnes : Nat := 2 ^ 64 - 1

/-- Bitwise complement of a 64-bit word, `~x`. -/
def wnot (x : Nat) : Nat := 2 ^ 64 - (x + 1)

/-- Number of bytes used to store the bitmap, rounded up to whole words. -/
def representationSize (bitCount : Nat) : Nat :=
  kWordBits * ((bitCount + kWordBits - 1) / kWordBits) / 8

/-- Number of words in `byteCount` bytes. -/
def wordCount (byteCount : Nat) : Nat := byteCount / kWordBytes

/-- The mask `1UL << pos` selecting position `pos` of a word. -/
def getMask (pos : Nat) : Nat := (1 <<< pos) % 2 ^ 64

/-- Search for the least set bit of `x` among the `n` positions from `p` on. -/
def firstSetFrom (x : Nat) : Nat → Nat → Option Nat
  | 0, _ => none
  | n + 1, p => if x.testBit p then some p else firstSetFrom x n (p + 1)

/-- The builtins `__builtin_ffsll` and `__builtin_ffsl`: one plus the index of
the least significant set bit of a 64-bit word, and zero for the word zero. -/
def ffsll (x : Nat) : Nat :=
  match firstSetFrom x 64 0 with
  | some i => i + 1
  | none => 0

/-- The builtin `__builtin_popcountl` on a 64-bit word. -/
def popcountl (x : Nat) : Nat :=
  ((List.range 64).filter (fun i => x.testBit i)).length

/-- Sequential reading of `std::atomic_compare_exchange_weak(obj, expected, desired)`:
the result flag, the new value of `*obj` and the new value of `*expected`. -/
def atomic_compare_exchange_weak (obj expected desired : Nat) : Bool × Nat × Nat :=
  if obj = expected then (true, desired, expected) else (false, obj, obj)

/-- The two storage policies `BitmapBase` is instantiated with. -/
inductive Super where
  /-- `AtomicBitmapBase<maxBits>`: inline storage, compare-and-swap updates -/
  | atomic
  /-- `RelaxedBitmapBase`: heap storage, plain reads and writes -/
  | relaxed
deriving DecidableEq, Repr

/-- A `BitmapBase<Super>` object: the policy, `_bitCount` and the storage
words `_bits`. -/
structure Bitmap where
  super : Super
  bitCount : Nat
  bits : List Nat
deriving DecidableEq, Repr

namespace Bitmap

/-- Representation invariant of a bitmap object: the storage holds at least the
words of `bitCount` bits, every storage word is a 64-bit value, and the bit
count fits 32 bits: the atomic base keeps it in a `uint32_t`, and
`computeItemPosition` handles an index in 32-bit variables. -/
def WF (b : Bitmap) : Prop :=
  b.bitCount < 2 ^ 32 ∧
  wordCount (representationSize b.bitCount) ≤ b.bits.length ∧
  ∀ w ∈ b.bits, w < 2 ^ 64

instance (b : Bitmap) : Decidable b.WF := by
  unfold WF; infer_instance

/-- The member `byteCount()`. -/
def byteCount (b : Bitmap) : Nat := representationSize b.bitCount

/-- Reading the word `_bits[i]`. -/
def word (b : Bitmap) (i : Nat) : Except Fault Nat :=
  match b.bits[i]? with
  | some w => .ok w
  | none => .error .outOfBounds

/-- The loop of `AtomicBitmapBase::setAt`: retry the compare-and-swap of
`oldValue | mask` until it succeeds; returns the stored word and the final
`oldValue`. -/
def atomicSetLoop (mask : Nat) : Nat → Nat → Nat → Except Fault (Nat × Nat)
  | 0, _, _ => .error .outOfFuel
  | fuel + 1, obj, oldValue =>
    match atomic_compare_exchange_weak obj oldValue (oldValue ||| mask) with
    | (true, obj', oldValue') => .ok (obj', oldValue')
    | (false, obj', oldValue') => atomicSetLoop mask fuel obj' oldValue'

/-- The loop of `AtomicBitmapBase::unsetAt`, with `oldValue & ~mask`. -/
def atomicUnsetLoop (mask : Nat) : Nat → Nat → Nat → Except Fault (Nat × Nat)
  | 0, _, _ => .error .outOfFuel
  | fuel + 1, obj, oldValue =>
    match atomic_compare_exchange_weak obj oldValue (oldValue &&& wnot mask) with
    | (true, obj', oldValue') => .ok (obj', oldValue')
    | (false, obj', oldValue') => atomicUnsetLoop mask fuel obj' oldValue'

/-- The member `Super::setAt(item, position)` of both policies. -/
def setAt (b : Bitmap) (item position : Nat) : Except Fault (Bool × Bitmap) :=
  let mask := getMask position
  match b.super with
  | .relaxed => do
    let oldValue ← b.word item
    .ok (decide (oldValue &&& mask = 0), { b with bits := b.bits.set item (oldValue ||| mask) })
  | .atomic => do
    let oldValue ← b.word item
    let (stored, oldValue) ← atomicSetLoop mask 1 oldValue oldValue
    .ok (decide (oldValue &&& mask = 0), { b with bits := b.bits.set item stored })

/-- The member `Super::unsetAt(item, position)` of both policies. -/
def unsetAt (b : Bitmap) (item position : Nat) : Except Fault (Bool × Bitmap) :=
  let mask := getMask position
  match b.super with
  | .relaxed => do
    let oldValue ← b.word item
    .ok (decide (oldValue &&& mask = 0),
      { b with bits := b.bits.set item (oldValue &&& wnot mask) })
  | .atomic => do
    let oldValue ← b.word item
    let (stored, oldValue) ← atomicUnsetLoop mask 1 oldValue oldValue
    .ok (decide (oldValue &&& mask = 0), { b with bits := b.bits.set item stored })

/-- Given an index, compute its item (word) and position within the word; both
are 32-bit variables, so the shift `item << kWordBitshift` of the second
assertion is a 32-bit shift.  The three `d_assert`s are checked. -/
def computeItemPosition (b : Bitmap) (index : Nat) : Except Fault (Nat × Nat) :=
  if ¬ index < b.bitCount then .error .assertFail
  else
    let item := (index >>> kWordBitshift) % 2 ^ 32
    let position := (index &&& (kWordBits - 1)) % 2 ^ 32
    if ¬ position = index - (item <<< kWordBitshift) % 2 ^ 32 then .error .assertFail
    else if ¬ item < b.byteCount / 8 then .error .assertFail
    else .ok (item, position)

/-- Clears out the bitmap array: the first `byteCount() / sizeof(size_t)` words
of the storage are zeroed. -/
def clear (b : Bitmap) : Bitmap :=
  let wordCount := b.byteCount / 8
  { b with bits := List.replicate (min wordCount b.bits.length) 0 ++ b.bits.drop wordCount }

/-- The member `tryToSet(index)`: true iff the bit was not set (but it is now). -/
def tryToSet (b : Bitmap) (index : Nat) : Except Fault (Bool × Bitmap) := do
  let (item, position) ← b.computeItemPosition index
  b.setAt item position

/-- The loop of the constructor from a bit string: character `i` of the string
sets bit `i` when it is `1`. -/
def ofStringLoop : List Char → Nat → Bitmap → Except Fault Bitmap
  | [], _, b => .ok b
  | c :: cs, i, b =>
    if ¬ (c = '0' ∨ c = '1') then .error .assertFail
    else if c = '1' then do
      let (_, b) ← b.tryToSet i
      ofStringLoop cs (i + 1) b
    else ofStringLoop cs (i + 1) b

/-- The constructor `BitmapBase(const std::string &str)` of the atomic bitmap
`AtomicBitmapBase<256>`, whose inline storage has four words; the constructor
asserts that the bit count does not exceed 256. -/
def ofString (str : String) : Except Fault Bitmap :=
  if ¬ str.length ≤ 256 then .error .assertFail
  else ofStringLoop str.toList 0 (clear ⟨.atomic, str.length, [0, 0, 0, 0]⟩)

/-- The member `unset(index)`: clears the bit at the given index. -/
def unset (b : Bitmap) (index : Nat) : Except Fault (Bool × Bitmap) := do
  let (item, position) ← b.computeItemPosition index
  b.unsetAt item position

/-- The member `isSet(index)`. -/
def isSet (b : Bitmap) (index : Nat) : Except Fault Bool := do
  let (item, position) ← b.computeItemPosition index
  let w ← b.word item
  .ok (decide (w &&& getMask position ≠ 0))

/-- The member `inUseCount()`: population count of the first
`byteCount() / sizeof(size_t)` words. -/
def inUseCount (b : Bitmap) : Nat :=
  ((b.bits.take (b.byteCount / 8)).map popcountl).sum

/-- The storage bit at absolute position `k`: bit `k % 64` of word `k / 64`
(false outside the storage). -/
def storageBit (b : Bitmap) (k : Nat) : Bool :=
  (b.bits.getD (k / 64) 0).testBit (k % 64)

/-- The bitmap with the storage bit at absolute position `k` set. -/
def withBit (b : Bitmap) (k : Nat) : Bitmap :=
  { b with bits := b.bits.set (k / 64) (b.bits.getD (k / 64) 0 ||| 2 ^ (k % 64)) }

/-- The bitmap with the storage bit at absolute position `k` cleared. -/
def withoutBit (b : Bitmap) (k : Nat) : Bitmap :=
  { b with bits := b.bits.set (k / 64) (b.bits.getD (k / 64) 0 &&& wnot (2 ^ (k % 64))) }

/-- The `for` loop of `setFirstEmpty`, with `remaining = words - i` iterations
left, at word `i`, with the outer variable `off`.  Leaving the loop reaches
`abort()`. -/
def setFirstEmptyLoop : Nat → Bitmap → Nat → Nat → Except Fault (Nat × Bitmap)
  | 0, _, _, _ => .error .abort
  | remaining + 1, b, i, off => do
    let bits ← b.word i
    if bits = allOnes then setFirstEmptyLoop remaining b (i + 1) 0
    else if ¬ off ≤ 63 then .error .assertFail
    else
      let unsetBits := wnot bits
      if unsetBits = 0 then .error .assertFail
      else
        -- mark the bits below the offset as unavailable
        let unsetBits := unsetBits &&& wnot ((1 <<< off) - 1)
        if unsetBits = 0 then setFirstEmptyLoop remaining b (i + 1) 0
        else
          -- the inner `off` shadows the outer one
          let off' := ffsll unsetBits - 1
          let (ok, b') ← b.setAt i off'
          if !ok then setFirstEmptyLoop remaining b' (i + 1) off
          else .ok (kWordBits * i + off', b')

/-- The member `setFirstEmpty(startingAt)`; the loop bound `words` is
`byteCount()`. -/
def setFirstEmpty (b : Bitmap) (startingAt : Nat) : Except Fault (Nat × Bitmap) := do
  let (startWord, off) ← b.computeItemPosition startingAt
  let words := b.byteCount
  setFirstEmptyLoop (words - startWord) b startWord off

/-- The `for` loop of `lowestSetBitAt`, with `remaining = wordCount - i`
iterations left. -/
def lowestSetBitAtLoop (b : Bitmap) : Nat → Nat → Nat → Except Fault Nat
  | 0, _, _ => .ok b.bitCount
  | remaining + 1, i, startOff => do
    let mask := wnot ((1 <<< startOff) - 1)
    let w ← b.word i
    let bits := w &&& mask
    if bits = 0 then lowestSetBitAtLoop b remaining (i + 1) 0
    else
      let off := ffsll bits - 1
      let bit := kWordBits * i + off
      .ok (if bit < b.bitCount then bit else b.bitCount)

/-- The member `lowestSetBitAt(startingAt)`. -/
def lowestSetBitAt (b : Bitmap) (startingAt : Nat) : Except Fault Nat := do
  let (startWord, startOff) ← b.computeItemPosition startingAt
  let wordCount := b.byteCount / 8
  lowestSetBitAtLoop b (wordCount - startWord) startWord startOff

/-- The member `begin()`: an iterator is represented by its index `_i`. -/
def begin (b : Bitmap) : Except Fault Nat := b.lowestSetBitAt 0

/-- The member `end()`. -/
def «end» (b : Bitmap) : Nat := b.bitCount

/-- The prefix increment `BitmapIter::operator++`. -/
def iterNext (b : Bitmap) (i : Nat) : Except Fault Nat :=
  if i + 1 ≥ b.bitCount then .ok b.bitCount
  else b.lowestSetBitAt (i + 1)

end Bitmap

end bitmap

open bitmap (Bitmap)

/-! ## `common.h`: size classes -/

/-- The constant `MinObjectSize`. -/
def MinObjectSize : Nat := 16

/-- The recursion of `staticlog`, for values of at most `fuel` bits. -/
def staticlogLoop : Nat → Nat → Nat
  | 0, _ => 0
  | fuel + 1, v => if v > 1 then staticlogLoop fuel (v / 2) + 1 else 0

/-- The compile-time logarithm `staticlog` of Heap-Layers: the floor of the
base-2 logarithm of a 64-bit value. -/
def staticlog (v : Nat) : Nat := staticlogLoop 64 v

/-- The loop of the portable `HL::ilog2`: double `value` until it reaches `v`. -/
def ilog2Loop (v : Nat) : Nat → Nat → Nat → Nat
  | 0, _, log => log
  | fuel + 1, value, log =>
    if value < v then ilog2Loop v fuel (value <<< 1) (log + 1) else log

/-- The function `HL::ilog2` of Heap-Layers: the ceiling of the base-2
logarithm of a 64-bit value. -/
def ilog2 (v : Nat) : Nat := ilog2Loop v 64 1 0

/-- The function `class2Size`. -/
def class2Size (i : Int) : Nat :=
  (1 <<< (i + staticlog MinObjectSize).toNat) % 2 ^ 64

/-- The function `size2Class`. -/
def size2Class (sz : Nat) : Int :=
  (ilog2 (if sz < 8 then 8 else sz) : Int) - staticlog MinObjectSize

/-- Conversion of an `int` to `size_t`. -/
def toSizeT (i : Int) : Nat := (i % 2 ^ 64).toNat

/-! ## Finite maps

`std::map<uintptr_t, MiniHeap *>` and the internal heap that holds the
descriptors are association lists in which the first entry of a key is the
binding of that key. -/

namespace Map

/-- The binding of `k`, as `find` gives it. -/
def lookup {β : Type} (k : Nat) : List (Nat × β) → Option β
  | [] => none
  | (k', v) :: m => if k' = k then some v else lookup k m

/-- The member `erase(k)`. -/
def erase {β : Type} (k : Nat) (m : List (Nat × β)) : List (Nat × β) :=
  m.filter (fun e => decide (e.1 ≠ k))

/-- The assignment `m[k] = v`. -/
def insert {β : Type} (k : Nat) (v : β) (m : List (Nat × β)) : List (Nat × β) :=
  (k, v) :: erase k m

/-- Modelled from the spec: `greatest_leq` of `internal.h`, which is not part of
the sources at hand: the greatest-lower-bound lookup, the entry with the
greatest key less than or equal to `ptrval`, or `end()` (`none`). -/
def greatest_leq {β : Type} : List (Nat × β) → Nat → Option (Nat × β)
  | [], _ => none
  | e :: m, ptrval =>
    match greatest_leq m ptrval with
    | none => if e.1 ≤ ptrval then some e else none
    | some b => if e.1 ≤ ptrval ∧ b.1 ≤ e.1 then some e else some b

end Map

/-! ## Miniheaps -/

/-- Modelled from the spec: the class `MiniHeap` of `miniheap.h`, which is not
part of the sources at hand.  A fixed-capacity slab with its span(s) (the
first is the one `getSpanStart()` returns; `meshCount()` is their number),
`objectSize`, `objectCount`, the size of a span, the occupancy bitmap of
`objectCount` bits and the done flag.  The list links are kept by the global
heap. -/
structure MiniHeap where
  spans : List Nat
  objectSize : Nat
  objectCount : Nat
  spanSize : Nat
  bitmap : Bitmap
  done : Bool
deriving DecidableEq, Repr

namespace MiniHeap

/-- Modelled from the spec: `getSpanStart()`, the start of the first span. -/
def getSpanStart (mh : MiniHeap) : Nat := mh.spans.headD 0

/-- Modelled from the spec: `meshCount()`, the number of spans (initially one;
grows on mesh). -/
def meshCount (mh : MiniHeap) : Nat := mh.spans.length

/-- Modelled from the spec: `isDone()`. -/
def isDone (mh : MiniHeap) : Bool := mh.done

/-- Modelled from the spec: `isEmpty()` is `bitmap.inUseCount() == 0`. -/
def isEmpty (mh : MiniHeap) : Bool := decide (mh.bitmap.inUseCount = 0)

/-- Modelled from the spec: `contains(ptr)` is true iff `ptr` lies within any
owned span. -/
def contains (mh : MiniHeap) (ptr : Nat) : Bool :=
  mh.spans.any (fun s => decide (s ≤ ptr) && decide (ptr < s + mh.spanSize))

/-- Modelled from the spec: `mallocAt(slot)` sets bit `slot`; it returns
`spanStart + slot × objectSize` on success and null if the bit was already
set. -/
def mallocAt (mh : MiniHeap) (slot : Nat) : Except Fault (Option Nat × MiniHeap) := do
  let (ok, bm) ← mh.bitmap.tryToSet slot
  if ok then .ok (some (mh.getSpanStart + slot * mh.objectSize), { mh with bitmap := bm })
  else .ok (none, { mh with bitmap := bm })

/-- Modelled from the spec: the slot of `ptr`, `(ptr − spanStart) / objectSize`
within the span that contains `ptr`; `none` if no owned span contains `ptr` or
the slot is out of range. -/
def slotOf (mh : MiniHeap) (ptr : Nat) : Option Nat :=
  match mh.spans.find? (fun s => decide (s ≤ ptr) && decide (ptr < s + mh.spanSize)) with
  | none => none
  | some s =>
    let slot := (ptr - s) / mh.objectSize
    if slot < mh.objectCount then some slot else none

/-- Modelled from the spec: `free(ptr)` computes the slot of `ptr` and clears
its bit; a pointer without slot is a precondition violation. -/
def free (mh : MiniHeap) (ptr : Nat) : Except Fault MiniHeap :=
  match mh.slotOf ptr with
  | none => .error .assertFail
  | some slot => do
    let (_, bm) ← mh.bitmap.unset slot
    .ok { mh with bitmap := bm }

/-- Modelled from the spec: `meshedSpan(span)` appends `span` to the span list. -/
def meshedSpan (mh : MiniHeap) (span : Nat) : MiniHeap :=
  { mh with spans := mh.spans ++ [span] }

/-- Modelled from the spec: `getSize(ptr)`, the object size of the miniheap. -/
def getSize (mh : MiniHeap) (_ptr : Nat) : Nat := mh.objectSize

end MiniHeap

/-! ## `meshing.h` -/

/-- Modelled from the spec: `bitmapsMeshable`, of which `meshing.h` has only the
declaration: `∀ i ∈ [0, len): (bitmap1[i] & bitmap2[i]) == 0`. -/
def bitmapsMeshable (bitmap1 bitmap2 : List Nat) (len : Nat) : Bool :=
  (List.range len).all (fun i => decide (bitmap1.getD i 0 &&& bitmap2.getD i 0 = 0))

/-- Modelled from the spec: `wordCount()` of a miniheap's bitmap, the number of
words that hold its `bitCount` bits. -/
def bitmap.Bitmap.wordCount (b : Bitmap) : Nat := b.byteCount / 8

/-- The `for` loop of `randomSort` over the adjacent pairs `(*it1, *it2)` of the
shuffled range.  The first component lists the vectors passed to `meshFound`,
in order; the second tells how the loop ended. -/
def randomSortLoop {T : Type} (isDone : T → Bool) (bitmapOf : T → Bitmap) :
    List T → List (List T) × Except Fault Unit
  | h1 :: h2 :: rest =>
    if isDone h1 || isDone h2 then randomSortLoop isDone bitmapOf (h2 :: rest)
    else
      let len := (bitmapOf h1).wordCount
      let bitmap1 := (bitmapOf h1).bits
      let bitmap2 := (bitmapOf h2).bits
      if ¬ len = (bitmapOf h2).wordCount then ([], .error .assertFail)
      else if bitmapsMeshable bitmap1 bitmap2 len then
        let (found, status) := randomSortLoop isDone bitmapOf (h2 :: rest)
        ([h1, h2] :: found, status)
      else randomSortLoop isDone bitmapOf (h2 :: rest)
  | _ => ([], .ok ())

/-- The function `randomSort`.  `T` stands for the pointer type `T *` with its
members `isDone()` and `bitmap()`; `shuffle` is the outcome of `std::shuffle`
with the given generator on the range `[begin, end)`. -/
def randomSort {T : Type} (isDone : T → Bool) (bitmapOf : T → Bitmap)
    (shuffle : List T → List T) (miniheaps : List T) : List (List T) × Except Fault Unit :=
  let heaps := miniheaps
  -- if the current heap isn't done, exclude it from meshing
  let excluded : Nat :=
    match heaps.getLast? with
    | some back => if heaps.length > 1 ∧ ¬ isDone back then 1 else 0
    | none => 0
  let range := heaps.take (heaps.length - excluded)
  if range.length ≤ 1 then ([], .ok ())
  else randomSortLoop isDone bitmapOf (shuffle range)

/-! ## `globalmeshingheap.h` -/

/-- Modelled from the spec: the `MeshableArena` base class of `meshable-arena.h`,
which is not part of the sources at hand: the spans handed out (start and
size in bytes) and the remappings done by the mesh primitive (kept span,
removed span, size). -/
structure MeshableArena where
  allocated : List (Nat × Nat)
  meshed : List (Nat × Nat × Nat)
deriving DecidableEq, Repr

namespace MeshableArena

/-- Modelled from the spec: `free(ptr, sz)` returns the span to the arena. -/
def free (a : MeshableArena) (ptr _sz : Nat) : MeshableArena :=
  { a with allocated := Map.erase ptr a.allocated }

/-- Modelled from the spec: the mesh primitive `mesh(keep, remove, sz)` replaces
the mapping of `remove` with one that aliases `keep`; `remapOk` tells whether
the operating system accepted the remap.  The primitive returns nothing. -/
def mesh (a : MeshableArena) (remapOk : Bool) (keep remove sz : Nat) : MeshableArena :=
  if remapOk then { a with meshed := a.meshed ++ [(keep, remove, sz)] } else a

end MeshableArena

/-- Modelled from the spec: the big heap, a collaborator outside the sources at
hand: the live large allocations with their recorded sizes. -/
structure BigHeap where
  live : List (Nat × Nat)
deriving DecidableEq, Repr

namespace BigHeap

/-- Modelled from the spec: `free(ptr)` releases a large allocation. -/
def free (h : BigHeap) (ptr : Nat) : BigHeap := { h with live := Map.erase ptr h.live }

/-- Modelled from the spec: `getSize(ptr)`, the recorded size. -/
def getSize (h : BigHeap) (ptr : Nat) : Nat := (Map.lookup ptr h.live).getD 0

end BigHeap

/-- The class `GlobalHeapStats`. -/
structure GlobalHeapStats where
  meshCount : Nat
  mhFreeCount : Nat
  mhAllocCount : Nat
  mhHighWaterMark : Nat
  mhClassHWM : List Nat
deriving DecidableEq, Repr

/-- The template parameter `NumBins`, for which `getClassMaxSize(NumBins - 1)`
is 16384. -/
def NumBins : Nat := 11

/-- The state of a `GlobalMeshingHeap`, instantiated with `size2Class` and
`class2Size`.  A `MiniHeap *` is the address of a descriptor, `none` for
`nullptr`; `descriptors` holds the live descriptors of the internal heap;
`littleheaps[c]` is the intrusive list of class `c`, head first; `memcpys`
records the object copies (destination, source, length) and
`stopTheWorldCalls` the calls of `StopTheWorld`. -/
structure GlobalMeshingHeap where
  arena : MeshableArena
  descriptors : List (Nat × MiniHeap)
  maxObjectSize : Nat
  nextMeshCheck : Nat
  bigheap : BigHeap
  littleheapCounts : List Nat
  littleheaps : List (List Nat)
  miniheaps : List (Nat × Nat)
  stats : GlobalHeapStats
  memcpys : List (Nat × Nat × Nat)
  stopTheWorldCalls : Nat
deriving DecidableEq, Repr

namespace GlobalMeshingHeap

/-- Dereferencing a `MiniHeap *`. -/
def deref (h : GlobalMeshingHeap) (mh : Nat) : Except Fault MiniHeap :=
  match Map.lookup mh h.descriptors with
  | some d => .ok d
  | none => .error .badPointer

/-- Writing through a `MiniHeap *`. -/
def store (h : GlobalMeshingHeap) (mh : Nat) (d : MiniHeap) : GlobalMeshingHeap :=
  { h with descriptors := Map.insert mh d h.descriptors }

/-- The member `miniheapFor(ptr)`. -/
def miniheapFor (h : GlobalMeshingHeap) (ptr : Nat) : Except Fault (Option Nat) :=
  let ptrval := ptr
  match Map.greatest_leq h.miniheaps ptrval with
  | some it => do
    let candidate := it.2
    let d ← h.deref candidate
    if d.contains ptr then .ok (some candidate) else .ok none
  | none => .ok none

/-- The member `trackMiniheap(sizeClass, mh)`; `insertNext` links `mh` right
after the head. -/
def trackMiniheap (h : GlobalMeshingHeap) (sizeClass mh : Nat) :
    Except Fault GlobalMeshingHeap :=
  match h.littleheapCounts[sizeClass]?, h.littleheaps[sizeClass]? with
  | some count, some list =>
    .ok { h with
      littleheapCounts := h.littleheapCounts.set sizeClass ((count + 1) % 2 ^ 64)
      littleheaps := h.littleheaps.set sizeClass
        (match list with
         | [] => [mh]
         | head :: rest => head :: mh :: rest) }
  | _, _ => .error .outOfBounds

/-- The member `untrackMiniheap(sizeClass, mh)`; `remove` unlinks `mh` and the
head pointer moves on when `mh` was the head. -/
def untrackMiniheap (h : GlobalMeshingHeap) (sizeClass mh : Nat) :
    Except Fault GlobalMeshingHeap :=
  match h.littleheapCounts[sizeClass]?, h.littleheaps[sizeClass]? with
  | some count, some list =>
    .ok { h with
      littleheapCounts := h.littleheapCounts.set sizeClass ((count + 2 ^ 64 - 1) % 2 ^ 64)
      littleheaps := h.littleheaps.set sizeClass (list.erase mh) }
  | _, _ => .error .outOfBounds

/-- The member `freeMiniheapAfterMesh(mh)`: untrack, destroy and deallocate the
descriptor. -/
def freeMiniheapAfterMesh (h : GlobalMeshingHeap) (mh : Nat) :
    Except Fault GlobalMeshingHeap := do
  let d ← h.deref mh
  let sizeClass := size2Class d.objectSize
  let h ← h.untrackMiniheap (toSizeT sizeClass) mh
  .ok { h with descriptors := Map.erase mh h.descriptors }

/-- The member `freeMiniheap(mh)`; the second component is the value left in
the caller's reference `mh`. -/
def freeMiniheap (h : GlobalMeshingHeap) (mh : Nat) :
    Except Fault (GlobalMeshingHeap × Option Nat) := do
  let d ← h.deref mh
  let spans := d.spans
  let spanSize := d.spanSize
  let meshCount := d.meshCount
  let h := (spans.take meshCount).foldl
    (fun (h : GlobalMeshingHeap) span =>
      { h with arena := h.arena.free span spanSize, miniheaps := Map.erase span h.miniheaps })
    h
  let h := { h with stats := { h.stats with mhFreeCount := (h.stats.mhFreeCount + 1) % 2 ^ 64 } }
  let h ← h.freeMiniheapAfterMesh mh
  .ok (h, none)

/-- The copy loop of `mesh`, `for (auto const &off : src->bitmap())`, with the
iterator at index `it`. -/
def meshLoop (dst src srcSpan objectSize : Nat) :
    Nat → Nat → GlobalMeshingHeap → Except Fault GlobalMeshingHeap
  | 0, _, _ => .error .outOfFuel
  | fuel + 1, it, h => do
    let s ← h.deref src
    if it = s.bitmap.end then .ok h
    else
      let off := it
      let d ← h.deref dst
      let occupied ← d.bitmap.isSet off
      if occupied then .error .assertFail
      else
        let srcObject := srcSpan + off * objectSize
        let (dstObject, d) ← d.mallocAt off
        let h := h.store dst d
        match dstObject with
        | none => .error .assertFail
        | some dstObject =>
          let h := { h with memcpys := h.memcpys ++ [(dstObject, srcObject, objectSize)] }
          let s ← h.deref src
          let it ← s.bitmap.iterNext it
          meshLoop dst src srcSpan objectSize fuel it h

/-- The member `mesh(dst, src)`; `remapOk` is the outcome of the arena mesh
primitive and the second component is the value left in the caller's
reference `src`. -/
def mesh (h : GlobalMeshingHeap) (remapOk : Bool) (dst src : Nat) :
    Except Fault (GlobalMeshingHeap × Option Nat) := do
  let s ← h.deref src
  let srcSpan := s.getSpanStart
  let d ← h.deref dst
  let objectSize := d.objectSize
  let sz := d.spanSize
  let it ← s.bitmap.begin
  let h ← meshLoop dst src srcSpan objectSize (s.bitmap.bitCount + 1) it h
  let d ← h.deref dst
  let h := h.store dst (d.meshedSpan srcSpan)
  let d ← h.deref dst
  let s ← h.deref src
  let h := { h with arena := h.arena.mesh remapOk d.getSpanStart s.getSpanStart sz }
  let h ← h.freeMiniheapAfterMesh src
  .ok ({ h with miniheaps := Map.insert srcSpan dst h.miniheaps }, none)

/-- The member `meshAllSizeClasses()`; the pass of `randomSort` over the size
classes is commented out in the source, so `mergeSets` stays empty. -/
def meshAllSizeClasses (h : GlobalMeshingHeap) (remapOk : Bool) :
    Except Fault GlobalMeshingHeap :=
  let mergeSets : List (List Nat) := []
  if mergeSets.length = 0 then .ok h
  else do
    let h := { h with stats :=
      { h.stats with meshCount := (h.stats.meshCount + mergeSets.length) % 2 ^ 64 } }
    let h := { h with stopTheWorldCalls := h.stopTheWorldCalls + 1 }
    mergeSets.foldlM
      (fun (h : GlobalMeshingHeap) mergeSet =>
        match mergeSet with
        | [m0, m1] => do
          let (h, _) ← h.mesh remapOk m0 m1
          .ok h
        | _ => .error .assertFail)
      h

/-- The member `free(ptr)`; `isMeshMarker` is the predicate of `internal.h`, and
`dumpStats`, which only prints, is left out. -/
def free (h : GlobalMeshingHeap) (isMeshMarker : Nat → Bool) (remapOk : Bool) (ptr : Nat) :
    Except Fault GlobalMeshingHeap := do
  if isMeshMarker ptr then
    (List.range 128).foldlM (fun (h : GlobalMeshingHeap) _ => h.meshAllSizeClasses remapOk) h
  else
    match ← h.miniheapFor ptr with
    | some mh =>
      let d ← h.deref mh
      let d ← d.free ptr
      let h := h.store mh d
      let d ← h.deref mh
      if d.isDone && d.isEmpty then do
        let (h, _) ← h.freeMiniheap mh
        .ok h
      else .ok h
    | none => .ok { h with bigheap := h.bigheap.free ptr }

end GlobalMeshingHeap

end Mesh

/-! ## Further members of `bitmap.h` -/

namespace Mesh

namespace bitmap

/-- Search for the greatest set bit of `x` among the positions below `n`. -/
def lastSetBelow (x : Nat) : Nat → Option Nat
  | 0 => none
  | n + 1 => if x.testBit n then some n else lastSetBelow x n

/-- The builtin `__builtin_clzl`: the number of leading zero bits of a 64-bit
word (64 stands for the undefined result on the word zero). -/
def clzl (x : Nat) : Nat :=
  match lastSetBelow x 64 with
  | some p => 63 - p
  | none => 64

namespace Bitmap

/-- The constructor `BitmapBase(size_t bitCount)` over `AtomicBitmapBase<maxBits>`:
the bit count must not exceed `maxBits`, the inline storage of
`wordCount(representationSize(maxBits))` words is zero-initialised, and
`clear()` runs. -/
def constructAtomic (maxBits bitCount : Nat) : Except Fault Bitmap :=
  if ¬ bitCount ≤ maxBits then .error .assertFail
  else .ok (clear ⟨.atomic, bitCount,
    List.replicate (bitmap.wordCount (representationSize maxBits)) 0⟩)

/-- The constructor `BitmapBase(size_t bitCount)` over `RelaxedBitmapBase`:
`memory` is the content of the `representationSize(bitCount)` bytes that the
internal heap returned, and `clear()` runs. -/
def constructRelaxed (bitCount : Nat) (memory : List Nat) : Bitmap :=
  clear ⟨.relaxed, bitCount, memory⟩

/-- The `for` loop of `highestSetBitBeforeOrAt`, about to look at word `i` when
the first argument is `i + 1`; leaving the loop returns 0.  For
`startOff = 63` the mask of the shift is replaced by `~0UL`. -/
def highestSetBitBeforeOrAtLoop (b : Bitmap) : Nat → Nat → Except Fault Nat
  | 0, _ => .ok 0
  | i + 1, startOff => do
    let mask := (1 <<< (startOff + 1)) - 1
    let mask := if startOff = 63 then allOnes else mask
    let w ← b.word i
    let bits := w &&& mask
    if bits = 0 then highestSetBitBeforeOrAtLoop b i 63
    else
      let off := 64 - clzl bits - 1
      let bit := kWordBits * i + off
      .ok (if bit < b.bitCount then bit else b.bitCount)

/-- The member `highestSetBitBeforeOrAt(startingAt)`. -/
def highestSetBitBeforeOrAt (b : Bitmap) (startingAt : Nat) : Except Fault Nat := do
  let (startWord, startOff) ← b.computeItemPosition startingAt
  highestSetBitBeforeOrAtLoop b (startWord + 1) startOff

/-- A call of `tryToSet` or of `unset`. -/
inductive Op where
  | tryToSet (index : Nat)
  | unset (index : Nat)
deriving DecidableEq, Repr

/-- The index an operation is applied to. -/
def Op.index : Op → Nat
  | .tryToSet index => index
  | .unset index => index

/-- One call of `tryToSet` or `unset`, its result dropped. -/
def applyOp (b : Bitmap) : Op → Except Fault Bitmap
  | .tryToSet index => do
    let (_, b) ← b.tryToSet index
    .ok b
  | .unset index => do
    let (_, b) ← b.unset index
    .ok b

/-- A sequence of calls of `tryToSet` and `unset`, in order. -/
def run : Bitmap → List Op → Except Fault Bitmap
  | b, [] => .ok b
  | b, op :: ops => do
    let b ← b.applyOp op
    run b ops

/-- The last operation of the sequence applied to index `i` is a `tryToSet`. -/
def lastIsSet (ops : List Op) (i : Nat) : Bool :=
  match (ops.filter (fun op => decide (op.index = i))).getLast? with
  | some (.tryToSet _) => true
  | _ => false

/-- Successive calls `setFirstEmpty(0)`: the indices returned, in order, and the
bitmap left. -/
def setFirstEmptyTimes : Nat → Bitmap → Except Fault (List Nat × Bitmap)
  | 0, b => .ok ([], b)
  | n + 1, b => do
    let (i, b) ← b.setFirstEmpty 0
    let (rest, b) ← setFirstEmptyTimes n b
    .ok (i :: rest, b)

/-- The loop `for (it = begin(); it != end(); ++it)` from iterator index `it` on:
the indices `*it` visited, in order. -/
def iterateLoop (b : Bitmap) : Nat → Nat → Except Fault (List Nat)
  | 0, _ => .error .outOfFuel
  | fuel + 1, it =>
    if it = b.end then .ok []
    else do
      let next ← b.iterNext it
      let rest ← iterateLoop b fuel next
      .ok (it :: rest)

/-- Iterating over the bitmap from `begin()` with `operator++` until `end()`. -/
def iterate (b : Bitmap) : Except Fault (List Nat) := do
  let it ← b.begin
  iterateLoop b (b.bitCount + 1) it

end Bitmap

end bitmap

open bitmap (Bitmap)

/-! ## Further members of `globalmeshingheap.h` -/

/-- The constant `HL::CPUInfo::PageSize` of Heap-Layers, for 4096-byte pages. -/
def PageSize : Nat := 4096

/-- The default of the template parameter `MinStringLen`. -/
def MinStringLen : Nat := 8

/-- Modelled from the spec: `PageCount` of `internal.h`, which is not part of the
sources at hand: `⌈sz / pageSize⌉`. -/
def PageCount (sz : Nat) : Nat := (sz + PageSize - 1) / PageSize

/-- The member `size()` of the map: the number of keys. -/
def Map.size {β : Type} : List (Nat × β) → Nat
  | [] => 0
  | (k, _) :: m => (if (Map.lookup k m).isSome then 0 else 1) + Map.size m

/-- Modelled from the spec: the constructor
`MiniHeap(span, objectCount, objectSize, prng, spanSize)`: one span, an atomic
bitmap of `objectCount` bits with 256 bits of storage, not done. -/
def MiniHeap.construct (span objectCount objectSize spanSize : Nat) : Except Fault MiniHeap := do
  let bm ← Bitmap.constructAtomic 256 objectCount
  .ok { spans := [span], objectSize := objectSize, objectCount := objectCount,
        spanSize := spanSize, bitmap := bm, done := false }

/-- Modelled from the spec: `MeshableArena::malloc(sz)` hands out the span at
`span`, which the arena chose. -/
def MeshableArena.malloc (a : MeshableArena) (span sz : Nat) : MeshableArena :=
  { a with allocated := Map.insert span sz a.allocated }

/-- Modelled from the spec: `malloc(sz)` of the big heap records the allocation
at `ptr`, which the big heap chose. -/
def BigHeap.malloc (h : BigHeap) (ptr sz : Nat) : BigHeap :=
  { h with live := Map.insert ptr sz h.live }

namespace GlobalMeshingHeap

/-- The member `allocMiniheap(objectSize)`.  `span` is what `Super::malloc`
returns and `buf` what the internal heap returns for the descriptor (`none`
for `nullptr`); the result is the new state and the `MiniHeap *`. -/
def allocMiniheap (h : GlobalMeshingHeap) (span buf : Option Nat) (objectSize : Nat) :
    Except Fault (GlobalMeshingHeap × Nat) :=
  if ¬ objectSize ≤ h.maxObjectSize then .error .assertFail
  else
    let sizeClass := size2Class objectSize
    let sizeMax := class2Size sizeClass
    if ¬ objectSize = sizeMax then .error .assertFail
    else if ¬ sizeClass ≥ 0 then .error .assertFail
    else if ¬ sizeClass < NumBins then .error .assertFail
    else
      -- objects bigger than a page get multiple pages
      let nObjects := max (PageSize / sizeMax) MinStringLen
      let nPages := PageCount (sizeMax * nObjects)
      let spanSize := PageSize * nPages
      if ¬ 0 < spanSize then .error .assertFail
      else
        match span, buf with
        | none, _ => .error .abort
        | some _, none => .error .abort
        | some span, some buf => do
          let h := { h with arena := h.arena.malloc span spanSize }
          let mh ← MiniHeap.construct span nObjects sizeMax spanSize
          let h := h.store buf mh
          let h ← h.trackMiniheap (toSizeT sizeClass) buf
          let d ← h.deref buf
          let h := { h with miniheaps := Map.insert d.getSpanStart buf h.miniheaps }
          let h := { h with stats :=
            { h.stats with mhAllocCount := (h.stats.mhAllocCount + 1) % 2 ^ 64 } }
          let h := { h with stats :=
            { h.stats with mhHighWaterMark := max (Map.size h.miniheaps) h.stats.mhHighWaterMark } }
          match h.littleheapCounts[toSizeT sizeClass]?, h.stats.mhClassHWM[toSizeT sizeClass]? with
          | some count, some hwm =>
            .ok ({ h with stats :=
              { h.stats with mhClassHWM :=
                  h.stats.mhClassHWM.set (toSizeT sizeClass) (max count hwm) } }, buf)
          | _, _ => .error .outOfBounds

/-- The member `malloc(sz)`.  `ptr` is what `_bigheap.malloc(sz)` returns (`none`
for `nullptr`); the result is the new state and the pointer returned. -/
def malloc (h : GlobalMeshingHeap) (ptr : Option Nat) (sz : Nat) :
    Except Fault (GlobalMeshingHeap × Option Nat) :=
  let sizeClass := size2Class sz
  let sizeMax := class2Size sizeClass
  if sizeMax ≤ h.maxObjectSize then .error .abort
  else
    match ptr with
    | some p => .ok ({ h with bigheap := h.bigheap.malloc p sz }, some p)
    | none => .ok (h, none)

end GlobalMeshingHeap

end Mesh

/-! ## Members of `RelaxedBitmapBase`, and the rest of `globalmeshingheap.h` -/

namespace Mesh

namespace bitmap

namespace Bitmap

/-- The member `invert()` of `RelaxedBitmapBase` (the atomic base has none):
each of the `wordCount(representationSize(_bitCount))` words is complemented. -/
def invert (b : Bitmap) : Except Fault Bitmap :=
  let numWords := bitmap.wordCount (representationSize b.bitCount)
  (List.range numWords).foldlM
    (fun (b : Bitmap) i => do
      let w ← b.word i
      .ok { b with bits := b.bits.set i (wnot w) })
    b

/-- The member `setAll()` of `RelaxedBitmapBase` (the atomic base has none):
each of the `wordCount(representationSize(_bitCount))` words becomes
`(unsigned long) -1`. -/
def setAll (b : Bitmap) : Except Fault Bitmap :=
  let numWords := bitmap.wordCount (representationSize b.bitCount)
  (List.range numWords).foldlM
    (fun (b : Bitmap) i =>
      if i < b.bits.length then .ok { b with bits := b.bits.set i allOnes }
      else .error .outOfBounds)
    b

end Bitmap

end bitmap

open bitmap (Bitmap)

namespace GlobalMeshingHeap

/-- The member `getSize(ptr)`; `nullptr` is the address 0 and `isMeshMarker` is
the predicate of `internal.h`. -/
def getSize (h : GlobalMeshingHeap) (isMeshMarker : Nat → Bool) (ptr : Nat) :
    Except Fault Nat := do
  if ptr = 0 || isMeshMarker ptr then .ok 0
  else
    match ← h.miniheapFor ptr with
    | some mh =>
      let d ← h.deref mh
      .ok (d.getSize ptr)
    | none => .ok (h.bigheap.getSize ptr)

/-- The member `resetNextMeshCheck()`; `draw` is what
`uniform_int_distribution<size_t>(1, MeshPeriod)` returns for the generator. -/
def resetNextMeshCheck (h : GlobalMeshingHeap) (draw : Nat) : GlobalMeshingHeap :=
  { h with nextMeshCheck := draw }

/-- The member `shouldMesh()`: the new state and the value returned; `draw` is
the value of the distribution if the counter is redrawn. -/
def shouldMesh (h : GlobalMeshingHeap) (draw : Nat) : GlobalMeshingHeap × Bool :=
  let h := { h with nextMeshCheck := (h.nextMeshCheck + 2 ^ 64 - 1) % 2 ^ 64 }
  let shouldMesh := decide (h.nextMeshCheck = 0)
  if shouldMesh then (h.resetNextMeshCheck draw, shouldMesh)
  else (h, shouldMesh)

/-- The constructor: `_maxObjectSize` is the size of the last class, the
size-class lists are empty, and the counter is drawn. -/
def construct (draw : Nat) : GlobalMeshingHeap :=
  resetNextMeshCheck
    { arena := { allocated := [], meshed := [] }
      descriptors := []
      maxObjectSize := class2Size ((NumBins : Int) - 1)
      nextMeshCheck := 0
      bigheap := { live := [] }
      littleheapCounts := List.replicate NumBins 0
      littleheaps := List.replicate NumBins []
      miniheaps := []
      stats := { meshCount := 0, mhFreeCount := 0, mhAllocCount := 0, mhHighWaterMark := 0,
                 mhClassHWM := List.replicate NumBins 0 }
      memcpys := []
      stopTheWorldCalls := 0 }
    draw

/-- Successive calls of `shouldMesh()`, one per element of `draws` (the value
the distribution would return at that call): the final state and the values
returned, in order. -/
def shouldMeshCalls (h : GlobalMeshingHeap) : List Nat → GlobalMeshingHeap × List Bool
  | [] => (h, [])
  | draw :: draws =>
    let r := h.shouldMesh draw
    let rs := shouldMeshCalls r.1 draws
    (rs.1, r.2 :: rs.2)

end GlobalMeshingHeap

/-! ## `memalign` -/

/-- Modelled from the spec: the size class `memalign(alignment, size)` serves
from, "the smallest size class whose max size is both ≥ `size` and a multiple of
`alignment`"; `none` when no class qualifies and the request goes to the big
heap.  The source of `memalign` (`thread_local_heap.h`) is not at hand. -/
def memalignClass (alignment size : Nat) : Option Nat :=
  (List.range NumBins).find?
    (fun c => decide (size ≤ class2Size c) && decide (class2Size c % alignment = 0))

/-- Modelled from the spec: `memalign(alignment, size)` "returns a pointer from
the smallest size class whose max size is both ≥ `size` and a multiple of
`alignment`, or delegates to the big heap".  `attached c` is the miniheap of
class `c` the thread-local cache allocates from and the slot it hands out, and
`big` is what the big heap returns. -/
def memalign (attached : Nat → MiniHeap × Nat) (big : Option Nat) (alignment size : Nat) :
    Except Fault (Option Nat) :=
  match memalignClass alignment size with
  | some c => do
    let (mh, slot) := attached c
    let (ptr, _) ← mh.mallocAt slot
    .ok ptr
  | none => .ok big

end Mesh

/-! # Example states -/

namespace Mesh
namespace bitmap
namespace Bitmap

/-- A ten-bit atomic bitmap with the bits 0, 2, 3 and 5 set. -/
def exampleBitmap : Bitmap := ⟨.atomic, 10, [45, 0, 0, 0]⟩

/-- An eight-bit atomic bitmap with all eight bits set. -/
def fullBitmap8 : Bitmap := ⟨.atomic, 8, [255, 0, 0, 0]⟩

/-- A 256-bit atomic bitmap with all bits set. -/
def fullBitmap256 : Bitmap := ⟨.atomic, 256, [allOnes, allOnes, allOnes, allOnes]⟩

/-- A 64-bit relaxed bitmap with all bits set. -/
def fullRelaxed64 : Bitmap := ⟨.relaxed, 64, [allOnes]⟩

end Bitmap
end bitmap
end Mesh

namespace Mesh

/-- A miniheap of eight 512-byte objects over the span at 65536, with the slots
0, 2, 4, 6 allocated (bitmap `10101010`). -/
def exampleDst : MiniHeap :=
  { spans := [65536], objectSize := 512, objectCount := 8, spanSize := 4096,
    bitmap := ⟨.atomic, 8, [85, 0, 0, 0]⟩, done := true }

/-- A miniheap of eight 512-byte objects over the span at 131072, with the slots
1, 3, 5, 7 allocated (bitmap `01010101`). -/
def exampleSrc : MiniHeap :=
  { spans := [131072], objectSize := 512, objectCount := 8, spanSize := 4096,
    bitmap := ⟨.atomic, 8, [170, 0, 0, 0]⟩, done := true }

/-- A heap with the two miniheaps above, their descriptors at the addresses 1000
and 2000, both tracked in size class 5. -/
def exampleHeap : GlobalMeshingHeap :=
  { arena := { allocated := [(65536, 4096), (131072, 4096)], meshed := [] }
    descriptors := [(1000, exampleDst), (2000, exampleSrc)]
    maxObjectSize := 16384
    nextMeshCheck := 1
    bigheap := { live := [] }
    littleheapCounts := [0, 0, 0, 0, 0, 2, 0, 0, 0, 0, 0]
    littleheaps := [[], [], [], [], [], [1000, 2000], [], [], [], [], []]
    miniheaps := [(65536, 1000), (131072, 2000)]
    stats := { meshCount := 0, mhFreeCount := 0, mhAllocCount := 2, mhHighWaterMark := 2,
               mhClassHWM := [0, 0, 0, 0, 0, 2, 0, 0, 0, 0, 0] }
    memcpys := []
    stopTheWorldCalls := 0 }

end Mesh

namespace Mesh

/-- A miniheap that is not done, with the slots 0, 2, 4, 6 allocated. -/
def exampleOpenA : MiniHeap := { exampleDst with done := false }

/-- A miniheap that is not done, with the slots 1, 3, 5, 7 allocated. -/
def exampleOpenB : MiniHeap := { exampleSrc with done := false }

/-- A miniheap that is not done, with the bitmap `11110000`. -/
def exampleOverlapA : MiniHeap := { exampleOpenA with bitmap := ⟨.atomic, 8, [15, 0, 0, 0]⟩ }

/-- A miniheap that is not done, with the bitmap `00111100`. -/
def exampleOverlapB : MiniHeap := { exampleOpenB with bitmap := ⟨.atomic, 8, [60, 0, 0, 0]⟩ }

end Mesh

namespace Mesh

/-- A miniheap of eight 512-byte objects over the span at 196608, with the slot 2
allocated. -/
def exampleThird : MiniHeap :=
  { exampleSrc with spans := [196608], bitmap := ⟨.atomic, 8, [4, 0, 0, 0]⟩ }

/-- A heap with three miniheaps of size class 5: the descriptors at 1000, 2000
and 3000 over the spans at 65536, 131072 and 196608, with the slots {0, 4},
{1, 5} and {2} allocated. -/
def exampleHeap3 : GlobalMeshingHeap :=
  { arena := { allocated := [(65536, 4096), (131072, 4096), (196608, 4096)], meshed := [] }
    descriptors :=
      [(1000, { exampleDst with bitmap := ⟨.atomic, 8, [17, 0, 0, 0]⟩ }),
       (2000, { exampleSrc with bitmap := ⟨.atomic, 8, [34, 0, 0, 0]⟩ }),
       (3000, exampleThird)]
    maxObjectSize := 16384
    nextMeshCheck := 1
    bigheap := { live := [] }
    littleheapCounts := [0, 0, 0, 0, 0, 3, 0, 0, 0, 0, 0]
    littleheaps := [[], [], [], [], [], [1000, 2000, 3000], [], [], [], [], []]
    miniheaps := [(65536, 1000), (131072, 2000), (196608, 3000)]
    stats := { meshCount := 0, mhFreeCount := 0, mhAllocCount := 3, mhHighWaterMark := 3,
               mhClassHWM := [0, 0, 0, 0, 0, 3, 0, 0, 0, 0, 0] }
    memcpys := []
    stopTheWorldCalls := 0 }

/-- The heap `exampleHeap3` after `mesh(2000, 3000)`: the miniheap at 2000 owns
the two spans at 131072 and 196608, and both keys map to it. -/
def exampleHeapTwoSpans : GlobalMeshingHeap :=
  { arena := { allocated := [(65536, 4096), (131072, 4096), (196608, 4096)],
               meshed := [(131072, 196608, 4096)] }
    descriptors :=
      [(2000, { exampleSrc with spans := [131072, 196608],
                                bitmap := ⟨.atomic, 8, [38, 0, 0, 0]⟩ }),
       (1000, { exampleDst with bitmap := ⟨.atomic, 8, [17, 0, 0, 0]⟩ })]
    maxObjectSize := 16384
    nextMeshCheck := 1
    bigheap := { live := [] }
    littleheapCounts := [0, 0, 0, 0, 0, 2, 0, 0, 0, 0, 0]
    littleheaps := [[], [], [], [], [], [1000, 2000], [], [], [], [], []]
    miniheaps := [(196608, 2000), (65536, 1000), (131072, 2000)]
    stats := { meshCount := 0, mhFreeCount := 0, mhAllocCount := 3, mhHighWaterMark := 3,
               mhClassHWM := [0, 0, 0, 0, 0, 3, 0, 0, 0, 0, 0] }
    memcpys := [(132096, 197632, 512)]
    stopTheWorldCalls := 0 }

end Mesh

namespace Mesh

/-- A miniheap that is not done, over the span at 196608, with the slot 2
allocated. -/
def exampleOpenC : MiniHeap := { exampleThird with done := false }

/-- The predicate `isMeshMarker` for a marker at the address 12345. -/
def exampleMarker (ptr : Nat) : Bool := decide (ptr = 12345)

/-- A heap like `exampleHeap` whose big heap holds an allocation of 20000 bytes
at 900000. -/
def exampleHeapBig : GlobalMeshingHeap :=
  { exampleHeap with bigheap := { live := [(900000, 20000)] } }

/-- For each size class, a fresh miniheap of eight objects of that class over
the page-aligned span at 65536, and the slot 3. -/
def exampleAttached (c : Nat) : MiniHeap × Nat :=
  ({ spans := [65536], objectSize := class2Size c, objectCount := 8,
     spanSize := PageSize * PageCount (class2Size c * 8),
     bitmap := ⟨.atomic, 8, [0, 0, 0, 0]⟩, done := false }, 3)

end Mesh

/-! # Lemmas -/

namespace Mesh
namespace bitmap

/-! ## Words and bits -/

theorem wnot_lt (x : Nat) : wnot x < 2 ^ 64 := by
  unfold wnot
  exact Nat.sub_lt (by norm_num) (Nat.succ_pos x)

theorem testBit_wnot {x : Nat} (hx : x < 2 ^ 64) (i : Nat) :
    (wnot x).testBit i = (decide (i < 64) && !x.testBit i) := by
  unfold wnot
  exact Nat.testBit_two_pow_sub_succ hx i

theorem getMask_eq {p : Nat} (hp : p < 64) : getMask p = 2 ^ p := by
  unfold getMask
  rw [Nat.shiftLeft_eq, one_mul]
  exact Nat.mod_eq_of_lt (Nat.pow_lt_pow_right (by norm_num) hp)

theorem and_two_pow_eq_zero (w p : Nat) : w &&& 2 ^ p = 0 ↔ w.testBit p = false := by
  constructor
  · intro h
    have h1 : (w &&& 2 ^ p).testBit p = false := by rw [h]; exact Nat.zero_testBit p
    rw [Nat.testBit_and, Nat.testBit_two_pow_self, Bool.and_true] at h1
    exact h1
  · intro h
    apply Nat.eq_of_testBit_eq
    intro i
    rw [Nat.testBit_and, Nat.testBit_two_pow, Nat.zero_testBit]
    by_cases hpi : p = i
    · subst hpi; simp [h]
    · simp [hpi]

theorem testBit_or_two_pow (w p i : Nat) :
    (w ||| 2 ^ p).testBit i = (w.testBit i || decide (p = i)) := by
  rw [Nat.testBit_or, Nat.testBit_two_pow]

theorem testBit_false_of_lt {w : Nat} (hw : w < 2 ^ 64) {i : Nat} (hi : 64 ≤ i) :
    w.testBit i = false :=
  Nat.testBit_lt_two_pow (lt_of_lt_of_le hw (Nat.pow_le_pow_right (by norm_num) hi))

theorem allOnes_testBit (i : Nat) : allOnes.testBit i = decide (i < 64) := by
  unfold allOnes
  exact Nat.testBit_two_pow_sub_one 64 i

theorem eq_allOnes_of_bits {w : Nat} (hw : w < 2 ^ 64)
    (h : ∀ i, i < 64 → w.testBit i = true) : w = allOnes := by
  apply Nat.eq_of_testBit_eq
  intro i
  rw [allOnes_testBit]
  by_cases hi : i < 64
  · simp [hi, h i hi]
  · simp [hi, testBit_false_of_lt hw (Nat.le_of_not_lt hi)]

theorem firstSetFrom_some (x : Nat) :
    ∀ (n p q : Nat), p ≤ q → q < p + n → x.testBit q = true →
      ∃ r, firstSetFrom x n p = some r ∧ p ≤ r ∧ r ≤ q ∧ x.testBit r = true ∧
        ∀ k, p ≤ k → k < r → x.testBit k = false := by
  intro n
  induction n with
  | zero => intro p q h1 h2; omega
  | succ n ih =>
    intro p q h1 h2 hq
    unfold firstSetFrom
    by_cases hp : x.testBit p = true
    · refine ⟨p, by simp [hp], le_refl p, h1, hp, ?_⟩
      intro k hk1 hk2; omega
    · have hpq : p ≠ q := by
        intro h; subst h; exact hp hq
      obtain ⟨r, hr, hr1, hr2, hr3, hr4⟩ := ih (p + 1) q (by omega) (by omega) hq
      refine ⟨r, by simp [hp, hr], by omega, hr2, hr3, ?_⟩
      intro k hk1 hk2
      by_cases hkp : k = p
      · subst hkp; simpa using hp
      · exact hr4 k (by omega) hk2

/-- On a word with a set bit below position 64, `ffsll - 1` is the least set
position. -/
theorem ffsll_spec (x q : Nat) (hq : q < 64) (hx : x.testBit q = true) :
    ∃ r, ffsll x - 1 = r ∧ r ≤ q ∧ x.testBit r = true ∧
      ∀ k, k < r → x.testBit k = false := by
  obtain ⟨r, hr, _, hr2, hr3, hr4⟩ := firstSetFrom_some x 64 0 q (Nat.zero_le q) (by omega) hx
  refine ⟨r, ?_, hr2, hr3, fun k hk => hr4 k (Nat.zero_le k) hk⟩
  unfold ffsll
  rw [hr]
  rfl

namespace Bitmap

/-! ## Item and position of an index -/

theorem wordCount_representationSize (n : Nat) :
    bitmap.wordCount (representationSize n) = (n + 63) / 64 := by
  unfold bitmap.wordCount representationSize kWordBits kWordBytes
  omega

theorem byteCount_div (b : Bitmap) : b.byteCount / 8 = (b.bitCount + 63) / 64 := by
  unfold byteCount representationSize kWordBits
  omega

theorem byteCount_eq (b : Bitmap) : b.byteCount = 8 * ((b.bitCount + 63) / 64) := by
  unfold byteCount representationSize kWordBits
  omega

theorem computeItemPosition_eq {b : Bitmap} (hb : b.bitCount < 2 ^ 32) {index : Nat}
    (hi : index < b.bitCount) :
    b.computeItemPosition index = .ok (index / 64, index % 64) := by
  have h1 : index >>> kWordBitshift = index / 64 := by
    unfold kWordBitshift; rw [Nat.shiftRight_eq_div_pow]
  have h2 : index &&& (kWordBits - 1) = index % 64 := by
    unfold kWordBits
    exact Nat.and_pow_two_sub_one_eq_mod index 6
  have h3 : index / 64 % 2 ^ 32 = index / 64 := Nat.mod_eq_of_lt (by omega)
  have h4 : index % 64 % 2 ^ 32 = index % 64 := Nat.mod_eq_of_lt (by omega)
  have h5 : (index / 64) <<< kWordBitshift % 2 ^ 32 = index / 64 * 64 := by
    unfold kWordBitshift
    rw [Nat.shiftLeft_eq]
    exact Nat.mod_eq_of_lt (by omega)
  have h6 : index / 64 < b.byteCount / 8 := by
    rw [byteCount_div]; omega
  unfold computeItemPosition
  simp only [h1, h2, h3, h4, h5]
  rw [if_neg (by simpa using hi), if_neg (by simp; omega), if_neg (by simpa using h6)]

/-- Beyond 32 bits the shift of the second assertion wraps: the index `2 ^ 32` of a
larger bitmap fails it. -/
theorem computeItemPosition_wraps {b : Bitmap} (hb : 2 ^ 32 < b.bitCount) :
    b.computeItemPosition (2 ^ 32) = .error .assertFail := by
  unfold computeItemPosition
  rw [if_neg (by simpa using hb)]
  have h1 : (2 ^ 32 >>> kWordBitshift) % 2 ^ 32 = 2 ^ 26 := by decide
  have h2 : (2 ^ 32 &&& (kWordBits - 1)) % 2 ^ 32 = 0 := by decide
  have h3 : (2 ^ 26 <<< kWordBitshift) % 2 ^ 32 = 0 := by decide
  simp only [h1, h2, h3]
  rw [if_pos (by decide)]

theorem word_eq {b : Bitmap} {i : Nat} (hi : i < b.bits.length) :
    b.word i = .ok (b.bits.getD i 0) := by
  unfold word
  simp [List.getD, List.getElem?_eq_getElem hi]

theorem word_error {b : Bitmap} {i : Nat} (hi : b.bits.length ≤ i) :
    b.word i = .error .outOfBounds := by
  unfold word
  simp [List.getElem?_eq_none hi]

theorem getD_lt {b : Bitmap} (hw : ∀ w ∈ b.bits, w < 2 ^ 64) (i : Nat) :
    b.bits.getD i 0 < 2 ^ 64 := by
  by_cases hi : i < b.bits.length
  · rw [List.getD_eq_getElem _ _ hi]
    exact hw _ (List.getElem_mem _)
  · rw [List.getD_eq_default _ _ (Nat.le_of_not_lt hi)]
    norm_num

end Bitmap
end bitmap
end Mesh

namespace Mesh
namespace bitmap
namespace Bitmap

/-! ## Setting one bit -/

theorem setAt_eq {b : Bitmap} {item position : Nat} (hi : item < b.bits.length)
    (hp : position < 64) :
    b.setAt item position =
      .ok (!(b.bits.getD item 0).testBit position,
        { b with bits := b.bits.set item (b.bits.getD item 0 ||| 2 ^ position) }) := by
  have hm : ∀ w : Nat, decide (w &&& 2 ^ position = 0) = !w.testBit position := by
    intro w
    cases h : w.testBit position
    · simpa using (and_two_pow_eq_zero w position).2 h
    · have : ¬ (w &&& 2 ^ position = 0) := by
        intro h0
        rw [(and_two_pow_eq_zero w position).1 h0] at h
        exact Bool.noConfusion h
      simpa using this
  unfold setAt
  cases hs : b.super <;>
    simp [word_eq hi, getMask_eq hp, atomicSetLoop, atomic_compare_exchange_weak, hm,
      bind, Except.bind]

theorem tryToSet_eq {b : Bitmap} (hwf : b.WF) {i : Nat} (hi : i < b.bitCount) :
    b.tryToSet i = .ok (!b.storageBit i, b.withBit i) := by
  obtain ⟨h1, h2, _⟩ := hwf
  have hlen : i / 64 < b.bits.length := by
    rw [wordCount_representationSize] at h2; omega
  unfold tryToSet
  rw [computeItemPosition_eq h1 hi]
  simp only [bind, Except.bind]
  rw [setAt_eq hlen (Nat.mod_lt i (by norm_num))]
  rfl

theorem isSet_eq {b : Bitmap} (hwf : b.WF) {i : Nat} (hi : i < b.bitCount) :
    b.isSet i = .ok (b.storageBit i) := by
  obtain ⟨h1, h2, _⟩ := hwf
  have hlen : i / 64 < b.bits.length := by
    rw [wordCount_representationSize] at h2; omega
  unfold isSet
  rw [computeItemPosition_eq h1 hi]
  simp only [bind, Except.bind]
  rw [word_eq hlen, getMask_eq (Nat.mod_lt i (by norm_num))]
  simp only [storageBit]
  generalize b.bits.getD (i / 64) 0 = w
  cases h : w.testBit (i % 64)
  · simp [(and_two_pow_eq_zero _ _).2 h]
  · have : ¬ (w &&& 2 ^ (i % 64) = 0) := by
      intro h0
      rw [(and_two_pow_eq_zero _ _).1 h0] at h
      exact Bool.noConfusion h
    simp [this]

theorem isSet_error {b : Bitmap} {i : Nat} (hi : ¬ i < b.bitCount) :
    b.isSet i = .error .assertFail := by
  unfold isSet computeItemPosition
  simp [hi, bind, Except.bind]

theorem withBit_bitCount (b : Bitmap) (k : Nat) : (b.withBit k).bitCount = b.bitCount := rfl

theorem withBit_super (b : Bitmap) (k : Nat) : (b.withBit k).super = b.super := rfl

theorem withBit_length (b : Bitmap) (k : Nat) : (b.withBit k).bits.length = b.bits.length := by
  simp [withBit]

theorem withBit_WF {b : Bitmap} (hwf : b.WF) (k : Nat) : (b.withBit k).WF := by
  obtain ⟨h1, h2, h3⟩ := hwf
  refine ⟨h1, by rw [withBit_length]; exact h2, ?_⟩
  intro w hw
  simp only [withBit] at hw
  rcases List.mem_or_eq_of_mem_set hw with h | h
  · exact h3 w h
  · rw [h]
    exact Nat.or_lt_two_pow (getD_lt h3 _)
      (Nat.pow_lt_pow_right (by norm_num) (Nat.mod_lt k (by norm_num)))

theorem storageBit_withBit {b : Bitmap} {k : Nat} (hk : k / 64 < b.bits.length) (j : Nat) :
    (b.withBit k).storageBit j = (b.storageBit j || decide (j = k)) := by
  unfold storageBit withBit
  simp only [List.getD_eq_getElem?_getD, List.getElem?_set]
  by_cases h : k / 64 = j / 64
  · rw [if_pos h, if_pos hk]
    simp only [Option.getD_some, testBit_or_two_pow]
    rw [← h]
    by_cases h2 : k % 64 = j % 64
    · have : j = k := by omega
      simp [h2, this]
    · have : ¬ j = k := by intro hjk; subst hjk; exact h2 rfl
      simp [h2, this]
  · rw [if_neg h]
    have : ¬ j = k := by intro hjk; subst hjk; exact h rfl
    simp [this]

theorem isSet_congr {b b' : Bitmap} (hwf : b.WF) (hwf' : b'.WF)
    (hc : b'.bitCount = b.bitCount) {j : Nat} (hj : b'.storageBit j = b.storageBit j) :
    b'.isSet j = b.isSet j := by
  by_cases h : j < b.bitCount
  · rw [isSet_eq hwf h, isSet_eq hwf' (hc ▸ h), hj]
  · rw [isSet_error h, isSet_error (hc ▸ h)]

end Bitmap
end bitmap
end Mesh

namespace Mesh
namespace bitmap
namespace Bitmap

/-! ## The scan of `setFirstEmpty` -/

theorem storageBit_of_div {b : Bitmap} {i k : Nat} (hk : k / 64 = i) :
    b.storageBit k = (b.bits.getD i 0).testBit (k % 64) := by
  unfold storageBit; rw [hk]

theorem wnot_ne_zero {w : Nat} (hw : w < 2 ^ 64) (h : w ≠ allOnes) : wnot w ≠ 0 := by
  unfold wnot
  unfold allOnes at h
  omega

theorem testBit_scanMask {w : Nat} (hw : w < 2 ^ 64) {off : Nat} (hoff : off < 64) (p : Nat) :
    (wnot w &&& wnot ((1 <<< off) - 1)).testBit p =
      (decide (p < 64) && !w.testBit p && !decide (p < off)) := by
  have h1 : (1 <<< off) - 1 = 2 ^ off - 1 := by rw [Nat.shiftLeft_eq, one_mul]
  have h2 : 2 ^ off - 1 < 2 ^ 64 :=
    lt_of_le_of_lt (Nat.sub_le _ _) (Nat.pow_lt_pow_right (by norm_num) hoff)
  rw [Nat.testBit_and, testBit_wnot hw, h1, testBit_wnot h2, Nat.testBit_two_pow_sub_one]
  cases decide (p < 64) <;> simp

theorem setFirstEmptyLoop_spec :
    ∀ (remaining : Nat) (b : Bitmap) (i off j : Nat),
      (∀ w ∈ b.bits, w < 2 ^ 64) → off < 64 → 64 * i + off ≤ j → j / 64 < i + remaining →
      j / 64 < b.bits.length → b.storageBit j = false →
      ∃ r, setFirstEmptyLoop remaining b i off = .ok (r, b.withBit r) ∧
        64 * i + off ≤ r ∧ r ≤ j ∧ b.storageBit r = false ∧
        ∀ k, 64 * i + off ≤ k → k < r → b.storageBit k = true := by
  intro remaining
  induction remaining with
  | zero => intro b i off j _ _ h1 h2; omega
  | succ n ih =>
    intro b i off j hw hoff hle hrem hlen hj
    have hi : i < b.bits.length := by omega
    have hwi : b.bits.getD i 0 < 2 ^ 64 := getD_lt hw i
    unfold setFirstEmptyLoop
    rw [word_eq hi]
    simp only [bind, Except.bind]
    by_cases hall : b.bits.getD i 0 = allOnes
    · -- the word is full: go on with the next word
      rw [if_pos hall]
      have hne : j / 64 ≠ i := by
        intro he
        rw [storageBit_of_div he, hall, allOnes_testBit] at hj
        have := Nat.mod_lt j (show 0 < 64 by norm_num)
        simp [this] at hj
      obtain ⟨r, hr, hr1, hr2, hr3, hr4⟩ :=
        ih b (i + 1) 0 j hw (by norm_num) (by omega) (by omega) hlen hj
      refine ⟨r, hr, by omega, hr2, hr3, ?_⟩
      intro k hk1 hk2
      by_cases hk : k / 64 = i
      · rw [storageBit_of_div hk, hall, allOnes_testBit]
        simpa using Nat.mod_lt k (show 0 < 64 by norm_num)
      · exact hr4 k (by omega) hk2
    · rw [if_neg hall, if_neg (by omega), if_neg (wnot_ne_zero hwi hall)]
      by_cases hz : wnot (b.bits.getD i 0) &&& wnot ((1 <<< off) - 1) = 0
      · -- no clear bit at or after the offset in this word
        rw [if_pos hz]
        have hbits : ∀ p, p < 64 → off ≤ p → (b.bits.getD i 0).testBit p = true := by
          intro p hp1 hp2
          have := testBit_scanMask hwi hoff p
          rw [hz, Nat.zero_testBit] at this
          have hp3 : ¬ p < off := by omega
          simpa [hp1, hp3] using this.symm
        have hne : j / 64 ≠ i := by
          intro he
          rw [storageBit_of_div he,
            hbits (j % 64) (Nat.mod_lt j (by norm_num)) (by omega)] at hj
          exact Bool.noConfusion hj
        obtain ⟨r, hr, hr1, hr2, hr3, hr4⟩ :=
          ih b (i + 1) 0 j hw (by norm_num) (by omega) (by omega) hlen hj
        refine ⟨r, hr, by omega, hr2, hr3, ?_⟩
        intro k hk1 hk2
        by_cases hk : k / 64 = i
        · rw [storageBit_of_div hk]
          exact hbits (k % 64) (Nat.mod_lt k (by norm_num)) (by omega)
        · exact hr4 k (by omega) hk2
      · -- the first clear bit at or after the offset is claimed
        rw [if_neg hz]
        obtain ⟨q, hq⟩ := Nat.ne_zero_implies_bit_true hz
        have hq64 : q < 64 := by
          rw [testBit_scanMask hwi hoff] at hq
          by_contra hc
          simp [hc] at hq
        obtain ⟨r0, hr0, hr0q, hr0set, hr0min⟩ := ffsll_spec _ q hq64 hq
        rw [hr0]
        have hr0' := hr0set
        rw [testBit_scanMask hwi hoff] at hr0'
        have hr064 : r0 < 64 := by omega
        have hr0off : off ≤ r0 := by
          by_contra hc
          have : r0 < off := by omega
          simp [this] at hr0'
        have hr0clear : (b.bits.getD i 0).testBit r0 = false := by
          simpa [hr064, hr0off] using hr0'
        rw [setAt_eq hi hr064, hr0clear]
        have hdiv : (64 * i + r0) / 64 = i := by omega
        have hmod : (64 * i + r0) % 64 = r0 := by omega
        refine ⟨64 * i + r0, ?_, by omega, ?_, ?_, ?_⟩
        · simp [withBit, hdiv, hmod, kWordBits]
        · by_cases he : j / 64 = i
          · have hjm : (b.bits.getD i 0).testBit (j % 64) = false := by
              rw [← storageBit_of_div he]; exact hj
            have hjset : (wnot (b.bits.getD i 0) &&& wnot ((1 <<< off) - 1)).testBit (j % 64)
                = true := by
              have h1 : j % 64 < 64 := Nat.mod_lt j (by norm_num)
              have h2 : ¬ j % 64 < off := by omega
              rw [testBit_scanMask hwi hoff, hjm]
              simp [h1, h2]
            have : r0 ≤ j % 64 := by
              by_contra hc
              rw [hr0min (j % 64) (by omega)] at hjset
              exact Bool.noConfusion hjset
            omega
          · omega
        · rw [storageBit_of_div hdiv, hmod]; exact hr0clear
        · intro k hk1 hk2
          have hk : k / 64 = i := by omega
          rw [storageBit_of_div hk]
          have h1 := hr0min (k % 64) (by omega)
          rw [testBit_scanMask hwi hoff] at h1
          have h2 : k % 64 < 64 := Nat.mod_lt k (by norm_num)
          have h3 : ¬ k % 64 < off := by omega
          simpa [h2, h3] using h1

theorem setFirstEmpty_eq {b : Bitmap} (hwf : b.WF) {startAt j : Nat}
    (hs : startAt ≤ j) (hj : j < b.bitCount) (hclear : b.storageBit j = false) :
    ∃ r, b.setFirstEmpty startAt = .ok (r, b.withBit r) ∧ startAt ≤ r ∧ r ≤ j ∧
      b.storageBit r = false ∧ ∀ k, startAt ≤ k → k < r → b.storageBit k = true := by
  obtain ⟨h1, h2, h3⟩ := hwf
  rw [wordCount_representationSize] at h2
  have hlt : startAt < b.bitCount := by omega
  unfold setFirstEmpty
  rw [computeItemPosition_eq h1 hlt]
  simp only [bind, Except.bind]
  have key := setFirstEmptyLoop_spec (b.byteCount - startAt / 64) b (startAt / 64)
    (startAt % 64) j h3 (Nat.mod_lt _ (by norm_num)) (by omega)
    (by rw [byteCount_eq]; omega) (by omega) hclear
  have he : 64 * (startAt / 64) + startAt % 64 = startAt := by omega
  rw [he] at key
  exact key

end Bitmap
end bitmap
end Mesh

namespace Mesh
namespace bitmap
namespace Bitmap

/-! ## Clearing one bit -/

theorem unsetAt_eq {b : Bitmap} {item position : Nat} (hi : item < b.bits.length)
    (hp : position < 64) :
    b.unsetAt item position =
      .ok (!(b.bits.getD item 0).testBit position,
        { b with bits := b.bits.set item (b.bits.getD item 0 &&& wnot (2 ^ position)) }) := by
  have hm : ∀ w : Nat, decide (w &&& 2 ^ position = 0) = !w.testBit position := by
    intro w
    cases h : w.testBit position
    · simpa using (and_two_pow_eq_zero w position).2 h
    · have : ¬ (w &&& 2 ^ position = 0) := by
        intro h0
        rw [(and_two_pow_eq_zero w position).1 h0] at h
        exact Bool.noConfusion h
      simpa using this
  unfold unsetAt
  cases hs : b.super <;>
    simp [word_eq hi, getMask_eq hp, atomicUnsetLoop, atomic_compare_exchange_weak, hm,
      bind, Except.bind]

theorem unset_eq {b : Bitmap} (hwf : b.WF) {i : Nat} (hi : i < b.bitCount) :
    b.unset i = .ok (!b.storageBit i, b.withoutBit i) := by
  obtain ⟨h1, h2, _⟩ := hwf
  have hlen : i / 64 < b.bits.length := by
    rw [wordCount_representationSize] at h2; omega
  unfold unset
  rw [computeItemPosition_eq h1 hi]
  simp only [bind, Except.bind]
  rw [unsetAt_eq hlen (Nat.mod_lt i (by norm_num))]
  rfl

theorem withoutBit_length (b : Bitmap) (k : Nat) :
    (b.withoutBit k).bits.length = b.bits.length := by
  simp [withoutBit]

theorem withoutBit_WF {b : Bitmap} (hwf : b.WF) (k : Nat) : (b.withoutBit k).WF := by
  obtain ⟨h1, h2, h3⟩ := hwf
  refine ⟨h1, by rw [withoutBit_length]; exact h2, ?_⟩
  intro w hw
  simp only [withoutBit] at hw
  rcases List.mem_or_eq_of_mem_set hw with h | h
  · exact h3 w h
  · rw [h]
    exact Nat.and_lt_two_pow _ (wnot_lt _)

theorem storageBit_withoutBit {b : Bitmap} {k : Nat}
    (hk : k / 64 < b.bits.length) (j : Nat) :
    (b.withoutBit k).storageBit j = (b.storageBit j && !decide (j = k)) := by
  have hp : 2 ^ (k % 64) < 2 ^ 64 :=
    Nat.pow_lt_pow_right (by norm_num) (Nat.mod_lt k (by norm_num))
  unfold storageBit withoutBit
  simp only [List.getD_eq_getElem?_getD, List.getElem?_set]
  by_cases h : k / 64 = j / 64
  · rw [if_pos h, if_pos hk]
    simp only [Option.getD_some, Nat.testBit_and, testBit_wnot hp, Nat.testBit_two_pow]
    rw [← h]
    have h64 : j % 64 < 64 := Nat.mod_lt j (by norm_num)
    by_cases h2 : k % 64 = j % 64
    · have : j = k := by omega
      simp [h2, this]
    · have : ¬ j = k := by intro hjk; subst hjk; exact h2 rfl
      simp [h2, this, h64]
  · rw [if_neg h]
    have : ¬ j = k := by intro hjk; subst hjk; exact h rfl
    simp [this]

/-! ## The scan of `lowestSetBitAt` and the iterator -/

theorem testBit_fromMask {w : Nat} {off : Nat} (hoff : off < 64) (p : Nat) :
    (w &&& wnot ((1 <<< off) - 1)).testBit p =
      (w.testBit p && (decide (p < 64) && !decide (p < off))) := by
  have h1 : (1 <<< off) - 1 = 2 ^ off - 1 := by rw [Nat.shiftLeft_eq, one_mul]
  have h2 : 2 ^ off - 1 < 2 ^ 64 :=
    lt_of_le_of_lt (Nat.sub_le _ _) (Nat.pow_lt_pow_right (by norm_num) hoff)
  rw [Nat.testBit_and, h1, testBit_wnot h2, Nat.testBit_two_pow_sub_one]

theorem lowestSetBitAtLoop_spec (b : Bitmap) (hw : ∀ w ∈ b.bits, w < 2 ^ 64) :
    ∀ (remaining i startOff : Nat), startOff < 64 →
      i + remaining = (b.bitCount + 63) / 64 → i + remaining ≤ b.bits.length →
      ∃ r, b.lowestSetBitAtLoop remaining i startOff = .ok r ∧ r ≤ b.bitCount ∧
        (∀ k, 64 * i + startOff ≤ k → k < r → b.storageBit k = false) ∧
        (r < b.bitCount → 64 * i + startOff ≤ r ∧ b.storageBit r = true) := by
  intro remaining
  induction remaining with
  | zero =>
    intro i startOff _ h1 _
    refine ⟨b.bitCount, rfl, le_refl _, ?_, fun h => absurd h (lt_irrefl _)⟩
    intro k hk1 hk2
    omega
  | succ n ih =>
    intro i startOff hoff h1 h2
    have hi : i < b.bits.length := by omega
    have hwi : b.bits.getD i 0 < 2 ^ 64 := getD_lt hw i
    unfold lowestSetBitAtLoop
    rw [word_eq hi]
    simp only [bind, Except.bind]
    by_cases hz : b.bits.getD i 0 &&& wnot ((1 <<< startOff) - 1) = 0
    · rw [if_pos hz]
      have hbits : ∀ p, p < 64 → startOff ≤ p → (b.bits.getD i 0).testBit p = false := by
        intro p hp1 hp2
        have := testBit_fromMask (w := b.bits.getD i 0) hoff p
        rw [hz, Nat.zero_testBit] at this
        have hp3 : ¬ p < startOff := by omega
        simpa [hp1, hp3] using this.symm
      obtain ⟨r, hr, hr1, hr2, hr3⟩ := ih (i + 1) 0 (by norm_num) (by omega) (by omega)
      refine ⟨r, hr, hr1, ?_, ?_⟩
      · intro k hk1 hk2
        by_cases hk : k / 64 = i
        · rw [storageBit_of_div hk]
          exact hbits (k % 64) (Nat.mod_lt k (by norm_num)) (by omega)
        · exact hr2 k (by omega) hk2
      · intro hlt
        obtain ⟨h3, h4⟩ := hr3 hlt
        exact ⟨by omega, h4⟩
    · rw [if_neg hz]
      obtain ⟨q, hq⟩ := Nat.ne_zero_implies_bit_true hz
      have hq64 : q < 64 := by
        rw [testBit_fromMask hoff] at hq
        by_contra hc
        simp [hc] at hq
      obtain ⟨r0, hr0, hr0q, hr0set, hr0min⟩ := ffsll_spec _ q hq64 hq
      rw [hr0]
      have hr0' := hr0set
      rw [testBit_fromMask hoff] at hr0'
      have hr064 : r0 < 64 := by omega
      have hr0off : startOff ≤ r0 := by
        by_contra hc
        have : r0 < startOff := by omega
        simp [this] at hr0'
      have hr0w : (b.bits.getD i 0).testBit r0 = true := by
        simpa [hr064, hr0off] using hr0'
      have hdiv : (64 * i + r0) / 64 = i := by omega
      have hmod : (64 * i + r0) % 64 = r0 := by omega
      have hbelow : ∀ k, 64 * i + startOff ≤ k → k < 64 * i + r0 →
          b.storageBit k = false := by
        intro k hk1 hk2
        have hk : k / 64 = i := by omega
        rw [storageBit_of_div hk]
        have h3 := hr0min (k % 64) (by omega)
        rw [testBit_fromMask hoff] at h3
        have h4 : k % 64 < 64 := Nat.mod_lt k (by norm_num)
        have h5 : ¬ k % 64 < startOff := by omega
        simpa [h4, h5] using h3
      simp only [kWordBits]
      by_cases hlt : 64 * i + r0 < b.bitCount
      · rw [if_pos hlt]
        refine ⟨64 * i + r0, rfl, le_of_lt hlt, hbelow, fun _ => ⟨by omega, ?_⟩⟩
        rw [storageBit_of_div hdiv, hmod]
        exact hr0w
      · rw [if_neg hlt]
        refine ⟨b.bitCount, rfl, le_refl _, ?_, fun h => absurd h (lt_irrefl _)⟩
        intro k hk1 hk2
        exact hbelow k hk1 (by omega)

theorem lowestSetBitAt_spec {b : Bitmap} (hwf : b.WF) {k : Nat} (hk : k < b.bitCount) :
    ∃ r, b.lowestSetBitAt k = .ok r ∧ k ≤ r ∧ r ≤ b.bitCount ∧
      (∀ j, k ≤ j → j < r → b.storageBit j = false) ∧
      (r < b.bitCount → b.storageBit r = true) := by
  obtain ⟨h1, h2, h3⟩ := hwf
  rw [wordCount_representationSize] at h2
  unfold lowestSetBitAt
  rw [computeItemPosition_eq h1 hk]
  simp only [bind, Except.bind]
  rw [byteCount_div]
  obtain ⟨r, hr, hr1, hr2, hr3⟩ := lowestSetBitAtLoop_spec b h3
    ((b.bitCount + 63) / 64 - k / 64) (k / 64) (k % 64) (Nat.mod_lt _ (by norm_num))
    (by omega) (by omega)
  have he : 64 * (k / 64) + k % 64 = k := by omega
  rw [he] at hr2 hr3
  refine ⟨r, hr, ?_, hr1, hr2, fun h => (hr3 h).2⟩
  by_cases h : r < b.bitCount
  · exact (hr3 h).1
  · omega

theorem iterNext_spec {b : Bitmap} (hwf : b.WF) {i : Nat} (hi : i < b.bitCount) :
    ∃ r, b.iterNext i = .ok r ∧ i < r ∧ r ≤ b.bitCount ∧
      (∀ j, i < j → j < r → b.storageBit j = false) ∧
      (r < b.bitCount → b.storageBit r = true) := by
  unfold iterNext
  by_cases h : i + 1 ≥ b.bitCount
  · rw [if_pos h]
    refine ⟨b.bitCount, rfl, hi, le_refl _, ?_, fun h => absurd h (lt_irrefl _)⟩
    intro j hj1 hj2
    omega
  · rw [if_neg h]
    obtain ⟨r, hr, hr1, hr2, hr3, hr4⟩ := lowestSetBitAt_spec hwf (k := i + 1) (by omega)
    exact ⟨r, hr, by omega, hr2, fun j hj1 hj2 => hr3 j (by omega) hj2, hr4⟩

end Bitmap
end bitmap

/-! ## Finite maps -/

namespace Map

variable {β : Type}

theorem erase_cons (k k' : Nat) (v : β) (m : List (Nat × β)) :
    erase k ((k', v) :: m) = if k' = k then erase k m else (k', v) :: erase k m := by
  unfold erase
  by_cases h : k' = k
  · simp [List.filter_cons, h]
  · simp [List.filter_cons, h]

theorem lookup_erase_self (k : Nat) (m : List (Nat × β)) : lookup k (erase k m) = none := by
  induction m with
  | nil => rfl
  | cons e m ih =>
    obtain ⟨k', v⟩ := e
    rw [erase_cons]
    by_cases h : k' = k
    · rw [if_pos h]; exact ih
    · rw [if_neg h]; simp [lookup, h, ih]

theorem lookup_erase_ne {k k' : Nat} (h : k' ≠ k) (m : List (Nat × β)) :
    lookup k' (erase k m) = lookup k' m := by
  induction m with
  | nil => rfl
  | cons e m ih =>
    obtain ⟨k'', v⟩ := e
    rw [erase_cons]
    by_cases h2 : k'' = k
    · have h3 : ¬ k'' = k' := by intro h4; exact h (h4 ▸ h2)
      rw [if_pos h2, ih]
      simp [lookup, h3]
    · rw [if_neg h2]
      by_cases h3 : k'' = k'
      · simp [lookup, h3]
      · simp [lookup, h3, ih]

theorem lookup_insert_self (k : Nat) (v : β) (m : List (Nat × β)) :
    lookup k (insert k v m) = some v := by
  simp [insert, lookup]

theorem lookup_insert_ne {k k' : Nat} (h : k' ≠ k) (v : β) (m : List (Nat × β)) :
    lookup k' (insert k v m) = lookup k' m := by
  have h2 : ¬ k = k' := fun h3 => h h3.symm
  simp [insert, lookup, h2, lookup_erase_ne h]

theorem lookup_isSome_of_mem {k : Nat} {v : β} {m : List (Nat × β)} (h : (k, v) ∈ m) :
    ∃ v', lookup k m = some v' := by
  induction m with
  | nil => cases h
  | cons e m ih =>
    obtain ⟨k', v''⟩ := e
    by_cases h2 : k' = k
    · exact ⟨v'', by simp [lookup, h2]⟩
    · have : (k, v) ∈ m := by
        rcases List.mem_cons.1 h with h3 | h3
        · exact absurd (Prod.mk.inj h3).1.symm h2
        · exact h3
      obtain ⟨v', hv'⟩ := ih this
      exact ⟨v', by simp [lookup, h2, hv']⟩

theorem mem_of_lookup {k : Nat} {v : β} {m : List (Nat × β)} (h : lookup k m = some v) :
    (k, v) ∈ m := by
  induction m with
  | nil => cases h
  | cons e m ih =>
    obtain ⟨k', v'⟩ := e
    by_cases h2 : k' = k
    · simp only [lookup, h2, if_true] at h
      rw [h2, Option.some.inj h]
      exact List.mem_cons_self _ _
    · simp only [lookup, h2, if_false] at h
      exact List.mem_cons_of_mem _ (ih h)

/-- When `greatest_leq` finds nothing, no key is at most `p`. -/
theorem greatest_leq_none {m : List (Nat × β)} {p : Nat} (hg : greatest_leq m p = none) :
    ∀ k v, (k, v) ∈ m → k ≤ p → False := by
  induction m with
  | nil => intro k v h; cases h
  | cons a m ih =>
    intro k v hkv hkp
    unfold greatest_leq at hg
    cases hg2 : greatest_leq m p with
    | none =>
      rw [hg2] at hg
      simp only at hg
      by_cases hle : a.1 ≤ p
      · rw [if_pos hle] at hg; cases hg
      · rcases List.mem_cons.1 hkv with h3 | h3
        · rw [← h3] at hle; exact hle hkp
        · exact ih hg2 k v h3 hkp
    | some b =>
      rw [hg2] at hg
      simp only at hg
      split at hg <;> cases hg

/-- `greatest_leq` returns a binding of the map whose key is the greatest key
that is at most `p`. -/
theorem greatest_leq_some {m : List (Nat × β)} {p : Nat} {e : Nat × β}
    (h : greatest_leq m p = some e) :
    lookup e.1 m = some e.2 ∧ e.1 ≤ p ∧ ∀ k v, (k, v) ∈ m → k ≤ p → k ≤ e.1 := by
  induction m generalizing e with
  | nil => cases h
  | cons a m ih =>
    obtain ⟨ka, va⟩ := a
    unfold greatest_leq at h
    cases hg : greatest_leq m p with
    | none =>
      rw [hg] at h
      simp only at h
      by_cases hle : ka ≤ p
      · rw [if_pos hle] at h
        cases h
        refine ⟨by simp [lookup], hle, ?_⟩
        intro k v hkv hkp
        rcases List.mem_cons.1 hkv with h3 | h3
        · exact le_of_eq (Prod.mk.inj h3).1
        · exfalso
          exact greatest_leq_none hg k v h3 hkp
      · rw [if_neg hle] at h
        cases h
    | some b =>
      rw [hg] at h
      simp only at h
      obtain ⟨hb1, hb2, hb3⟩ := ih hg
      by_cases hc : ka ≤ p ∧ b.1 ≤ ka
      · rw [if_pos hc] at h
        have hbe := Option.some.inj h
        rw [← hbe]
        refine ⟨by simp [lookup], hc.1, ?_⟩
        intro k v hkv hkp
        rcases List.mem_cons.1 hkv with h3 | h3
        · exact le_of_eq (Prod.mk.inj h3).1
        · exact le_trans (hb3 k v h3 hkp) hc.2
      · rw [if_neg hc] at h
        have hbe := Option.some.inj h
        rw [← hbe]
        have hne : ¬ ka = b.1 := by
          intro he
          apply hc
          rw [he]
          exact ⟨hb2, le_refl _⟩
        refine ⟨by simp [lookup, hne, hb1], hb2, ?_⟩
        intro k v hkv hkp
        rcases List.mem_cons.1 hkv with h3 | h3
        · have : k = ka := (Prod.mk.inj h3).1
          subst this
          by_contra hcon
          exact hc ⟨hkp, by omega⟩
        · exact hb3 k v h3 hkp

end Map
end Mesh

namespace Mesh

namespace Map

variable {β : Type}

theorem greatest_leq_ne_none {m : List (Nat × β)} {p k : Nat} {v : β} (hk : (k, v) ∈ m)
    (hkp : k ≤ p) : greatest_leq m p ≠ none := by
  intro hg
  exact greatest_leq_none hg k v hk hkp

/-- The entry `greatest_leq` finds is the binding of the greatest key at most `p`. -/
theorem greatest_leq_eq {m : List (Nat × β)} {p k : Nat} {v : β} (hk : lookup k m = some v)
    (hkp : k ≤ p) (hmax : ∀ e ∈ m, e.1 ≤ p → e.1 ≤ k) :
    greatest_leq m p = some (k, v) := by
  have hmem := mem_of_lookup hk
  cases hg : greatest_leq m p with
  | none => exact absurd hg (greatest_leq_ne_none hmem hkp)
  | some e =>
    obtain ⟨h1, h2, h3⟩ := greatest_leq_some hg
    have hle1 : k ≤ e.1 := h3 k v hmem hkp
    have hle2 : e.1 ≤ k := hmax (e.1, e.2) (mem_of_lookup h1) h2
    have hek : e.1 = k := le_antisymm hle2 hle1
    rw [hek, hk] at h1
    obtain ⟨e1, e2⟩ := e
    simp only at hek h1
    rw [hek, ← Option.some.inj h1]

end Map

namespace GlobalMeshingHeap

theorem deref_eq {h : GlobalMeshingHeap} {p : Nat} {d : MiniHeap}
    (hd : Map.lookup p h.descriptors = some d) : h.deref p = .ok d := by
  unfold deref; rw [hd]

theorem lookup_of_deref {h : GlobalMeshingHeap} {p : Nat} {d : MiniHeap}
    (hd : h.deref p = .ok d) : Map.lookup p h.descriptors = some d := by
  unfold deref at hd
  cases hl : Map.lookup p h.descriptors with
  | none => rw [hl] at hd; cases hd
  | some d' => rw [hl] at hd; rw [Except.ok.inj hd]

theorem miniheapFor_eq {h : GlobalMeshingHeap} {ptr k c : Nat} {d : MiniHeap}
    (hk : Map.lookup k h.miniheaps = some c) (hkp : k ≤ ptr)
    (hmax : ∀ e ∈ h.miniheaps, e.1 ≤ ptr → e.1 ≤ k)
    (hd : Map.lookup c h.descriptors = some d) :
    h.miniheapFor ptr = .ok (if d.contains ptr then some c else none) := by
  unfold miniheapFor
  simp only [Map.greatest_leq_eq hk hkp hmax, deref_eq hd, bind, Except.bind]
  split <;> rfl

theorem miniheapFor_none {h : GlobalMeshingHeap} {ptr : Nat}
    (hk : ∀ e ∈ h.miniheaps, ptr < e.1) : h.miniheapFor ptr = .ok none := by
  cases hg : Map.greatest_leq h.miniheaps ptr with
  | none => simp only [miniheapFor, hg]
  | some e =>
    obtain ⟨h1, h2, _⟩ := Map.greatest_leq_some hg
    exact absurd (hk (e.1, e.2) (Map.mem_of_lookup h1)) (by simp only; omega)

theorem miniheapFor_some {h : GlobalMeshingHeap} {ptr m : Nat}
    (hm : h.miniheapFor ptr = .ok (some m)) :
    ∃ k d, Map.lookup k h.miniheaps = some m ∧ k ≤ ptr ∧
      (∀ e ∈ h.miniheaps, e.1 ≤ ptr → e.1 ≤ k) ∧
      h.deref m = .ok d ∧ d.contains ptr = true := by
  cases hg : Map.greatest_leq h.miniheaps ptr with
  | none => simp only [miniheapFor, hg] at hm; cases hm
  | some e =>
    simp only [miniheapFor, hg] at hm
    obtain ⟨h1, h2, h3⟩ := Map.greatest_leq_some hg
    cases hd : h.deref e.2 with
    | error f => simp [hd, bind, Except.bind] at hm
    | ok d =>
      simp only [hd, bind, Except.bind] at hm
      by_cases hc : d.contains ptr = true
      · rw [if_pos hc] at hm
        have : e.2 = m := Option.some.inj (Except.ok.inj hm)
        rw [this] at h1 hd
        exact ⟨e.1, d, h1, h2, fun e' he' => h3 e'.1 e'.2 he', hd, hc⟩
      · rw [if_neg hc] at hm
        cases hm

theorem contains_of_mem {d : MiniHeap} {s ptr : Nat} (hs : s ∈ d.spans) (h1 : s ≤ ptr)
    (h2 : ptr < s + d.spanSize) : d.contains ptr = true := by
  unfold MiniHeap.contains
  rw [List.any_eq_true]
  exact ⟨s, hs, by simp [h1, h2]⟩

end GlobalMeshingHeap
end Mesh

namespace Mesh

open bitmap (Bitmap)

/-! ## `randomSort` -/

namespace bitmap.Bitmap

/-- A bit that `isSet` reports as set is a storage bit within `bitCount`. -/
theorem isSet_true {b : Bitmap} {k : Nat} (h : b.isSet k = .ok true) :
    k < b.bitCount ∧ b.storageBit k = true := by
  unfold isSet computeItemPosition at h
  by_cases h1 : k < b.bitCount
  · refine ⟨h1, ?_⟩
    have e1 : k >>> kWordBitshift = k / 64 := by
      unfold kWordBitshift; rw [Nat.shiftRight_eq_div_pow]
    have e2 : k &&& (kWordBits - 1) = k % 64 := by
      unfold kWordBits
      exact Nat.and_pow_two_sub_one_eq_mod k 6
    have e3 : ∀ x : Nat, x <<< kWordBitshift = x * 64 := by
      intro x; unfold kWordBitshift; rw [Nat.shiftLeft_eq]
    simp only [e1, e2, e3] at h
    rw [if_neg (by simpa using h1)] at h
    by_cases h2 : k % 64 % 2 ^ 32 = k - k / 64 % 2 ^ 32 * 64 % 2 ^ 32
    · rw [if_neg (by simpa using h2)] at h
      have hitem : k / 64 % 2 ^ 32 = k / 64 := by omega
      have hpos : k % 64 % 2 ^ 32 = k % 64 := Nat.mod_eq_of_lt (by omega)
      rw [hitem, hpos] at h
      by_cases h3 : k / 64 < b.byteCount / 8
      · rw [if_neg (by simpa using h3)] at h
        simp only [bind, Except.bind] at h
        by_cases h4 : k / 64 < b.bits.length
        · rw [word_eq h4, getMask_eq (Nat.mod_lt k (by norm_num))] at h
          simp only [storageBit]
          generalize b.bits.getD (k / 64) 0 = w at h
          have h5 := Except.ok.inj h
          by_contra hc
          have hc' : w.testBit (k % 64) = false := by simpa using hc
          rw [(and_two_pow_eq_zero w (k % 64)).2 hc'] at h5
          simp at h5
        · rw [word_error (by omega)] at h
          cases h
      · rw [if_pos (by simpa using h3)] at h
        cases h
    · rw [if_pos (by simpa using h2)] at h
      cases h
  · rw [if_pos (by simpa using h1)] at h
    cases h

end bitmap.Bitmap

theorem bitmapsMeshable_disjoint {a b : List Nat} {len : Nat}
    (h : bitmapsMeshable a b len = true) {k : Nat} (hk : k / 64 < len) :
    ¬ ((a.getD (k / 64) 0).testBit (k % 64) = true ∧
       (b.getD (k / 64) 0).testBit (k % 64) = true) := by
  unfold bitmapsMeshable at h
  rw [List.all_eq_true] at h
  have h1 := h (k / 64) (List.mem_range.2 hk)
  have h2 : a.getD (k / 64) 0 &&& b.getD (k / 64) 0 = 0 := by simpa using h1
  intro ⟨ha, hb⟩
  have h3 : (a.getD (k / 64) 0 &&& b.getD (k / 64) 0).testBit (k % 64) = true := by
    rw [Nat.testBit_and, ha, hb]; rfl
  rw [h2, Nat.zero_testBit] at h3
  exact Bool.noConfusion h3

/-- Every vector the loop passes to `meshFound` is an adjacent pair of the
range, of two miniheaps that are both not done and whose bitmaps were found
meshable. -/
theorem randomSortLoop_emitted {T : Type} (isDone : T → Bool) (bitmapOf : T → Bitmap) :
    ∀ (l : List T) (pair : List T), pair ∈ (randomSortLoop isDone bitmapOf l).1 →
      ∃ h1 h2, pair = [h1, h2] ∧ (∃ pre post, l = pre ++ h1 :: h2 :: post) ∧
        isDone h1 = false ∧ isDone h2 = false ∧
        bitmapsMeshable (bitmapOf h1).bits (bitmapOf h2).bits (bitmapOf h1).wordCount = true := by
  intro l
  induction l with
  | nil => intro pair hp; simp [randomSortLoop] at hp
  | cons a t ih =>
    intro pair hp
    cases t with
    | nil => simp [randomSortLoop] at hp
    | cons b rest =>
      have lift : pair ∈ (randomSortLoop isDone bitmapOf (b :: rest)).1 →
          ∃ h1 h2, pair = [h1, h2] ∧ (∃ pre post, a :: b :: rest = pre ++ h1 :: h2 :: post) ∧
            isDone h1 = false ∧ isDone h2 = false ∧
            bitmapsMeshable (bitmapOf h1).bits (bitmapOf h2).bits (bitmapOf h1).wordCount
              = true := by
        intro hp'
        obtain ⟨h1, h2, e1, ⟨pre, post, e2⟩, e3⟩ := ih pair hp'
        exact ⟨h1, h2, e1, ⟨a :: pre, post, by rw [e2]; rfl⟩, e3⟩
      unfold randomSortLoop at hp
      by_cases hd : (isDone a || isDone b) = true
      · rw [if_pos hd] at hp
        exact lift hp
      · rw [if_neg hd] at hp
        have hda : isDone a = false := by
          cases h : isDone a
          · rfl
          · simp [h] at hd
        have hdb : isDone b = false := by
          cases h : isDone b
          · rfl
          · simp [h] at hd
        simp only at hp
        by_cases hlen : (bitmapOf a).wordCount = (bitmapOf b).wordCount
        · rw [if_neg (by simpa using hlen)] at hp
          by_cases hm : bitmapsMeshable (bitmapOf a).bits (bitmapOf b).bits
              (bitmapOf a).wordCount = true
          · rw [if_pos hm] at hp
            rcases List.mem_cons.1 hp with h | h
            · exact ⟨a, b, h, ⟨[], rest, rfl⟩, hda, hdb, hm⟩
            · exact lift h
          · rw [if_neg hm] at hp
            exact lift hp
        · rw [if_pos (by simpa using hlen)] at hp
          simp at hp

/-- When every miniheap of the range is done, nothing is passed to `meshFound`. -/
theorem randomSortLoop_all_done {T : Type} (isDone : T → Bool) (bitmapOf : T → Bitmap) :
    ∀ (l : List T), (∀ x ∈ l, isDone x = true) →
      randomSortLoop isDone bitmapOf l = ([], .ok ()) := by
  intro l
  induction l with
  | nil => intro _; rfl
  | cons a t ih =>
    intro hall
    cases t with
    | nil => rfl
    | cons b rest =>
      unfold randomSortLoop
      have ha : isDone a = true := hall a (List.mem_cons_self _ _)
      rw [if_pos (by simp [ha])]
      exact ih (fun x hx => hall x (List.mem_cons_of_mem _ hx))

theorem randomSort_emitted {T : Type} (isDone : T → Bool) (bitmapOf : T → Bitmap)
    (shuffle : List T → List T) (miniheaps : List T) (pair : List T)
    (hp : pair ∈ (randomSort isDone bitmapOf shuffle miniheaps).1) :
    ∃ h1 h2, pair = [h1, h2] ∧ isDone h1 = false ∧ isDone h2 = false ∧
      bitmapsMeshable (bitmapOf h1).bits (bitmapOf h2).bits (bitmapOf h1).wordCount = true := by
  unfold randomSort at hp
  simp only at hp
  split at hp
  · simp at hp
  · obtain ⟨h1, h2, e1, _, e3⟩ := randomSortLoop_emitted isDone bitmapOf _ pair hp
    exact ⟨h1, h2, e1, e3⟩

end Mesh

namespace Mesh

open bitmap (Bitmap)

namespace GlobalMeshingHeap

/-! ## The copy loop of `mesh` -/

theorem mallocAt_clear {d : MiniHeap} (hwf : d.bitmap.WF) {i : Nat}
    (hi : i < d.bitmap.bitCount) (hc : d.bitmap.storageBit i = false) :
    d.mallocAt i = .ok (some (d.getSpanStart + i * d.objectSize),
      { d with bitmap := d.bitmap.withBit i }) := by
  unfold MiniHeap.mallocAt
  rw [Bitmap.tryToSet_eq hwf hi, hc]
  rfl

theorem meshLoop_spec (dst src srcSpan objectSize : Nat) (hne : dst ≠ src) (s : MiniHeap)
    (hswf : s.bitmap.WF) :
    ∀ (fuel it : Nat) (h : GlobalMeshingHeap) (d : MiniHeap),
      Map.lookup src h.descriptors = some s → Map.lookup dst h.descriptors = some d →
      d.bitmap.WF → d.bitmap.bitCount = s.bitmap.bitCount →
      it ≤ s.bitmap.bitCount →
      (it < s.bitmap.bitCount → s.bitmap.storageBit it = true) →
      (∀ j, it ≤ j → j < s.bitmap.bitCount → s.bitmap.storageBit j = true →
        d.bitmap.storageBit j = false) →
      s.bitmap.bitCount - it < fuel →
      ∃ D M bm, meshLoop dst src srcSpan objectSize fuel it h =
          .ok { h with descriptors := D, memcpys := M } ∧
        Map.lookup dst D = some { d with bitmap := bm } ∧
        (∀ p, p ≠ dst → Map.lookup p D = Map.lookup p h.descriptors) ∧
        bm.WF ∧ bm.bitCount = d.bitmap.bitCount ∧ bm.super = d.bitmap.super ∧
        bm.bits.length = d.bitmap.bits.length ∧
        ∀ k, bm.storageBit k = (d.bitmap.storageBit k ||
          (decide (it ≤ k ∧ k < s.bitmap.bitCount) && s.bitmap.storageBit k)) := by
  intro fuel
  induction fuel with
  | zero => intro it h d _ _ _ _ _ _ _ hf; omega
  | succ n ih =>
    intro it h d hs hd hdwf hcount hit hset hdis hfuel
    unfold meshLoop
    simp only [deref_eq hs, bind, Except.bind, Bitmap.end]
    by_cases hend : it = s.bitmap.bitCount
    · rw [if_pos hend]
      refine ⟨h.descriptors, h.memcpys, d.bitmap, rfl, hd, fun _ _ => rfl, hdwf, rfl, rfl, rfl, ?_⟩
      intro k
      have : ¬ (it ≤ k ∧ k < s.bitmap.bitCount) := by omega
      simp [this]
    · rw [if_neg hend]
      have hlt : it < s.bitmap.bitCount := by omega
      have hsit : s.bitmap.storageBit it = true := hset hlt
      have hdit : d.bitmap.storageBit it = false := hdis it (le_refl _) hlt hsit
      have hltd : it < d.bitmap.bitCount := by omega
      simp only [deref_eq hd, Bitmap.isSet_eq hdwf hltd, hdit, mallocAt_clear hdwf hltd hdit]
      have hlen : it / 64 < d.bitmap.bits.length := by
        have := hdwf.2.1
        rw [Bitmap.wordCount_representationSize] at this
        omega
      have hs' : Map.lookup src (Map.insert dst
          { d with bitmap := d.bitmap.withBit it } h.descriptors) = some s := by
        rw [Map.lookup_insert_ne (Ne.symm hne)]; exact hs
      obtain ⟨r, hr, hr1, hr2, hr3, hr4⟩ := Bitmap.iterNext_spec hswf hlt
      have hderef : (GlobalMeshingHeap.deref
          { (h.store dst { d with bitmap := d.bitmap.withBit it }) with
            memcpys := (h.store dst { d with bitmap := d.bitmap.withBit it }).memcpys ++
              [(d.getSpanStart + it * d.objectSize, srcSpan + it * objectSize, objectSize)] }
          src) = .ok s := deref_eq hs'
      simp only [Bool.false_eq_true, if_false, hderef, hr]
      obtain ⟨D, M, bm, e1, e2, e3, e4, e5, e6, e7, e8⟩ := ih r
        { (h.store dst { d with bitmap := d.bitmap.withBit it }) with
            memcpys := (h.store dst { d with bitmap := d.bitmap.withBit it }).memcpys ++
              [(d.getSpanStart + it * d.objectSize, srcSpan + it * objectSize, objectSize)] }
        { d with bitmap := d.bitmap.withBit it } hs'
        (Map.lookup_insert_self _ _ _) (Bitmap.withBit_WF hdwf it) hcount hr2 hr4
        (by
          intro j hj1 hj2 hj3
          show (d.bitmap.withBit it).storageBit j = false
          rw [Bitmap.storageBit_withBit hlen, hdis j (by omega) hj2 hj3]
          have : ¬ j = it := by omega
          simp [this])
        (by omega)
      refine ⟨D, M, bm, e1, e2, ?_, e4, e5, e6, ?_, ?_⟩
      · intro p hp
        rw [e3 p hp]
        exact Map.lookup_insert_ne hp _ _
      · rw [e7]; exact Bitmap.withBit_length _ _
      · intro k
        rw [e8 k]
        show ((d.bitmap.withBit it).storageBit k || _) = _
        rw [Bitmap.storageBit_withBit hlen]
        by_cases hk : k = it
        · subst hk
          have : k ≤ k ∧ k < s.bitmap.bitCount := ⟨le_refl _, hlt⟩
          simp [this, hsit]
        · by_cases hk2 : r ≤ k ∧ k < s.bitmap.bitCount
          · have : it ≤ k ∧ k < s.bitmap.bitCount := ⟨by omega, hk2.2⟩
            simp [hk, hk2, this]
          · by_cases hk3 : it ≤ k ∧ k < s.bitmap.bitCount
            · have : s.bitmap.storageBit k = false := hr3 k (by omega) (by omega)
              simp [hk, this]
            · simp [hk, hk2, hk3]

end GlobalMeshingHeap
end Mesh

namespace Mesh

open bitmap (Bitmap)

namespace GlobalMeshingHeap

/-! ## `mesh` -/

theorem untrackMiniheap_eq {h : GlobalMeshingHeap} {c mh count : Nat} {list : List Nat}
    (hcount : h.littleheapCounts[c]? = some count) (hlist : h.littleheaps[c]? = some list) :
    h.untrackMiniheap c mh = .ok { h with
      littleheapCounts := h.littleheapCounts.set c ((count + 2 ^ 64 - 1) % 2 ^ 64)
      littleheaps := h.littleheaps.set c (list.erase mh) } := by
  unfold untrackMiniheap
  rw [hcount, hlist]

theorem freeMiniheapAfterMesh_eq {h : GlobalMeshingHeap} {mh count : Nat} {s : MiniHeap}
    {list : List Nat} (hs : Map.lookup mh h.descriptors = some s)
    (hcount : h.littleheapCounts[toSizeT (size2Class s.objectSize)]? = some count)
    (hlist : h.littleheaps[toSizeT (size2Class s.objectSize)]? = some list) :
    h.freeMiniheapAfterMesh mh = .ok { h with
      descriptors := Map.erase mh h.descriptors
      littleheapCounts := (h.littleheapCounts.set (toSizeT (size2Class s.objectSize))
        ((count + 2 ^ 64 - 1) % 2 ^ 64))
      littleheaps := h.littleheaps.set (toSizeT (size2Class s.objectSize)) (list.erase mh) } := by
  unfold freeMiniheapAfterMesh
  simp only [deref_eq hs, untrackMiniheap_eq hcount hlist, bind, Except.bind]

/-- The state `mesh(dst, src)` returns, for two distinct live miniheaps with
well-formed bitmaps of the same positive bit count that are disjoint. -/
theorem mesh_eq {h : GlobalMeshingHeap} {dst src count : Nat}
    {d s : MiniHeap} {list : List Nat} (hne : dst ≠ src)
    (hd : Map.lookup dst h.descriptors = some d) (hs : Map.lookup src h.descriptors = some s)
    (hdwf : d.bitmap.WF) (hswf : s.bitmap.WF)
    (hbits : d.bitmap.bitCount = s.bitmap.bitCount) (hpos : 0 < s.bitmap.bitCount)
    (hdis : ∀ j, j < s.bitmap.bitCount → s.bitmap.storageBit j = true →
      d.bitmap.storageBit j = false)
    (hcount : h.littleheapCounts[toSizeT (size2Class s.objectSize)]? = some count)
    (hlist : h.littleheaps[toSizeT (size2Class s.objectSize)]? = some list) :
    ∃ D M bm, (∀ remapOk, h.mesh remapOk dst src = .ok ({ h with
        arena := (h.arena.mesh remapOk ((d.spans ++ [s.getSpanStart]).headD 0) s.getSpanStart
          d.spanSize)
        descriptors := D
        memcpys := M
        littleheapCounts := (h.littleheapCounts.set (toSizeT (size2Class s.objectSize))
          ((count + 2 ^ 64 - 1) % 2 ^ 64))
        littleheaps := h.littleheaps.set (toSizeT (size2Class s.objectSize)) (list.erase src)
        miniheaps := Map.insert s.getSpanStart dst h.miniheaps }, none)) ∧
      Map.lookup src D = none ∧
      Map.lookup dst D = some { d with bitmap := bm, spans := d.spans ++ [s.getSpanStart] } ∧
      (∀ p, p ≠ dst → p ≠ src → Map.lookup p D = Map.lookup p h.descriptors) ∧
      bm.WF ∧ bm.bitCount = d.bitmap.bitCount ∧ bm.super = d.bitmap.super ∧
      bm.bits.length = d.bitmap.bits.length ∧
      ∀ k, bm.storageBit k = (d.bitmap.storageBit k ||
        (decide (k < s.bitmap.bitCount) && s.bitmap.storageBit k)) := by
  obtain ⟨it, hit, _, hit2, hit3, hit4⟩ := Bitmap.lowestSetBitAt_spec hswf hpos
  obtain ⟨D, M, bm, e1, e2, e3, e4, e5, e6, e7, e8⟩ :=
    meshLoop_spec dst src s.getSpanStart d.objectSize hne s hswf (s.bitmap.bitCount + 1) it h d
      hs hd hdwf hbits hit2 hit4 (fun j _ hj2 hj3 => hdis j hj2 hj3) (by omega)
  have hsD : Map.lookup src D = some s := by rw [e3 src (Ne.symm hne)]; exact hs
  have hsD2 : Map.lookup src (Map.insert dst
      ({ d with bitmap := bm, spans := d.spans ++ [s.getSpanStart] } : MiniHeap) D) = some s := by
    rw [Map.lookup_insert_ne (Ne.symm hne)]; exact hsD
  refine ⟨Map.erase src (Map.insert dst
      ({ d with bitmap := bm, spans := d.spans ++ [s.getSpanStart] } : MiniHeap) D), M, bm, ?_,
    Map.lookup_erase_self _ _, ?_, ?_, e4, e5, e6, e7, ?_⟩
  · intro remapOk
    unfold mesh
    simp only [deref_eq hs, deref_eq hd, bind, Except.bind, Bitmap.begin, hit, e1]
    have h1 : GlobalMeshingHeap.deref { h with descriptors := D, memcpys := M } dst
        = .ok { d with bitmap := bm } := deref_eq e2
    simp only [h1, MiniHeap.meshedSpan, store]
    have h2 : GlobalMeshingHeap.deref
        { h with memcpys := M, descriptors := (Map.insert dst
          ({ d with bitmap := bm, spans := d.spans ++ [s.getSpanStart] } : MiniHeap) D) } dst
        = .ok { d with bitmap := bm, spans := d.spans ++ [s.getSpanStart] } :=
      deref_eq (Map.lookup_insert_self _ _ _)
    have h3 : GlobalMeshingHeap.deref
        { h with memcpys := M, descriptors := (Map.insert dst
          ({ d with bitmap := bm, spans := d.spans ++ [s.getSpanStart] } : MiniHeap) D) } src
        = .ok s := deref_eq hsD2
    simp only [h2, h3]
    have h4 := freeMiniheapAfterMesh_eq
      (h := { h with
        arena := (h.arena.mesh remapOk ((d.spans ++ [s.getSpanStart]).headD 0) s.getSpanStart
          d.spanSize)
        memcpys := M
        descriptors := (Map.insert dst
          ({ d with bitmap := bm, spans := d.spans ++ [s.getSpanStart] } : MiniHeap) D) })
      (s := s) hsD2 hcount hlist
    simp only [MiniHeap.getSpanStart] at h4 ⊢
    simp only [h4]
  · rw [Map.lookup_erase_ne hne, Map.lookup_insert_self]
  · intro p hp1 hp2
    rw [Map.lookup_erase_ne hp2, Map.lookup_insert_ne hp1, e3 p hp1]
  · intro k
    rw [e8 k]
    by_cases hk : k < s.bitmap.bitCount
    · by_cases hk2 : it ≤ k
      · simp [hk, hk2]
      · have : s.bitmap.storageBit k = false := hit3 k (Nat.zero_le _) (by omega)
        simp [this]
    · simp [hk]

end GlobalMeshingHeap
end Mesh

namespace Mesh

open bitmap (Bitmap)

namespace GlobalMeshingHeap

/-! ## `free` and `freeMiniheap` -/

theorem foldl_release (spanSize : Nat) :
    ∀ (spans : List Nat) (h : GlobalMeshingHeap),
      spans.foldl (fun (h : GlobalMeshingHeap) span =>
        { h with arena := h.arena.free span spanSize, miniheaps := Map.erase span h.miniheaps }) h
      = { h with
          arena := spans.foldl (fun a span => MeshableArena.free a span spanSize) h.arena
          miniheaps := spans.foldl (fun m span => Map.erase span m) h.miniheaps } := by
  intro spans
  induction spans with
  | nil => intro h; rfl
  | cons sp rest ih => intro h; rw [List.foldl_cons, ih]; rfl

theorem lookup_foldl_erase_mem :
    ∀ (spans : List Nat) (m : List (Nat × Nat)) (k : Nat), k ∈ spans →
      Map.lookup k (spans.foldl (fun m span => Map.erase span m) m) = none := by
  intro spans
  induction spans with
  | nil => intro m k hk; cases hk
  | cons sp rest ih =>
    intro m k hk
    rw [List.foldl_cons]
    by_cases hkr : k ∈ rest
    · exact ih _ k hkr
    · have hksp : k = sp := by
        rcases List.mem_cons.1 hk with h1 | h1
        · exact h1
        · exact absurd h1 hkr
      subst hksp
      have : ∀ (l : List Nat) (m : List (Nat × Nat)), Map.lookup k m = none →
          Map.lookup k (l.foldl (fun m span => Map.erase span m) m) = none := by
        intro l
        induction l with
        | nil => intro m hm; exact hm
        | cons a l ihl =>
          intro m hm
          rw [List.foldl_cons]
          apply ihl
          by_cases hka : k = a
          · rw [hka]; exact Map.lookup_erase_self _ _
          · rw [Map.lookup_erase_ne hka]; exact hm
      exact this rest _ (Map.lookup_erase_self _ _)

theorem lookup_foldl_erase_not_mem :
    ∀ (spans : List Nat) (m : List (Nat × Nat)) (k : Nat), k ∉ spans →
      Map.lookup k (spans.foldl (fun m span => Map.erase span m) m) = Map.lookup k m := by
  intro spans
  induction spans with
  | nil => intro m k _; rfl
  | cons sp rest ih =>
    intro m k hk
    rw [List.foldl_cons, ih _ k (fun h => hk (List.mem_cons_of_mem _ h))]
    have hne : k ≠ sp := by
      intro h
      apply hk
      rw [h]
      exact List.mem_cons_self _ _
    exact Map.lookup_erase_ne hne _

theorem freeMiniheap_eq {h : GlobalMeshingHeap} {mh count : Nat} {d : MiniHeap}
    {list : List Nat} (hd : Map.lookup mh h.descriptors = some d)
    (hcount : h.littleheapCounts[toSizeT (size2Class d.objectSize)]? = some count)
    (hlist : h.littleheaps[toSizeT (size2Class d.objectSize)]? = some list) :
    h.freeMiniheap mh = .ok ({ h with
      arena := d.spans.foldl (fun a span => MeshableArena.free a span d.spanSize) h.arena
      miniheaps := d.spans.foldl (fun m span => Map.erase span m) h.miniheaps
      stats := { h.stats with mhFreeCount := (h.stats.mhFreeCount + 1) % 2 ^ 64 }
      descriptors := Map.erase mh h.descriptors
      littleheapCounts := (h.littleheapCounts.set (toSizeT (size2Class d.objectSize))
        ((count + 2 ^ 64 - 1) % 2 ^ 64))
      littleheaps := (h.littleheaps.set (toSizeT (size2Class d.objectSize)) (list.erase mh)) },
      none) := by
  unfold freeMiniheap
  simp only [deref_eq hd, bind, Except.bind, MiniHeap.meshCount, List.take_length,
    foldl_release]
  have h4 := freeMiniheapAfterMesh_eq
    (h := { h with
      arena := d.spans.foldl (fun a span => MeshableArena.free a span d.spanSize) h.arena
      miniheaps := d.spans.foldl (fun m span => Map.erase span m) h.miniheaps
      stats := { h.stats with mhFreeCount := (h.stats.mhFreeCount + 1) % 2 ^ 64 } })
    (s := d) hd hcount hlist
  simp only [h4]

theorem miniHeap_free_eq {d : MiniHeap} {ptr slot : Nat} (hwf : d.bitmap.WF)
    (hslot : d.slotOf ptr = some slot) (hrange : slot < d.bitmap.bitCount) :
    d.free ptr = .ok { d with bitmap := d.bitmap.withoutBit slot } := by
  unfold MiniHeap.free
  rw [hslot]
  simp only [Bitmap.unset_eq hwf hrange, bind, Except.bind]

/-- The state `free(ptr)` returns for a pointer that a miniheap owns. -/
theorem free_eq {h : GlobalMeshingHeap} {isMeshMarker : Nat → Bool} (remapOk : Bool)
    {ptr mh slot count : Nat} {d : MiniHeap} {list : List Nat}
    (hmark : isMeshMarker ptr = false) (hown : h.miniheapFor ptr = .ok (some mh))
    (hd : Map.lookup mh h.descriptors = some d) (hwf : d.bitmap.WF)
    (hslot : d.slotOf ptr = some slot) (hrange : slot < d.bitmap.bitCount)
    (hcount : h.littleheapCounts[toSizeT (size2Class d.objectSize)]? = some count)
    (hlist : h.littleheaps[toSizeT (size2Class d.objectSize)]? = some list) :
    h.free isMeshMarker remapOk ptr =
      if (({ d with bitmap := d.bitmap.withoutBit slot } : MiniHeap).isDone &&
          ({ d with bitmap := d.bitmap.withoutBit slot } : MiniHeap).isEmpty) = true then
        .ok { h with
          arena := d.spans.foldl (fun a span => MeshableArena.free a span d.spanSize) h.arena
          miniheaps := d.spans.foldl (fun m span => Map.erase span m) h.miniheaps
          stats := { h.stats with mhFreeCount := (h.stats.mhFreeCount + 1) % 2 ^ 64 }
          descriptors := Map.erase mh (Map.insert mh
            ({ d with bitmap := d.bitmap.withoutBit slot } : MiniHeap) h.descriptors)
          littleheapCounts := (h.littleheapCounts.set (toSizeT (size2Class d.objectSize))
            ((count + 2 ^ 64 - 1) % 2 ^ 64))
          littleheaps := (h.littleheaps.set (toSizeT (size2Class d.objectSize))
            (list.erase mh)) }
      else .ok (h.store mh { d with bitmap := d.bitmap.withoutBit slot }) := by
  unfold free
  simp only [hmark, hown, deref_eq hd, miniHeap_free_eq hwf hslot hrange, bind, Except.bind,
    Bool.false_eq_true, if_false]
  have h1 : (h.store mh { d with bitmap := d.bitmap.withoutBit slot }).deref mh
      = .ok { d with bitmap := d.bitmap.withoutBit slot } :=
    deref_eq (Map.lookup_insert_self _ _ _)
  simp only [h1]
  split
  · have h2 := freeMiniheap_eq
      (h := h.store mh { d with bitmap := d.bitmap.withoutBit slot })
      (d := { d with bitmap := d.bitmap.withoutBit slot })
      (Map.lookup_insert_self _ _ _) hcount hlist
    simp only [h2]
    rfl
  · rfl

end GlobalMeshingHeap
end Mesh

namespace Mesh
namespace bitmap
namespace Bitmap

/-! ## Sequences of `tryToSet` and `unset`, and the population count -/

theorem applyOp_eq {b : Bitmap} (hwf : b.WF) {op : Op} (hi : op.index < b.bitCount) :
    b.applyOp op = .ok (match op with
      | .tryToSet i => b.withBit i
      | .unset i => b.withoutBit i) := by
  cases op with
  | tryToSet i =>
    simp only [applyOp, tryToSet_eq hwf (show i < b.bitCount from hi), bind, Except.bind]
  | unset i =>
    simp only [applyOp, unset_eq hwf (show i < b.bitCount from hi), bind, Except.bind]

theorem run_append (ops : List Op) (op : Op) :
    ∀ b : Bitmap, b.run (ops ++ [op]) = (b.run ops).bind (fun b' => b'.applyOp op) := by
  induction ops with
  | nil =>
    intro b
    simp only [List.nil_append, run, bind, Except.bind]
    cases b.applyOp op <;> rfl
  | cons o ops ih =>
    intro b
    simp only [List.cons_append, run, bind, Except.bind]
    cases b.applyOp o with
    | error e => rfl
    | ok b1 => exact ih b1

theorem lastIsSet_append (ops : List Op) (op : Op) (i : Nat) :
    lastIsSet (ops ++ [op]) i =
      if op.index = i then (match op with
        | .tryToSet _ => true
        | .unset _ => false)
      else lastIsSet ops i := by
  unfold lastIsSet
  rw [List.filter_append]
  by_cases h : op.index = i
  · rw [if_pos h]
    have : List.filter (fun op => decide (op.index = i)) [op] = [op] := by
      simp [List.filter_cons, h]
    rw [this, List.getLast?_concat]
    cases op <;> rfl
  · rw [if_neg h]
    have : List.filter (fun op => decide (op.index = i)) [op] = [] := by
      simp [List.filter_cons, h]
    rw [this, List.append_nil]

/-- After a run of in-range operations on a bitmap without set bits, the storage
bit `k` is set iff the last operation on `k` is a `tryToSet`. -/
theorem run_spec {b0 : Bitmap} (hwf : b0.WF) (hzero : ∀ k, b0.storageBit k = false)
    (ops : List Op) :
    (∀ op ∈ ops, op.index < b0.bitCount) →
    ∃ b, b0.run ops = .ok b ∧ b.WF ∧ b.bitCount = b0.bitCount ∧ b.super = b0.super ∧
      b.bits.length = b0.bits.length ∧ ∀ k, b.storageBit k = lastIsSet ops k := by
  induction ops using List.reverseRecOn with
  | nil =>
    intro _
    exact ⟨b0, rfl, hwf, rfl, rfl, rfl, fun k => by rw [hzero k]; rfl⟩
  | append_singleton ops op ih =>
    intro hops
    obtain ⟨b, hb, hbwf, hbc, hbs, hbl, hbits⟩ :=
      ih (fun o ho => hops o (List.mem_append_left _ ho))
    have hi : op.index < b.bitCount := by
      rw [hbc]
      exact hops op (List.mem_append_right _ (List.mem_singleton_self op))
    have hlen : op.index / 64 < b.bits.length := by
      have := hbwf.2.1
      rw [wordCount_representationSize] at this
      omega
    rw [run_append, hb]
    simp only [Except.bind, applyOp_eq hbwf hi]
    cases op with
    | tryToSet i =>
      have hlen' : i / 64 < b.bits.length := hlen
      refine ⟨b.withBit i, rfl, withBit_WF hbwf i, hbc, hbs, ?_, ?_⟩
      · rw [withBit_length]; exact hbl
      · intro k
        rw [storageBit_withBit hlen', lastIsSet_append, hbits k]
        by_cases hk : i = k
        · simp [Op.index, hk]
        · have hk' : ¬ k = i := fun h => hk h.symm
          simp [Op.index, hk, hk']
    | unset i =>
      have hlen' : i / 64 < b.bits.length := hlen
      refine ⟨b.withoutBit i, rfl, withoutBit_WF hbwf i, hbc, hbs, ?_, ?_⟩
      · rw [withoutBit_length]; exact hbl
      · intro k
        rw [storageBit_withoutBit hlen', lastIsSet_append, hbits k]
        by_cases hk : i = k
        · simp [Op.index, hk]
        · have hk' : ¬ k = i := fun h => hk h.symm
          simp [Op.index, hk, hk']

theorem lastIsSet_of_not_mem {ops : List Op} {k : Nat} (h : ∀ op ∈ ops, op.index ≠ k) :
    lastIsSet ops k = false := by
  unfold lastIsSet
  have : List.filter (fun op => decide (op.index = k)) ops = [] := by
    rw [List.filter_eq_nil_iff]
    intro op hop
    simpa using h op hop
  rw [this]
  rfl

/-- The population counts of a list of words add up to the number of set bit
positions of the list. -/
theorem sum_popcountl (ws : List Nat) :
    (ws.map popcountl).sum =
      ((List.range (64 * ws.length)).filter
        (fun k => (ws.getD (k / 64) 0).testBit (k % 64))).length := by
  induction ws with
  | nil => rfl
  | cons w ws ih =>
    have hlen : 64 * (w :: ws).length = 64 + 64 * ws.length := by
      rw [List.length_cons]; omega
    have h1 : popcountl w = ((List.range 64).filter
        (fun k => (((w :: ws).getD (k / 64) 0).testBit (k % 64)))).length := by
      unfold popcountl
      refine congrArg List.length (List.filter_congr ?_)
      intro k hk
      have hk' : k < 64 := List.mem_range.1 hk
      have e1 : k / 64 = 0 := by omega
      have e2 : k % 64 = k := by omega
      rw [e1, e2]
      rfl
    have h2 : (List.range (64 * ws.length)).filter
        ((fun k => ((w :: ws).getD (k / 64) 0).testBit (k % 64)) ∘ fun x => 64 + x)
        = (List.range (64 * ws.length)).filter
          (fun k => (ws.getD (k / 64) 0).testBit (k % 64)) := by
      apply List.filter_congr
      intro k _
      have e1 : (64 + k) / 64 = k / 64 + 1 := by omega
      have e2 : (64 + k) % 64 = k % 64 := by omega
      simp only [Function.comp, e1, e2, List.getD_cons_succ]
    rw [hlen, List.range_add, List.filter_append, List.length_append, List.map_cons,
      List.sum_cons, ih, List.filter_map, List.length_map, h1, h2]

/-- On a well-formed bitmap whose bits beyond `bitCount` are zero, `inUseCount()`
is the number of set bits below `bitCount`. -/
theorem inUseCount_eq {b : Bitmap} (hwf : b.WF)
    (hpad : ∀ k, b.bitCount ≤ k → b.storageBit k = false) :
    b.inUseCount = ((List.range b.bitCount).filter (fun k => b.storageBit k)).length := by
  obtain ⟨_, h2, _⟩ := hwf
  rw [wordCount_representationSize] at h2
  unfold inUseCount
  rw [byteCount_div, sum_popcountl, List.length_take, Nat.min_eq_left h2]
  have hsplit : 64 * ((b.bitCount + 63) / 64) =
      b.bitCount + (64 * ((b.bitCount + 63) / 64) - b.bitCount) := by omega
  have hcongr : (List.range (64 * ((b.bitCount + 63) / 64))).filter
      (fun k => ((List.take ((b.bitCount + 63) / 64) b.bits).getD (k / 64) 0).testBit (k % 64))
      = (List.range (64 * ((b.bitCount + 63) / 64))).filter (fun k => b.storageBit k) := by
    apply List.filter_congr
    intro k hk
    have hk' : k / 64 < (b.bitCount + 63) / 64 := by
      have := List.mem_range.1 hk
      omega
    simp only [storageBit, List.getD_eq_getElem?_getD, List.getElem?_take_of_lt hk']
  rw [hcongr, hsplit, List.range_add, List.filter_append, List.length_append]
  have hnil : List.filter (fun k => b.storageBit k)
      (List.map (fun x => b.bitCount + x)
        (List.range (64 * ((b.bitCount + 63) / 64) - b.bitCount))) = [] := by
    rw [List.filter_eq_nil_iff]
    intro k hk
    obtain ⟨x, _, hx⟩ := List.mem_map.1 hk
    rw [← hx, hpad _ (Nat.le_add_right _ _)]
    simp
  rw [hnil]
  rfl

/-! ## Freshly constructed bitmaps -/

theorem storageBit_of_all_zero {b : Bitmap} (h : ∀ w ∈ b.bits, w = 0) (k : Nat) :
    b.storageBit k = false := by
  unfold storageBit
  by_cases hk : k / 64 < b.bits.length
  · rw [List.getD_eq_getElem _ _ hk, h _ (List.getElem_mem _)]
    exact Nat.zero_testBit _
  · rw [List.getD_eq_default _ _ (Nat.le_of_not_lt hk)]
    exact Nat.zero_testBit _

theorem WF_of_all_zero {b : Bitmap} (h1 : b.bitCount < 2 ^ 32)
    (h2 : bitmap.wordCount (representationSize b.bitCount) ≤ b.bits.length)
    (h : ∀ w ∈ b.bits, w = 0) : b.WF :=
  ⟨h1, h2, fun w hw => by rw [h w hw]; norm_num⟩

/-- The atomic constructor leaves a well-formed bitmap without set bits. -/
theorem constructAtomic_fresh {maxBits bitCount : Nat} {b : Bitmap}
    (hb : constructAtomic maxBits bitCount = .ok b) (hmax : bitCount < 2 ^ 32) :
    b.WF ∧ b.super = .atomic ∧ b.bitCount = bitCount ∧ ∀ w ∈ b.bits, w = 0 := by
  unfold constructAtomic at hb
  by_cases hle : bitCount ≤ maxBits
  · rw [if_neg (by simpa using hle)] at hb
    have hb' := Except.ok.inj hb
    subst hb'
    have hzero : ∀ w ∈ (clear ⟨.atomic, bitCount,
        List.replicate (bitmap.wordCount (representationSize maxBits)) 0⟩).bits, w = 0 := by
      intro w hw
      simp only [clear, List.mem_append, List.mem_replicate] at hw
      rcases hw with h | h
      · exact h.2
      · exact (List.mem_replicate.1 (List.mem_of_mem_drop h)).2
    refine ⟨WF_of_all_zero hmax ?_ hzero, rfl, rfl, hzero⟩
    simp only [clear, List.length_append, List.length_replicate, List.length_drop, byteCount]
    rw [wordCount_representationSize, wordCount_representationSize]
    have : representationSize bitCount / 8 = (bitCount + 63) / 64 := by
      unfold representationSize kWordBits
      omega
    rw [this]
    omega
  · rw [if_pos (by simpa using hle)] at hb
    cases hb

/-- The relaxed constructor leaves a well-formed bitmap without set bits. -/
theorem constructRelaxed_fresh {bitCount : Nat} {memory : List Nat}
    (hmem : memory.length = bitmap.wordCount (representationSize bitCount))
    (hmax : bitCount < 2 ^ 32) :
    (constructRelaxed bitCount memory).WF ∧ (constructRelaxed bitCount memory).super = .relaxed ∧
      (constructRelaxed bitCount memory).bitCount = bitCount ∧
      ∀ w ∈ (constructRelaxed bitCount memory).bits, w = 0 := by
  have hdiv : representationSize bitCount / 8 = (bitCount + 63) / 64 := by
    unfold representationSize kWordBits
    omega
  rw [wordCount_representationSize] at hmem
  have hzero : ∀ w ∈ (constructRelaxed bitCount memory).bits, w = 0 := by
    intro w hw
    simp only [constructRelaxed, clear, byteCount, hdiv, List.mem_append,
      List.mem_replicate] at hw
    rcases hw with h | h
    · exact h.2
    · rw [List.drop_of_length_le (by omega)] at h
      cases h
  refine ⟨WF_of_all_zero hmax ?_ hzero, rfl, rfl, hzero⟩
  simp only [constructRelaxed, clear, List.length_append, List.length_replicate,
    List.length_drop, byteCount, hdiv]
  rw [wordCount_representationSize]
  show (bitCount + 63) / 64 ≤ _
  omega

end Bitmap
end bitmap
end Mesh

namespace Mesh
namespace bitmap
namespace Bitmap

/-! ## Successive calls of `setFirstEmpty(0)` -/

/-- On a bitmap whose set bits are exactly those below `m`, `n` successive calls
`setFirstEmpty(0)` return `m, m + 1, …, m + n - 1`, as long as they fit. -/
theorem setFirstEmptyTimes_spec :
    ∀ (n m : Nat) (b : Bitmap), b.WF → m + n ≤ b.bitCount →
      (∀ j, j < b.bitCount → b.storageBit j = decide (j < m)) →
      ∃ b', setFirstEmptyTimes n b = .ok (List.range' m n, b') := by
  intro n
  induction n with
  | zero => intro m b _ _ _; exact ⟨b, rfl⟩
  | succ n ih =>
    intro m b hwf hfit hbits
    have hm : m < b.bitCount := by omega
    have hclear : b.storageBit m = false := by
      rw [hbits m hm]; simp
    obtain ⟨r, hr, _, hr2, hr3, _⟩ := setFirstEmpty_eq hwf (Nat.zero_le m) hm hclear
    have hrm : r = m := by
      have h1 := hbits r (by omega)
      rw [hr3] at h1
      have : ¬ r < m := by simpa using h1.symm
      omega
    subst hrm
    have hlen : r / 64 < b.bits.length := by
      have := hwf.2.1
      rw [wordCount_representationSize] at this
      omega
    obtain ⟨b', hb'⟩ := ih (r + 1) (b.withBit r) (withBit_WF hwf r)
      (by rw [withBit_bitCount]; omega)
      (by
        intro j hj
        rw [withBit_bitCount] at hj
        rw [storageBit_withBit hlen, hbits j hj]
        by_cases h1 : j < r
        · have : j < r + 1 := by omega
          simp [h1, this]
        · by_cases h2 : j = r
          · simp [h2]
          · have : ¬ j < r + 1 := by omega
            simp [h1, h2, this])
    refine ⟨b', ?_⟩
    unfold setFirstEmptyTimes
    simp only [hr, hb', bind, Except.bind]
    rfl

end Bitmap
end bitmap
end Mesh

namespace Mesh
namespace bitmap
namespace Bitmap

/-! ## Iteration over the set bits -/

theorem filter_range'_eq_nil (p : Nat → Bool) (s n : Nat)
    (h : ∀ j, s ≤ j → j < s + n → p j = false) : (List.range' s n).filter p = [] := by
  rw [List.filter_eq_nil_iff]
  intro j hj
  obtain ⟨h1, h2⟩ := List.mem_range'_1.1 hj
  rw [h j h1 h2]
  simp

theorem range'_split (s a b : Nat) :
    List.range' s (a + b) = List.range' s a ++ List.range' (s + a) b := by
  rw [Nat.add_comm a b]
  exact (List.range'_append_1 s a b).symm

/-- From an iterator at `it` (a set bit, or the end), the loop visits the set
bits in `[it, bitCount)` in ascending order. -/
theorem iterateLoop_spec {b : Bitmap} (hwf : b.WF) :
    ∀ (fuel it : Nat), it ≤ b.bitCount → (it < b.bitCount → b.storageBit it = true) →
      b.bitCount - it < fuel →
      b.iterateLoop fuel it =
        .ok ((List.range' it (b.bitCount - it)).filter (fun k => b.storageBit k)) := by
  intro fuel
  induction fuel with
  | zero => intro it _ _ h; omega
  | succ n ih =>
    intro it hle hset hfuel
    unfold iterateLoop
    by_cases hend : it = b.bitCount
    · rw [if_pos (by simpa [Bitmap.end] using hend), hend, Nat.sub_self]
      rfl
    · rw [if_neg (by simpa [Bitmap.end] using hend)]
      have hlt : it < b.bitCount := by omega
      obtain ⟨r, hr, hr1, hr2, hr3, hr4⟩ := iterNext_spec hwf hlt
      simp only [hr, ih r hr2 hr4 (by omega), bind, Except.bind]
      have hsplit : b.bitCount - it = 1 + ((r - (it + 1)) + (b.bitCount - r)) := by omega
      rw [hsplit, range'_split, range'_split, List.filter_append, List.filter_append,
        filter_range'_eq_nil _ (it + 1) (r - (it + 1)) (fun j hj1 hj2 => hr3 j (by omega) (by omega))]
      have hone : List.filter (fun k => b.storageBit k) (List.range' it 1) = [it] := by
        simp [List.range', hset hlt]
      have hr' : it + 1 + (r - (it + 1)) = r := by omega
      rw [hone, hr', List.nil_append]
      rfl

/-- The iteration from `begin()` to `end()` visits the set bits below `bitCount`
in ascending order. -/
theorem iterate_eq {b : Bitmap} (hwf : b.WF) (hpos : 0 < b.bitCount) :
    b.iterate = .ok ((List.range b.bitCount).filter (fun k => b.storageBit k)) := by
  obtain ⟨r, hr, _, hr2, hr3, hr4⟩ := lowestSetBitAt_spec hwf hpos
  unfold iterate
  simp only [Bitmap.begin, hr, iterateLoop_spec hwf (b.bitCount + 1) r hr2 hr4 (by omega), bind,
    Except.bind]
  have hsplit : b.bitCount = r + (b.bitCount - r) := by omega
  rw [List.range_eq_range']
  conv_rhs => rw [hsplit, range'_split, List.filter_append,
    filter_range'_eq_nil _ 0 r (fun j hj1 hj2 => hr3 j hj1 (by omega))]
  simp

end Bitmap
end bitmap
end Mesh

namespace Mesh
namespace bitmap

/-! ## The scan of `highestSetBitBeforeOrAt` -/

theorem lastSetBelow_some (x : Nat) :
    ∀ (n q : Nat), q < n → x.testBit q = true →
      ∃ r, lastSetBelow x n = some r ∧ q ≤ r ∧ r < n ∧ x.testBit r = true ∧
        ∀ k, r < k → k < n → x.testBit k = false := by
  intro n
  induction n with
  | zero => intro q h; omega
  | succ n ih =>
    intro q hq hx
    unfold lastSetBelow
    by_cases hn : x.testBit n = true
    · refine ⟨n, by simp [hn], by omega, by omega, hn, ?_⟩
      intro k hk1 hk2; omega
    · have hqn : q ≠ n := by
        intro h; subst h; exact hn hx
      obtain ⟨r, hr, hr1, hr2, hr3, hr4⟩ := ih q (by omega) hx
      refine ⟨r, by simp [hn, hr], hr1, by omega, hr3, ?_⟩
      intro k hk1 hk2
      by_cases hkn : k = n
      · subst hkn; simpa using hn
      · exact hr4 k hk1 (by omega)

/-- On a word with a set bit below position 64, `64 - clzl - 1` is the greatest
set position. -/
theorem clzl_spec (x q : Nat) (hq : q < 64) (hx : x.testBit q = true) :
    ∃ r, 64 - clzl x - 1 = r ∧ q ≤ r ∧ r < 64 ∧ x.testBit r = true ∧
      ∀ k, r < k → k < 64 → x.testBit k = false := by
  obtain ⟨r, hr, hr1, hr2, hr3, hr4⟩ := lastSetBelow_some x 64 q hq hx
  refine ⟨r, ?_, hr1, hr2, hr3, hr4⟩
  unfold clzl
  rw [hr]
  show 64 - (63 - r) - 1 = r
  omega

namespace Bitmap

theorem testBit_uptoMask {w : Nat} (hw : w < 2 ^ 64) {s : Nat} (_hs : s ≤ 63) (p : Nat) :
    (w &&& (if s = 63 then allOnes else (1 <<< (s + 1)) - 1)).testBit p =
      (w.testBit p && decide (p ≤ s)) := by
  rw [Nat.testBit_and]
  by_cases h63 : s = 63
  · rw [if_pos h63, allOnes_testBit]
    by_cases hp : p < 64
    · have : p ≤ s := by omega
      simp [hp, this]
    · rw [testBit_false_of_lt hw (by omega)]
      simp
  · rw [if_neg h63]
    have h1 : (1 <<< (s + 1)) - 1 = 2 ^ (s + 1) - 1 := by rw [Nat.shiftLeft_eq, one_mul]
    rw [h1, Nat.testBit_two_pow_sub_one]
    by_cases hp : p ≤ s
    · have : p < s + 1 := by omega
      simp [hp, this]
    · have : ¬ p < s + 1 := by omega
      simp [hp, this]

theorem highestSetBitBeforeOrAtLoop_spec (b : Bitmap) (hw : ∀ w ∈ b.bits, w < 2 ^ 64) :
    ∀ (n s U : Nat), s ≤ 63 → n ≤ b.bits.length → (n = 0 → U = 0) →
      (1 ≤ n → U = 64 * (n - 1) + s + 1) → U ≤ b.bitCount →
      ∃ r, b.highestSetBitBeforeOrAtLoop n s = .ok r ∧
        ((∃ j, j < U ∧ b.storageBit j = true) →
          r < U ∧ b.storageBit r = true ∧ ∀ j, r < j → j < U → b.storageBit j = false) ∧
        ((∀ j, j < U → b.storageBit j = false) → r = 0) := by
  intro n
  induction n with
  | zero =>
    intro s U _ _ h0 _ _
    have hU : U = 0 := h0 rfl
    refine ⟨0, rfl, ?_, fun _ => rfl⟩
    rintro ⟨j, hj, _⟩
    omega
  | succ i ih =>
    intro s U hs hlen _ h1 hU
    have hUeq : U = 64 * i + s + 1 := by
      have := h1 (by omega)
      simpa using this
    have hi : i < b.bits.length := by omega
    have hwi : b.bits.getD i 0 < 2 ^ 64 := getD_lt hw i
    unfold highestSetBitBeforeOrAtLoop
    rw [word_eq hi]
    simp only [bind, Except.bind]
    by_cases hz : b.bits.getD i 0 &&& (if s = 63 then allOnes else (1 <<< (s + 1)) - 1) = 0
    · rw [if_pos hz]
      have hbits : ∀ p, p ≤ s → (b.bits.getD i 0).testBit p = false := by
        intro p hp
        have := testBit_uptoMask hwi hs p
        rw [hz, Nat.zero_testBit] at this
        simpa [hp] using this.symm
      have hword : ∀ j, 64 * i ≤ j → j < U → b.storageBit j = false := by
        intro j hj1 hj2
        have hk : j / 64 = i := by omega
        rw [storageBit_of_div hk]
        exact hbits (j % 64) (by omega)
      obtain ⟨r, hr, hr1, hr2⟩ := ih 63 (64 * i) (le_refl _) (by omega) (by intro h; omega)
        (by intro h; omega) (by omega)
      refine ⟨r, hr, ?_, ?_⟩
      · rintro ⟨j, hj1, hj2⟩
        have hj3 : j < 64 * i := by
          by_contra hcon
          rw [hword j (by omega) hj1] at hj2
          exact Bool.noConfusion hj2
        obtain ⟨e1, e2, e3⟩ := hr1 ⟨j, hj3, hj2⟩
        refine ⟨by omega, e2, ?_⟩
        intro k hk1 hk2
        by_cases hk3 : k < 64 * i
        · exact e3 k hk1 hk3
        · exact hword k (by omega) hk2
      · intro hall
        exact hr2 (fun j hj => hall j (by omega))
    · rw [if_neg hz]
      obtain ⟨q, hq⟩ := Nat.ne_zero_implies_bit_true hz
      have hq' := hq
      rw [testBit_uptoMask hwi hs] at hq'
      have hq64 : q < 64 := by
        by_contra hc
        have : ¬ q ≤ s := by omega
        simp [this] at hq'
      obtain ⟨r0, hr0, _, hr064, hr0set, hr0max⟩ := clzl_spec _ q hq64 hq
      rw [hr0]
      have hr0' := hr0set
      rw [testBit_uptoMask hwi hs] at hr0'
      have hr0s : r0 ≤ s := by
        by_contra hc
        simp [hc] at hr0'
      have hr0w : (b.bits.getD i 0).testBit r0 = true := by
        simpa [hr0s] using hr0'
      have hdiv : (64 * i + r0) / 64 = i := by omega
      have hmod : (64 * i + r0) % 64 = r0 := by omega
      have hset : b.storageBit (64 * i + r0) = true := by
        rw [storageBit_of_div hdiv, hmod]; exact hr0w
      simp only [kWordBits]
      rw [if_pos (by omega)]
      refine ⟨64 * i + r0, rfl, ?_, ?_⟩
      · intro _
        refine ⟨by omega, hset, ?_⟩
        intro j hj1 hj2
        have hk : j / 64 = i := by omega
        rw [storageBit_of_div hk]
        have h3 := hr0max (j % 64) (by omega) (Nat.mod_lt j (by norm_num))
        rw [testBit_uptoMask hwi hs] at h3
        have h4 : j % 64 ≤ s := by omega
        simpa [h4] using h3
      · intro hall
        rw [hall (64 * i + r0) (by omega)] at hset
        exact Bool.noConfusion hset

theorem highestSetBitBeforeOrAt_spec {b : Bitmap} (hwf : b.WF) {k : Nat} (hk : k < b.bitCount) :
    ∃ r, b.highestSetBitBeforeOrAt k = .ok r ∧
      ((∃ j, j ≤ k ∧ b.storageBit j = true) →
        r ≤ k ∧ b.storageBit r = true ∧ ∀ j, r < j → j ≤ k → b.storageBit j = false) ∧
      ((∀ j, j ≤ k → b.storageBit j = false) → r = 0) := by
  obtain ⟨h1, h2, h3⟩ := hwf
  rw [wordCount_representationSize] at h2
  unfold highestSetBitBeforeOrAt
  rw [computeItemPosition_eq h1 hk]
  simp only [bind, Except.bind]
  obtain ⟨r, hr, hr1, hr2⟩ := highestSetBitBeforeOrAtLoop_spec b h3 (k / 64 + 1) (k % 64) (k + 1)
    (by omega) (by omega) (by intro h; omega) (by intro _; simp; omega) (by omega)
  refine ⟨r, hr, ?_, ?_⟩
  · rintro ⟨j, hj1, hj2⟩
    obtain ⟨e1, e2, e3⟩ := hr1 ⟨j, by omega, hj2⟩
    exact ⟨by omega, e2, fun j' h1' h2' => e3 j' h1' (by omega)⟩
  · intro hall
    exact hr2 (fun j hj => hall j (by omega))

end Bitmap
end bitmap
end Mesh

namespace Mesh

/-! ## Size classes -/

theorem staticlog_MinObjectSize : staticlog MinObjectSize = 4 := by decide

theorem ilog2Loop_spec (v : Nat) :
    ∀ (fuel log : Nat), v ≤ 2 ^ (log + fuel) → (log = 0 ∨ 2 ^ (log - 1) < v) →
      v ≤ 2 ^ ilog2Loop v fuel (2 ^ log) log ∧
        (ilog2Loop v fuel (2 ^ log) log = 0 ∨ 2 ^ (ilog2Loop v fuel (2 ^ log) log - 1) < v) := by
  intro fuel
  induction fuel with
  | zero =>
    intro log h1 h2
    exact ⟨by simpa [ilog2Loop] using h1, by simpa [ilog2Loop] using h2⟩
  | succ fuel ih =>
    intro log h1 h2
    unfold ilog2Loop
    by_cases hlt : 2 ^ log < v
    · rw [if_pos hlt]
      have hshift : 2 ^ log <<< 1 = 2 ^ (log + 1) := by
        rw [Nat.shiftLeft_eq, Nat.pow_one, Nat.pow_succ]
      rw [hshift]
      refine ih (log + 1) ?_ (Or.inr (by simpa using hlt))
      have : log + 1 + fuel = log + (fuel + 1) := by omega
      rw [this]; exact h1
    · rw [if_neg hlt]
      exact ⟨by omega, h2⟩

/-- The function `ilog2` is the ceiling of the base-2 logarithm on 64-bit
values. -/
theorem ilog2_spec {v : Nat} (hv : v ≤ 2 ^ 64) :
    v ≤ 2 ^ ilog2 v ∧ (ilog2 v = 0 ∨ 2 ^ (ilog2 v - 1) < v) := by
  have h := ilog2Loop_spec v 64 0 (by simpa using hv) (Or.inl rfl)
  simpa [ilog2] using h

theorem ilog2_two_pow {j : Nat} (hj : j ≤ 64) : ilog2 (2 ^ j) = j := by
  obtain ⟨h1, h2⟩ := ilog2_spec (Nat.pow_le_pow_right (by norm_num) hj)
  have h3 : j ≤ ilog2 (2 ^ j) := (Nat.pow_le_pow_iff_right (by norm_num)).1 h1
  rcases h2 with h2 | h2
  · omega
  · have := (Nat.pow_lt_pow_iff_right (by norm_num : 1 < 2)).1 h2
    omega

theorem class2Size_ofNat {c : Nat} (hc : c < 60) : class2Size (c : Int) = 2 ^ (c + 4) := by
  unfold class2Size
  rw [staticlog_MinObjectSize]
  have h1 : ((c : Int) + ((4 : Nat) : Int)).toNat = c + 4 := by omega
  rw [h1, Nat.shiftLeft_eq, one_mul]
  exact Nat.mod_eq_of_lt (Nat.pow_lt_pow_right (by norm_num) (by omega))

theorem size2Class_eq {sz : Nat} (hsz : 8 ≤ sz) : size2Class sz = (ilog2 sz : Int) - 4 := by
  unfold size2Class
  rw [staticlog_MinObjectSize, if_neg (by omega)]
  rfl

theorem size2Class_small {sz : Nat} (hsz : sz ≤ 8) : size2Class sz = -1 := by
  unfold size2Class
  by_cases h : sz < 8
  · rw [if_pos h]; decide
  · have : sz = 8 := by omega
    subst this
    decide

theorem three_le_ilog2 {sz : Nat} (h8 : 8 ≤ sz) (hsz : sz ≤ 2 ^ 64) : 3 ≤ ilog2 sz := by
  obtain ⟨h1, _⟩ := ilog2_spec hsz
  by_contra hcon
  have h2 : 2 ^ ilog2 sz ≤ 2 ^ 2 := Nat.pow_le_pow_right (by norm_num) (by omega)
  omega

theorem ilog2_le_of_le_two_pow {sz j : Nat} (hj : j ≤ 64) (hsz : sz ≤ 2 ^ j) : ilog2 sz ≤ j := by
  have hle : sz ≤ 2 ^ 64 := le_trans hsz (Nat.pow_le_pow_right (by norm_num) hj)
  obtain ⟨_, h2⟩ := ilog2_spec hle
  rcases h2 with h2 | h2
  · omega
  · have := (Nat.pow_lt_pow_iff_right (by norm_num : 1 < 2)).1 (lt_of_lt_of_le h2 hsz)
    omega

/-- The class size of a request of 8 to `2 ^ 63` bytes is 2 to the ceiling of its
base-2 logarithm. -/
theorem class2Size_size2Class {sz : Nat} (h8 : 8 ≤ sz) (hsz : sz ≤ 2 ^ 63) :
    class2Size (size2Class sz) = 2 ^ ilog2 sz := by
  have hle : sz ≤ 2 ^ 64 := le_trans hsz (by norm_num)
  have h3 := three_le_ilog2 h8 hle
  have h63 : ilog2 sz ≤ 63 := ilog2_le_of_le_two_pow (by norm_num) hsz
  rw [size2Class_eq h8]
  unfold class2Size
  rw [staticlog_MinObjectSize]
  have h1 : ((ilog2 sz : Int) - 4 + ((4 : Nat) : Int)).toNat = ilog2 sz := by omega
  rw [h1, Nat.shiftLeft_eq, one_mul]
  exact Nat.mod_eq_of_lt (Nat.pow_lt_pow_right (by norm_num) (by omega))

end Mesh

namespace Mesh

open bitmap (Bitmap)

/-! ## `allocMiniheap` -/

/-- The object count and span size that `allocMiniheap` computes for class `c`. -/
theorem span_numbers {c : Nat} (hc : c < 11) :
    max (PageSize / 2 ^ (c + 4)) MinStringLen ≤ 256 ∧
    0 < PageSize * PageCount (2 ^ (c + 4) * max (PageSize / 2 ^ (c + 4)) MinStringLen) ∧
    max (PageSize / 2 ^ (c + 4)) MinStringLen =
      PageSize * PageCount (2 ^ (c + 4) * max (PageSize / 2 ^ (c + 4)) MinStringLen) /
        2 ^ (c + 4) ∧
    PageSize * PageCount (2 ^ (c + 4) * max (PageSize / 2 ^ (c + 4)) MinStringLen) =
      2 ^ (c + 4) * max (PageSize / 2 ^ (c + 4)) MinStringLen := by
  interval_cases c <;> decide

theorem size2Class_class_size {c : Nat} (hc : c < 11) :
    size2Class (2 ^ (c + 4)) = (c : Int) := by
  have h16 : 2 ^ 4 ≤ 2 ^ (c + 4) := Nat.pow_le_pow_right (by norm_num) (by omega)
  rw [size2Class_eq (by omega), ilog2_two_pow (by omega)]
  omega

theorem toSizeT_ofNat {c : Nat} (hc : c < 2 ^ 64) : toSizeT (c : Int) = c := by
  unfold toSizeT
  omega

namespace GlobalMeshingHeap

theorem allocMiniheap_eq (h : GlobalMeshingHeap) (a p c : Nat) (hc : c < NumBins)
    (hmax : h.maxObjectSize = 16384)
    (hcounts : h.littleheapCounts.length = NumBins)
    (hlists : h.littleheaps.length = NumBins)
    (hhwm : h.stats.mhClassHWM.length = NumBins) :
    ∃ h' bm, h.allocMiniheap (some a) (some p) (2 ^ (c + 4)) = .ok (h', p) ∧
      Bitmap.constructAtomic 256 (max (PageSize / 2 ^ (c + 4)) MinStringLen) = .ok bm ∧
      h'.deref p = .ok
        { spans := [a], objectSize := 2 ^ (c + 4),
          objectCount := max (PageSize / 2 ^ (c + 4)) MinStringLen,
          spanSize :=
            PageSize * PageCount (2 ^ (c + 4) * max (PageSize / 2 ^ (c + 4)) MinStringLen),
          bitmap := bm, done := false } ∧
      Map.lookup a h'.miniheaps = some p ∧
      Map.lookup a h'.arena.allocated = some
        (PageSize * PageCount (2 ^ (c + 4) * max (PageSize / 2 ^ (c + 4)) MinStringLen)) := by
  have hc' : c < 11 := hc
  obtain ⟨hn, hspan, _, _⟩ := span_numbers hc'
  have hclass : size2Class (2 ^ (c + 4)) = (c : Int) := size2Class_class_size hc'
  have hsize : class2Size (c : Int) = 2 ^ (c + 4) := class2Size_ofNat (by omega)
  have hle : 2 ^ (c + 4) ≤ 16384 := by
    have : 2 ^ (c + 4) ≤ 2 ^ 14 := Nat.pow_le_pow_right (by norm_num) (by omega)
    omega
  have hidx : toSizeT (c : Int) = c := toSizeT_ofNat (by omega)
  obtain ⟨count, hcount⟩ : ∃ count, h.littleheapCounts[c]? = some count :=
    ⟨h.littleheapCounts[c], List.getElem?_eq_getElem (by rw [hcounts]; exact hc)⟩
  obtain ⟨list, hlist⟩ : ∃ list, h.littleheaps[c]? = some list :=
    ⟨h.littleheaps[c], List.getElem?_eq_getElem (by rw [hlists]; exact hc)⟩
  obtain ⟨hwm, hhw⟩ : ∃ hwm, h.stats.mhClassHWM[c]? = some hwm :=
    ⟨h.stats.mhClassHWM[c], List.getElem?_eq_getElem (by rw [hhwm]; exact hc)⟩
  have hbm : Bitmap.constructAtomic 256 (max (PageSize / 2 ^ (c + 4)) MinStringLen) =
      .ok (Bitmap.clear ⟨.atomic, max (PageSize / 2 ^ (c + 4)) MinStringLen,
        List.replicate (bitmap.wordCount (bitmap.representationSize 256)) 0⟩) := by
    unfold Bitmap.constructAtomic
    rw [if_neg (by omega)]
  have hcnt' : ((h.littleheapCounts.set c ((count + 1) % 2 ^ 64))[c]?) =
      some ((count + 1) % 2 ^ 64) := by
    rw [List.getElem?_set_self]
    simp [hcounts, hc]
  refine ⟨?hp, ?bm, ?h1, ?h2, ?h3, ?h4, ?h5⟩
  case h2 => exact hbm
  case h1 =>
    unfold allocMiniheap
    simp only [hclass, hsize, hmax, hidx, MiniHeap.construct, hbm, trackMiniheap, store, deref,
      hcount, hlist, hhw, hcnt', Map.lookup_insert_self, bind, Except.bind]
    rw [if_neg (by omega), if_neg (by simp), if_neg (by omega), if_neg (by simp [hc]),
      if_neg (by omega)]
    exact rfl
  case h3 => simp [deref, Map.lookup_insert_self]
  case h4 => simp [Map.lookup_insert_self, MiniHeap.getSpanStart]
  case h5 => simp [Map.lookup_insert_self, MeshableArena.malloc]

end GlobalMeshingHeap
end Mesh

namespace Mesh

open bitmap (Bitmap)

theorem bitmap.Bitmap.constructAtomic_length {maxBits bitCount : Nat} {b : Bitmap}
    (hb : Bitmap.constructAtomic maxBits bitCount = .ok b) :
    b.bits.length = bitmap.wordCount (bitmap.representationSize maxBits) := by
  unfold Bitmap.constructAtomic at hb
  by_cases hle : bitCount ≤ maxBits
  · rw [if_neg (by simpa using hle)] at hb
    have hb' := Except.ok.inj hb
    subst hb'
    simp only [Bitmap.clear, List.length_append, List.length_replicate, List.length_drop]
    omega
  · rw [if_pos hle] at hb
    exact Except.noConfusion hb

/-- The class size of a request is above 16384 exactly when the request is, for
requests of at most `2 ^ 63` bytes. -/
theorem class2Size_size2Class_le_iff {sz : Nat} (hsz : sz ≤ 2 ^ 63) :
    class2Size (size2Class sz) ≤ 16384 ↔ sz ≤ 16384 := by
  by_cases h8 : sz ≤ 8
  · rw [size2Class_small h8]
    have : class2Size (-1) = 8 := by decide
    omega
  · have h64 : sz ≤ 2 ^ 64 := le_trans hsz (by norm_num)
    rw [class2Size_size2Class (by omega) hsz]
    obtain ⟨h1, _⟩ := ilog2_spec h64
    constructor
    · intro h; omega
    · intro h
      have hup : ilog2 sz ≤ 14 := ilog2_le_of_le_two_pow (by norm_num) (by omega)
      have : 2 ^ ilog2 sz ≤ 2 ^ 14 := Nat.pow_le_pow_right (by norm_num) hup
      omega

end Mesh

namespace Mesh

open bitmap (Bitmap)

namespace GlobalMeshingHeap

/-! ## `getSize`, `meshAllSizeClasses` and `shouldMesh` -/

/-- When every entry of the span map points to a live descriptor,
`miniheapFor` returns. -/
theorem miniheapFor_total {h : GlobalMeshingHeap}
    (hlive : ∀ e ∈ h.miniheaps, (Map.lookup e.2 h.descriptors).isSome = true) (ptr : Nat) :
    ∃ r, h.miniheapFor ptr = .ok r := by
  cases hg : Map.greatest_leq h.miniheaps ptr with
  | none => exact ⟨none, by simp only [miniheapFor, hg]⟩
  | some e =>
    obtain ⟨h1, _, _⟩ := Map.greatest_leq_some hg
    have hsome := hlive (e.1, e.2) (Map.mem_of_lookup h1)
    obtain ⟨d, hd⟩ := Option.isSome_iff_exists.1 hsome
    refine ⟨if d.contains ptr then some e.2 else none, ?_⟩
    simp only [miniheapFor, hg, deref_eq hd, bind, Except.bind]
    split <;> rfl

theorem getSize_zero (h : GlobalMeshingHeap) (isMeshMarker : Nat → Bool) {ptr : Nat}
    (hp : ptr = 0 ∨ isMeshMarker ptr = true) : h.getSize isMeshMarker ptr = .ok 0 := by
  unfold getSize
  have : (decide (ptr = 0) || isMeshMarker ptr) = true := by
    rcases hp with hp | hp
    · simp [hp]
    · simp [hp]
  rw [if_pos this]

theorem getSize_small {h : GlobalMeshingHeap} {isMeshMarker : Nat → Bool} {ptr m : Nat}
    {d : MiniHeap} (h0 : ptr ≠ 0) (hmark : isMeshMarker ptr = false)
    (hm : h.miniheapFor ptr = .ok (some m)) (hd : h.deref m = .ok d) :
    h.getSize isMeshMarker ptr = .ok (d.getSize ptr) := by
  unfold getSize
  have : ¬ ((decide (ptr = 0) || isMeshMarker ptr) = true) := by simp [h0, hmark]
  rw [if_neg this]
  simp only [hm, hd, bind, Except.bind]

theorem getSize_big {h : GlobalMeshingHeap} {isMeshMarker : Nat → Bool} {ptr : Nat}
    (h0 : ptr ≠ 0) (hmark : isMeshMarker ptr = false)
    (hm : h.miniheapFor ptr = .ok none) :
    h.getSize isMeshMarker ptr = .ok (h.bigheap.getSize ptr) := by
  unfold getSize
  have : ¬ ((decide (ptr = 0) || isMeshMarker ptr) = true) := by simp [h0, hmark]
  rw [if_neg this]
  simp only [hm, bind, Except.bind]

theorem meshAllSizeClasses_eq (h : GlobalMeshingHeap) (remapOk : Bool) :
    h.meshAllSizeClasses remapOk = .ok h := rfl

theorem foldlM_meshAllSizeClasses (remapOk : Bool) :
    ∀ (l : List Nat) (h : GlobalMeshingHeap),
      l.foldlM (fun (h : GlobalMeshingHeap) _ => h.meshAllSizeClasses remapOk) h = .ok h := by
  intro l
  induction l with
  | nil => intro h; rfl
  | cons _ l ih =>
    intro h
    rw [List.foldlM_cons, meshAllSizeClasses_eq]
    exact ih h

theorem free_marker (h : GlobalMeshingHeap) {isMeshMarker : Nat → Bool} (remapOk : Bool)
    {ptr : Nat} (hmark : isMeshMarker ptr = true) :
    h.free isMeshMarker remapOk ptr = .ok h := by
  unfold free
  simp only [hmark, if_true]
  exact foldlM_meshAllSizeClasses remapOk _ h

end GlobalMeshingHeap
end Mesh

namespace Mesh

namespace GlobalMeshingHeap

theorem shouldMesh_last {h : GlobalMeshingHeap} (hn : h.nextMeshCheck = 1) (draw : Nat) :
    h.shouldMesh draw = ({ h with nextMeshCheck := draw }, true) := by
  unfold shouldMesh
  have hdec : (h.nextMeshCheck + 2 ^ 64 - 1) % 2 ^ 64 = 0 := by omega
  simp only [hdec, decide_True, if_true, resetNextMeshCheck]

theorem shouldMesh_before {h : GlobalMeshingHeap} (h1 : 1 < h.nextMeshCheck)
    (h2 : h.nextMeshCheck < 2 ^ 64) (draw : Nat) :
    h.shouldMesh draw = ({ h with nextMeshCheck := h.nextMeshCheck - 1 }, false) := by
  unfold shouldMesh
  have hdec : (h.nextMeshCheck + 2 ^ 64 - 1) % 2 ^ 64 = h.nextMeshCheck - 1 := by omega
  have hne : ¬ h.nextMeshCheck - 1 = 0 := by omega
  simp only [hdec, hne, decide_False, Bool.false_eq_true, if_false]

theorem shouldMeshCalls_cons (h : GlobalMeshingHeap) (d : Nat) (ds : List Nat) :
    h.shouldMeshCalls (d :: ds) =
      (((h.shouldMesh d).1.shouldMeshCalls ds).1,
        (h.shouldMesh d).2 :: ((h.shouldMesh d).1.shouldMeshCalls ds).2) := rfl

theorem shouldMeshCalls_append (a b : List Nat) :
    ∀ h : GlobalMeshingHeap, h.shouldMeshCalls (a ++ b) =
      (((h.shouldMeshCalls a).1.shouldMeshCalls b).1,
        (h.shouldMeshCalls a).2 ++ ((h.shouldMeshCalls a).1.shouldMeshCalls b).2) := by
  induction a with
  | nil => intro h; rfl
  | cons x a ih =>
    intro h
    rw [List.cons_append, shouldMeshCalls_cons, shouldMeshCalls_cons, ih]
    rfl

/-- The counter stays in `[1, MeshPeriod]` along calls of `shouldMesh`. -/
theorem shouldMeshCalls_range {MeshPeriod : Nat} (hMP : MeshPeriod < 2 ^ 64) :
    ∀ (draws : List Nat) (h : GlobalMeshingHeap),
      (∀ d ∈ draws, 1 ≤ d ∧ d ≤ MeshPeriod) →
      1 ≤ h.nextMeshCheck → h.nextMeshCheck ≤ MeshPeriod →
      1 ≤ (h.shouldMeshCalls draws).1.nextMeshCheck ∧
        (h.shouldMeshCalls draws).1.nextMeshCheck ≤ MeshPeriod := by
  intro draws
  induction draws with
  | nil => intro h _ h1 h2; exact ⟨h1, h2⟩
  | cons d draws ih =>
    intro h hd h1 h2
    have hd1 := hd d (List.mem_cons_self _ _)
    have hrest : ∀ x ∈ draws, 1 ≤ x ∧ x ≤ MeshPeriod :=
      fun x hx => hd x (List.mem_cons_of_mem _ hx)
    rw [shouldMeshCalls_cons]
    by_cases hone : h.nextMeshCheck = 1
    · rw [shouldMesh_last hone]
      exact ih _ hrest hd1.1 hd1.2
    · rw [shouldMesh_before (by omega) (by omega)]
      exact ih _ hrest (by show 1 ≤ h.nextMeshCheck - 1; omega)
        (by show h.nextMeshCheck - 1 ≤ MeshPeriod; omega)

/-- Fewer calls than the counter's value all return false and count down. -/
theorem shouldMeshCalls_countdown :
    ∀ (pre : List Nat) (h : GlobalMeshingHeap), pre.length < h.nextMeshCheck →
      h.nextMeshCheck < 2 ^ 64 →
      h.shouldMeshCalls pre =
        ({ h with nextMeshCheck := h.nextMeshCheck - pre.length },
          List.replicate pre.length false) := by
  intro pre
  induction pre with
  | nil => intro h _ _; rfl
  | cons d pre ih =>
    intro h hlen hlt
    rw [List.length_cons] at hlen
    rw [shouldMeshCalls_cons, shouldMesh_before (by omega) hlt]
    rw [ih _ (by show pre.length < h.nextMeshCheck - 1; omega)
      (by show h.nextMeshCheck - 1 < 2 ^ 64; omega)]
    simp only [List.length_cons, List.replicate_succ]
    have : h.nextMeshCheck - 1 - pre.length = h.nextMeshCheck - (pre.length + 1) := by omega
    rw [this]

end GlobalMeshingHeap
end Mesh

namespace Mesh
namespace bitmap
namespace Bitmap

/-! ## The storage bits beyond `bitCount` -/

theorem tryToSet_padding {b : Bitmap} (hwf : b.WF)
    (hpad : ∀ k, b.bitCount ≤ k → b.storageBit k = false) {i : Nat} (hi : i < b.bitCount) :
    ∃ r b', b.tryToSet i = .ok (r, b') ∧ b'.WF ∧ b'.bitCount = b.bitCount ∧
      ∀ k, b'.bitCount ≤ k → b'.storageBit k = false := by
  have hlen : i / 64 < b.bits.length := by
    have := hwf.2.1
    rw [wordCount_representationSize] at this
    omega
  refine ⟨_, _, tryToSet_eq hwf hi, withBit_WF hwf i, rfl, ?_⟩
  intro k hk
  have hk' : b.bitCount ≤ k := hk
  rw [storageBit_withBit hlen, hpad k hk']
  have : ¬ k = i := by omega
  simp [this]

theorem unset_padding {b : Bitmap} (hwf : b.WF)
    (hpad : ∀ k, b.bitCount ≤ k → b.storageBit k = false) {i : Nat} (hi : i < b.bitCount) :
    ∃ r b', b.unset i = .ok (r, b') ∧ b'.WF ∧ b'.bitCount = b.bitCount ∧
      ∀ k, b'.bitCount ≤ k → b'.storageBit k = false := by
  have hlen : i / 64 < b.bits.length := by
    have := hwf.2.1
    rw [wordCount_representationSize] at this
    omega
  refine ⟨_, _, unset_eq hwf hi, withoutBit_WF hwf i, rfl, ?_⟩
  intro k hk
  have hk' : b.bitCount ≤ k := hk
  rw [storageBit_withoutBit hlen, hpad k hk']
  rfl

theorem setFirstEmpty_padding {b : Bitmap} (hwf : b.WF)
    (hpad : ∀ k, b.bitCount ≤ k → b.storageBit k = false) {startAt j : Nat}
    (hs : startAt ≤ j) (hj : j < b.bitCount) (hclear : b.storageBit j = false) :
    ∃ r b', b.setFirstEmpty startAt = .ok (r, b') ∧ b'.WF ∧ b'.bitCount = b.bitCount ∧
      ∀ k, b'.bitCount ≤ k → b'.storageBit k = false := by
  obtain ⟨r, hr, _, hr2, _, _⟩ := setFirstEmpty_eq hwf hs hj hclear
  have hlen : r / 64 < b.bits.length := by
    have := hwf.2.1
    rw [wordCount_representationSize] at this
    omega
  refine ⟨r, _, hr, withBit_WF hwf r, rfl, ?_⟩
  intro k hk
  have hk' : b.bitCount ≤ k := hk
  rw [storageBit_withBit hlen, hpad k hk']
  have : ¬ k = r := by omega
  simp [this]

theorem inUseCount_le {b : Bitmap} (hwf : b.WF)
    (hpad : ∀ k, b.bitCount ≤ k → b.storageBit k = false) : b.inUseCount ≤ b.bitCount := by
  rw [inUseCount_eq hwf hpad]
  calc ((List.range b.bitCount).filter (fun k => b.storageBit k)).length
      ≤ (List.range b.bitCount).length := List.length_filter_le _ _
    _ = b.bitCount := List.length_range _

theorem clear_storageBit {b : Bitmap} {k : Nat} (h : b.clear.storageBit k = true) :
    b.storageBit k = true := by
  unfold storageBit clear at h
  unfold storageBit
  simp only [List.getD_eq_getElem?_getD] at h ⊢
  by_cases hlt : k / 64 < min (b.byteCount / 8) b.bits.length
  · rw [List.getElem?_append_left (by rw [List.length_replicate]; exact hlt)] at h
    rw [List.getElem?_replicate] at h
    simp [hlt] at h
  · rw [List.getElem?_append_right (by rw [List.length_replicate]; omega)] at h
    simp only [List.length_replicate, List.getElem?_drop] at h
    by_cases hwc : b.byteCount / 8 ≤ b.bits.length
    · have hidx : b.byteCount / 8 + (k / 64 - min (b.byteCount / 8) b.bits.length) = k / 64 := by
        rw [Nat.min_eq_left hwc] at hlt ⊢
        omega
      rw [hidx] at h
      exact h
    · have hnone : b.bits[b.byteCount / 8 +
          (k / 64 - min (b.byteCount / 8) b.bits.length)]? = none := by
        apply List.getElem?_eq_none
        omega
      rw [hnone] at h
      simp at h

theorem clear_padding {b : Bitmap}
    (hpad : ∀ k, b.bitCount ≤ k → b.storageBit k = false) :
    b.clear.bitCount = b.bitCount ∧ ∀ k, b.clear.bitCount ≤ k → b.clear.storageBit k = false := by
  refine ⟨rfl, ?_⟩
  intro k hk
  cases hc : b.clear.storageBit k
  · rfl
  · have := clear_storageBit hc
    rw [hpad k hk] at this
    exact Bool.noConfusion this

end Bitmap
end bitmap
end Mesh

namespace Mesh

open bitmap (Bitmap)

theorem bitmap.Bitmap.filter_range'_step (p : Nat → Bool) {it r n : Nat} (hit : it < n)
    (hp : p it = true) (h1 : it < r) (h2 : r ≤ n) (h3 : ∀ j, it < j → j < r → p j = false) :
    (List.range' it (n - it)).filter p = it :: (List.range' r (n - r)).filter p := by
  have hsplit : n - it = 1 + ((r - (it + 1)) + (n - r)) := by omega
  rw [hsplit, Bitmap.range'_split, Bitmap.range'_split, List.filter_append, List.filter_append,
    Bitmap.filter_range'_eq_nil _ (it + 1) (r - (it + 1))
      (fun j hj1 hj2 => h3 j (by omega) (by omega))]
  have hone : List.filter p (List.range' it 1) = [it] := by
    simp [List.range', hp]
  have hr' : it + 1 + (r - (it + 1)) = r := by omega
  rw [hone, hr', List.nil_append]
  rfl

/-- The iterator `begin()` returns is the first set bit, or `bitCount`; it
returns only on a bitmap with `bitCount > 0`. -/
theorem bitmap.Bitmap.begin_spec {b : Bitmap} (hwf : b.WF) {it : Nat}
    (hit : b.begin = .ok it) :
    0 < b.bitCount ∧ it ≤ b.bitCount ∧ (∀ j, j < it → b.storageBit j = false) ∧
      (it < b.bitCount → b.storageBit it = true) := by
  have hpos : 0 < b.bitCount := by
    by_contra hcon
    unfold Bitmap.begin Bitmap.lowestSetBitAt Bitmap.computeItemPosition at hit
    rw [if_pos hcon] at hit
    exact Except.noConfusion hit
  obtain ⟨r, hr, _, hr2, hr3, hr4⟩ := Bitmap.lowestSetBitAt_spec hwf hpos
  have hrit : r = it := by
    unfold Bitmap.begin at hit
    rw [hr] at hit
    exact Except.ok.inj hit
  subst hrit
  exact ⟨hpos, hr2, fun j hj => hr3 j (Nat.zero_le _) hj, hr4⟩

namespace GlobalMeshingHeap

/-- The copy loop of `mesh` from an iterator at `it`: when the set bits of `src`
from `it` on are clear in `dst`, the loop returns, and it has copied one object
for each of them, in ascending order, to the slot `mallocAt` returned. -/
theorem meshLoop_copies (dst src srcSpan objectSize : Nat) (hne : dst ≠ src) (s : MiniHeap)
    (hswf : s.bitmap.WF) :
    ∀ (fuel it : Nat) (h : GlobalMeshingHeap) (d : MiniHeap),
      Map.lookup src h.descriptors = some s → Map.lookup dst h.descriptors = some d →
      d.bitmap.WF → d.bitmap.bitCount = s.bitmap.bitCount →
      it ≤ s.bitmap.bitCount →
      (it < s.bitmap.bitCount → s.bitmap.storageBit it = true) →
      (∀ j, it ≤ j → j < s.bitmap.bitCount → s.bitmap.storageBit j = true →
        d.bitmap.storageBit j = false) →
      s.bitmap.bitCount - it < fuel →
      ∃ h', meshLoop dst src srcSpan objectSize fuel it h = .ok h' ∧
        h'.memcpys = h.memcpys ++
          ((List.range' it (s.bitmap.bitCount - it)).filter
            (fun k => s.bitmap.storageBit k)).map
            (fun off => (d.getSpanStart + off * d.objectSize, srcSpan + off * objectSize,
              objectSize)) := by
  intro fuel
  induction fuel with
  | zero => intro it h d _ _ _ _ _ _ _ hf; omega
  | succ n ih =>
    intro it h d hs hd hdwf hcount hit hset hdis hfuel
    unfold meshLoop
    simp only [deref_eq hs, bind, Except.bind, Bitmap.end]
    by_cases hend : it = s.bitmap.bitCount
    · rw [if_pos hend]
      refine ⟨h, rfl, ?_⟩
      rw [hend, Nat.sub_self]
      simp
    · rw [if_neg hend]
      have hlt : it < s.bitmap.bitCount := by omega
      have hsit : s.bitmap.storageBit it = true := hset hlt
      have hdit : d.bitmap.storageBit it = false := hdis it (le_refl _) hlt hsit
      have hltd : it < d.bitmap.bitCount := by omega
      simp only [deref_eq hd, Bitmap.isSet_eq hdwf hltd, hdit, mallocAt_clear hdwf hltd hdit]
      have hlen : it / 64 < d.bitmap.bits.length := by
        have := hdwf.2.1
        rw [Bitmap.wordCount_representationSize] at this
        omega
      have hs' : Map.lookup src (Map.insert dst
          { d with bitmap := d.bitmap.withBit it } h.descriptors) = some s := by
        rw [Map.lookup_insert_ne (Ne.symm hne)]; exact hs
      obtain ⟨r, hr, hr1, hr2, hr3, hr4⟩ := Bitmap.iterNext_spec hswf hlt
      have hderef : (GlobalMeshingHeap.deref
          { (h.store dst { d with bitmap := d.bitmap.withBit it }) with
            memcpys := (h.store dst { d with bitmap := d.bitmap.withBit it }).memcpys ++
              [(d.getSpanStart + it * d.objectSize, srcSpan + it * objectSize, objectSize)] }
          src) = .ok s := deref_eq hs'
      simp only [Bool.false_eq_true, if_false, hderef, hr]
      obtain ⟨h', e1, e2⟩ := ih r
        { (h.store dst { d with bitmap := d.bitmap.withBit it }) with
            memcpys := (h.store dst { d with bitmap := d.bitmap.withBit it }).memcpys ++
              [(d.getSpanStart + it * d.objectSize, srcSpan + it * objectSize, objectSize)] }
        { d with bitmap := d.bitmap.withBit it } hs'
        (Map.lookup_insert_self _ _ _) (Bitmap.withBit_WF hdwf it) hcount hr2 hr4
        (by
          intro j hj1 hj2 hj3
          show (d.bitmap.withBit it).storageBit j = false
          rw [Bitmap.storageBit_withBit hlen, hdis j (by omega) hj2 hj3]
          have : ¬ j = it := by omega
          simp [this])
        (by omega)
      refine ⟨h', e1, ?_⟩
      rw [e2, Bitmap.filter_range'_step _ hlt hsit hr1 hr2 hr3, List.map_cons]
      show (h.memcpys ++ _) ++ _ = _
      rw [List.append_assoc]
      rfl

end GlobalMeshingHeap
end Mesh

namespace Mesh

open bitmap (Bitmap)

/-! ## `memalign` -/

/-- For a power-of-two alignment of at most a page and a size of at most a page,
a size class qualifies, and `memalignClass` is the smallest one that does. -/
theorem memalignClass_some {a s j : Nat} (ha : a = 2 ^ j) (hj : j ≤ 12) (hs : s ≤ 4096) :
    ∃ c, memalignClass a s = some c ∧ c < NumBins ∧ s ≤ class2Size c ∧ a ∣ class2Size c ∧
      ∀ c', c' < c → ¬ (s ≤ class2Size c' ∧ a ∣ class2Size c') := by
  cases hfind : memalignClass a s with
  | none =>
    exfalso
    unfold memalignClass at hfind
    rw [List.find?_range_eq_none] at hfind
    have h8 := hfind 8 (by decide)
    have hsize : class2Size ((8 : Nat) : Int) = 4096 := by decide
    have hmod : 4096 % a = 0 := by
      rw [ha]
      exact Nat.mod_eq_zero_of_dvd (pow_dvd_pow 2 hj)
    rw [hsize] at h8
    simp [hs, hmod] at h8
  | some c =>
    unfold memalignClass at hfind
    rw [List.find?_range_eq_some] at hfind
    obtain ⟨hp, hmem, hmin⟩ := hfind
    have hp' : s ≤ class2Size c ∧ class2Size c % a = 0 := by simpa using hp
    refine ⟨c, rfl, List.mem_range.1 hmem, hp'.1, Nat.dvd_of_mod_eq_zero hp'.2, ?_⟩
    intro c' hc' ⟨h1, h2⟩
    have := hmin c' hc'
    have hmod : class2Size c' % a = 0 := Nat.mod_eq_zero_of_dvd h2
    simp [h1, hmod] at this

end Mesh

/-! # Claims -/

namespace Mesh

open bitmap (Bitmap)

namespace GlobalMeshingHeap

/-- C1: for two distinct live miniheaps `dst` and `src` of the same size class,
with well-formed bitmaps of the same positive bit count that are disjoint,
`mesh(dst, src)` returns; afterwards bit `i` of `dst` is set iff it was set in
`dst` or in `src` before the call, `src` is unlinked from its size-class list and
its descriptor is deallocated, and the caller's `src` reference is null. -/
theorem mesh_unions_bitmaps_and_frees_src (h : GlobalMeshingHeap) (remapOk : Bool)
    (dst src count : Nat) (d s : MiniHeap) (list : List Nat) (hne : dst ≠ src)
    (hd : h.deref dst = .ok d) (hs : h.deref src = .ok s)
    (hdwf : d.bitmap.WF) (hswf : s.bitmap.WF) (_hclass : d.objectSize = s.objectSize)
    (hbits : d.bitmap.bitCount = s.bitmap.bitCount) (hpos : 0 < s.bitmap.bitCount)
    (hdis : ∀ i, ¬ (d.bitmap.isSet i = .ok true ∧ s.bitmap.isSet i = .ok true))
    (hcount : h.littleheapCounts[toSizeT (size2Class s.objectSize)]? = some count)
    (hlist : h.littleheaps[toSizeT (size2Class s.objectSize)]? = some list)
    (hnodup : list.Nodup) :
    ∃ h' d', h.mesh remapOk dst src = .ok (h', none) ∧
      h'.deref dst = .ok d' ∧ d'.bitmap.bitCount = d.bitmap.bitCount ∧
      (∀ i, i < d.bitmap.bitCount →
        (d'.bitmap.isSet i = .ok true ↔
          (d.bitmap.isSet i = .ok true ∨ s.bitmap.isSet i = .ok true))) ∧
      (∀ i, i < d.bitmap.bitCount → d'.bitmap.isSet i =
        .ok (d.bitmap.storageBit i || s.bitmap.storageBit i)) ∧
      h'.deref src = .error .badPointer ∧
      h'.littleheaps[toSizeT (size2Class s.objectSize)]? = some (list.erase src) ∧
      src ∉ list.erase src ∧
      (∀ c, c ≠ toSizeT (size2Class s.objectSize) → h'.littleheaps[c]? = h.littleheaps[c]?) := by
  have hdis' : ∀ j, j < s.bitmap.bitCount → s.bitmap.storageBit j = true →
      d.bitmap.storageBit j = false := by
    intro j hj hsj
    cases hdj : d.bitmap.storageBit j
    · rfl
    · exfalso
      apply hdis j
      rw [Bitmap.isSet_eq hdwf (by omega), Bitmap.isSet_eq hswf hj, hdj, hsj]
      exact ⟨rfl, rfl⟩
  obtain ⟨D, M, bm, e1, e2, e3, _, e5, e6, e7, e8, e9⟩ :=
    mesh_eq hne (lookup_of_deref hd) (lookup_of_deref hs) hdwf hswf hbits hpos hdis'
      hcount hlist
  have hval : ∀ i, i < d.bitmap.bitCount →
      bm.isSet i = .ok (d.bitmap.storageBit i || s.bitmap.storageBit i) := by
    intro i hi
    have hi' : i < s.bitmap.bitCount := by omega
    rw [Bitmap.isSet_eq e5 (by omega), e9 i]
    simp [hi']
  have hidx : toSizeT (size2Class s.objectSize) < h.littleheaps.length := by
    by_contra hcon
    rw [List.getElem?_eq_none (Nat.le_of_not_lt hcon)] at hlist
    cases hlist
  refine ⟨_, { d with bitmap := bm, spans := d.spans ++ [s.getSpanStart] }, e1 remapOk,
    deref_eq e3, e6, ?_, hval, ?_, ?_, ?_, ?_⟩
  · intro i hi
    have hi' : i < s.bitmap.bitCount := by omega
    show bm.isSet i = .ok true ↔ _
    rw [hval i hi, Bitmap.isSet_eq hdwf hi, Bitmap.isSet_eq hswf hi']
    cases d.bitmap.storageBit i <;> cases s.bitmap.storageBit i <;> simp
  · show GlobalMeshingHeap.deref _ src = _
    unfold deref
    simp only [e2]
  · show (h.littleheaps.set _ _)[_]? = _
    rw [List.getElem?_set_self hidx]
  · intro hmem
    exact absurd hmem (List.Nodup.not_mem_erase hnodup)
  · intro c hc
    show (h.littleheaps.set _ _)[c]? = _
    rw [List.getElem?_set_ne (Ne.symm hc)]

/-- C1, at the example heap: the miniheap at 1000 (bitmap `10101010`) absorbs the
one at 2000 (bitmap `01010101`). -/
theorem mesh_unions_bitmaps_and_frees_src_witness :
    ∃ h' d', exampleHeap.mesh true 1000 2000 = .ok (h', none) ∧
      h'.deref 1000 = .ok d' ∧ d'.bitmap.bitCount = exampleDst.bitmap.bitCount ∧
      (∀ i, i < exampleDst.bitmap.bitCount →
        (d'.bitmap.isSet i = .ok true ↔
          (exampleDst.bitmap.isSet i = .ok true ∨ exampleSrc.bitmap.isSet i = .ok true))) ∧
      (∀ i, i < exampleDst.bitmap.bitCount → d'.bitmap.isSet i =
        .ok (exampleDst.bitmap.storageBit i || exampleSrc.bitmap.storageBit i)) ∧
      h'.deref 2000 = .error .badPointer ∧
      h'.littleheaps[toSizeT (size2Class exampleSrc.objectSize)]? =
        some ([1000, 2000].erase 2000) ∧
      2000 ∉ [1000, 2000].erase 2000 ∧
      (∀ c, c ≠ toSizeT (size2Class exampleSrc.objectSize) →
        h'.littleheaps[c]? = exampleHeap.littleheaps[c]?) :=
  mesh_unions_bitmaps_and_frees_src exampleHeap true 1000 2000 2 exampleDst exampleSrc
    [1000, 2000] (by decide) (by decide) (by decide) (by decide) (by decide) (by decide)
    (by decide) (by decide)
    (by
      intro i hi
      have h1 := (Bitmap.isSet_true hi.1).2
      have h2 := Bitmap.isSet_true hi.2
      have h3 : i < 8 := h2.1
      have h4 := h2.2
      revert h1 h4
      interval_cases i <;> decide)
    (by decide) (by decide) (by decide)

end GlobalMeshingHeap
end Mesh

namespace Mesh

open bitmap (Bitmap)

/-- C2: for two done miniheaps with the bitmaps `10101010` and `01010101`,
whatever permutation the shuffle produces, `randomSort` passes no pair to
`meshFound`: a pair with a done member is skipped. -/
theorem randomSort_done_pair_not_emitted (shuffle : List MiniHeap → List MiniHeap)
    (hperm : ∀ l, (shuffle l).Perm l) :
    bitmap.Bitmap.ofString "10101010" = .ok exampleDst.bitmap ∧
    bitmap.Bitmap.ofString "01010101" = .ok exampleSrc.bitmap ∧
    exampleDst.isDone = true ∧ exampleSrc.isDone = true ∧
    randomSort MiniHeap.isDone MiniHeap.bitmap shuffle [exampleDst, exampleSrc]
      = ([], .ok ()) := by
  refine ⟨by decide, by decide, rfl, rfl, ?_⟩
  unfold randomSort
  simp only
  split
  · rfl
  · apply randomSortLoop_all_done
    intro x hx
    have hx' := (hperm _).subset hx
    have hx'' : x ∈ [exampleDst, exampleSrc] := List.mem_of_mem_take hx'
    rcases List.mem_cons.1 hx'' with h | h
    · rw [h]; rfl
    · rw [List.mem_singleton.1 h]; rfl

/-- C2, with the shuffle that reverses the range. -/
theorem randomSort_done_pair_not_emitted_witness :
    (∀ l : List MiniHeap, (List.reverse l).Perm l) ∧
    randomSort MiniHeap.isDone MiniHeap.bitmap List.reverse [exampleDst, exampleSrc]
      = ([], .ok ()) :=
  ⟨fun l => List.reverse_perm l,
    (randomSort_done_pair_not_emitted List.reverse (fun l => List.reverse_perm l)).2.2.2.2⟩

/-- C3: every pair `randomSort` passes to `meshFound` has disjoint bitmaps: no bit
index is set in both; hence two miniheaps with the bitmaps `11110000` and
`00111100` are never emitted as a pair, whatever the list and the shuffle. -/
theorem randomSort_emits_disjoint {T : Type} (isDone : T → Bool) (bitmapOf : T → Bitmap)
    (shuffle : List T → List T) (miniheaps : List T) :
    (∀ pair ∈ (randomSort isDone bitmapOf shuffle miniheaps).1,
      ∃ h1 h2, pair = [h1, h2] ∧
        (∀ k, k < (bitmapOf h1).bitCount →
          ¬ ((bitmapOf h1).storageBit k = true ∧ (bitmapOf h2).storageBit k = true)) ∧
        (∀ k, ¬ ((bitmapOf h1).isSet k = .ok true ∧ (bitmapOf h2).isSet k = .ok true))) ∧
    (∀ h1 h2, bitmap.Bitmap.ofString "11110000" = .ok (bitmapOf h1) →
      bitmap.Bitmap.ofString "00111100" = .ok (bitmapOf h2) →
      [h1, h2] ∉ (randomSort isDone bitmapOf shuffle miniheaps).1 ∧
      [h2, h1] ∉ (randomSort isDone bitmapOf shuffle miniheaps).1) := by
  have key : ∀ pair ∈ (randomSort isDone bitmapOf shuffle miniheaps).1,
      ∃ h1 h2, pair = [h1, h2] ∧
        ∀ k, k < (bitmapOf h1).bitCount →
          ¬ ((bitmapOf h1).storageBit k = true ∧ (bitmapOf h2).storageBit k = true) := by
    intro pair hp
    obtain ⟨h1, h2, e1, _, _, hm⟩ := randomSort_emitted isDone bitmapOf shuffle miniheaps pair hp
    refine ⟨h1, h2, e1, ?_⟩
    intro k hk
    apply bitmapsMeshable_disjoint hm
    unfold bitmap.Bitmap.wordCount
    rw [bitmap.Bitmap.byteCount_div]
    omega
  constructor
  · intro pair hp
    obtain ⟨h1, h2, e1, hdis⟩ := key pair hp
    refine ⟨h1, h2, e1, hdis, ?_⟩
    intro k ⟨hs1, hs2⟩
    obtain ⟨hk, hb1⟩ := bitmap.Bitmap.isSet_true hs1
    exact hdis k hk ⟨hb1, (bitmap.Bitmap.isSet_true hs2).2⟩
  · intro h1 h2 hb1 hb2
    have hs1 : Bitmap.ofString "11110000" = .ok ⟨.atomic, 8, [15, 0, 0, 0]⟩ := by decide
    have hs2 : Bitmap.ofString "00111100" = .ok ⟨.atomic, 8, [60, 0, 0, 0]⟩ := by decide
    have e1 : bitmapOf h1 = ⟨.atomic, 8, [15, 0, 0, 0]⟩ := Except.ok.inj (hb1.symm.trans hs1)
    have e2 : bitmapOf h2 = ⟨.atomic, 8, [60, 0, 0, 0]⟩ := Except.ok.inj (hb2.symm.trans hs2)
    constructor
    · intro hp
      obtain ⟨a, b, e, hdis⟩ := key _ hp
      obtain ⟨ea, eb⟩ : h1 = a ∧ h2 = b := by simpa using e
      subst ea; subst eb
      rw [e1, e2] at hdis
      exact hdis 2 (by decide) (by decide)
    · intro hp
      obtain ⟨a, b, e, hdis⟩ := key _ hp
      obtain ⟨ea, eb⟩ : h2 = a ∧ h1 = b := by simpa using e
      subst ea; subst eb
      rw [e1, e2] at hdis
      exact hdis 2 (by decide) (by decide)

/-- C3, at a list of two miniheaps that are not done and have the disjoint
bitmaps `10101010` and `01010101`, followed by a done one: the emitted pair
shares no bit; and the pair with the bitmaps `11110000` and `00111100` is not
emitted. -/
theorem randomSort_emits_disjoint_witness :
    [exampleOpenA, exampleOpenB] ∈
      (randomSort MiniHeap.isDone MiniHeap.bitmap id
        [exampleOpenA, exampleOpenB, exampleSrc]).1 ∧
    (∃ h1 h2, [exampleOpenA, exampleOpenB] = [h1, h2] ∧
        (∀ k, k < h1.bitmap.bitCount →
          ¬ (h1.bitmap.storageBit k = true ∧ h2.bitmap.storageBit k = true)) ∧
        (∀ k, ¬ (h1.bitmap.isSet k = .ok true ∧ h2.bitmap.isSet k = .ok true))) ∧
    [exampleOverlapA, exampleOverlapB] ∉
      (randomSort MiniHeap.isDone MiniHeap.bitmap id
        [exampleOverlapA, exampleOverlapB, exampleSrc]).1 :=
  ⟨by decide,
    (randomSort_emits_disjoint MiniHeap.isDone MiniHeap.bitmap id
      [exampleOpenA, exampleOpenB, exampleSrc]).1 _ (by decide),
    ((randomSort_emits_disjoint MiniHeap.isDone MiniHeap.bitmap id
      [exampleOverlapA, exampleOverlapB, exampleSrc]).2 exampleOverlapA exampleOverlapB
        (by decide) (by decide)).1⟩

end Mesh

namespace Mesh

open bitmap (Bitmap)

namespace GlobalMeshingHeap

/-- C4: `mesh(dst, src)` rewrites only the map entry of the first span of `src`.
In the heap reached from `exampleHeap3` by `mesh(2000, 3000)` the miniheap at
2000 owns the spans at 131072 and 196608; after `mesh(1000, 2000)` the key
196608 still maps to 2000, whose descriptor is deallocated, and a lookup of a
pointer in that span dereferences it. -/
theorem mesh_leaves_entry_of_second_span :
    exampleHeap3.mesh true 2000 3000 = .ok (exampleHeapTwoSpans, none) ∧
    Map.lookup 131072 exampleHeapTwoSpans.miniheaps = some 2000 ∧
    Map.lookup 196608 exampleHeapTwoSpans.miniheaps = some 2000 ∧
    ∃ h', exampleHeapTwoSpans.mesh true 1000 2000 = .ok (h', none) ∧
      Map.lookup 131072 h'.miniheaps = some 1000 ∧
      Map.lookup 196608 h'.miniheaps = some 2000 ∧
      Map.lookup 2000 h'.descriptors = none ∧
      h'.miniheapFor 196608 = .error .badPointer := by
  refine ⟨by decide, by decide, by decide, ?_⟩
  refine ⟨(match exampleHeapTwoSpans.mesh true 1000 2000 with
    | .ok r => r.1
    | .error _ => exampleHeapTwoSpans), by decide, by decide, by decide, by decide, by decide⟩

/-- C5, as stated, fails: with the arena mesh primitive failing, `mesh(1000, 2000)`
on the example heap still returns a state in which the bitmap and the span list
of `dst` are changed, the descriptor of `src` is deallocated, and the size-class
list and the span map are changed. -/
theorem mesh_not_abandoned_on_remap_failure :
    ∃ h', exampleHeap.mesh false 1000 2000 = .ok (h', none) ∧
      h'.arena = exampleHeap.arena ∧
      h'.deref 1000 = .ok { exampleDst with
        bitmap := ⟨.atomic, 8, [255, 0, 0, 0]⟩, spans := [65536, 131072] } ∧
      h'.deref 1000 ≠ exampleHeap.deref 1000 ∧
      exampleHeap.deref 2000 = .ok exampleSrc ∧
      h'.deref 2000 = .error .badPointer ∧
      h'.littleheaps ≠ exampleHeap.littleheaps ∧
      Map.lookup 131072 exampleHeap.miniheaps = some 2000 ∧
      Map.lookup 131072 h'.miniheaps = some 1000 := by
  refine ⟨(match exampleHeap.mesh false 1000 2000 with
    | .ok r => r.1
    | .error _ => exampleHeap), by decide, by decide, by decide, by decide, by decide,
    by decide, by decide, by decide, by decide⟩

/-- C5, amended: `mesh(dst, src)` does not observe the outcome of the arena mesh
primitive.  When the primitive fails the arena is left as it was and `mesh`
completes as when it succeeds: the state it returns is that of the successful
run but for the arena, with `src` deallocated and nulled, the bitmap of `dst`
the union of the two, the first span of `src` appended to the spans of `dst` and
mapped to `dst`. -/
theorem mesh_ignores_remap_outcome (h : GlobalMeshingHeap)
    (dst src count : Nat) (d s : MiniHeap) (list : List Nat) (hne : dst ≠ src)
    (hd : h.deref dst = .ok d) (hs : h.deref src = .ok s)
    (hdwf : d.bitmap.WF) (hswf : s.bitmap.WF)
    (hbits : d.bitmap.bitCount = s.bitmap.bitCount) (hpos : 0 < s.bitmap.bitCount)
    (hdis : ∀ i, ¬ (d.bitmap.isSet i = .ok true ∧ s.bitmap.isSet i = .ok true))
    (hcount : h.littleheapCounts[toSizeT (size2Class s.objectSize)]? = some count)
    (hlist : h.littleheaps[toSizeT (size2Class s.objectSize)]? = some list) :
    ∃ hf ht d', h.mesh false dst src = .ok (hf, none) ∧ h.mesh true dst src = .ok (ht, none) ∧
      hf.arena = h.arena ∧ hf = { ht with arena := h.arena } ∧
      hf.deref src = .error .badPointer ∧
      hf.deref dst = .ok d' ∧ d'.spans = d.spans ++ [s.getSpanStart] ∧
      (∀ i, i < d.bitmap.bitCount → d'.bitmap.isSet i =
        .ok (d.bitmap.storageBit i || s.bitmap.storageBit i)) ∧
      hf.littleheaps[toSizeT (size2Class s.objectSize)]? = some (list.erase src) ∧
      Map.lookup s.getSpanStart hf.miniheaps = some dst := by
  have hdis' : ∀ j, j < s.bitmap.bitCount → s.bitmap.storageBit j = true →
      d.bitmap.storageBit j = false := by
    intro j hj hsj
    cases hdj : d.bitmap.storageBit j
    · rfl
    · exfalso
      apply hdis j
      rw [Bitmap.isSet_eq hdwf (by omega), Bitmap.isSet_eq hswf hj, hdj, hsj]
      exact ⟨rfl, rfl⟩
  obtain ⟨D, M, bm, e1, e2, e3, _, e5, e6, e7, e8, e9⟩ :=
    mesh_eq hne (lookup_of_deref hd) (lookup_of_deref hs) hdwf hswf hbits hpos hdis'
      hcount hlist
  have hidx : toSizeT (size2Class s.objectSize) < h.littleheaps.length := by
    by_contra hcon
    rw [List.getElem?_eq_none (Nat.le_of_not_lt hcon)] at hlist
    cases hlist
  refine ⟨_, _, { d with bitmap := bm, spans := d.spans ++ [s.getSpanStart] }, e1 false, e1 true,
    rfl, rfl, ?_, deref_eq e3, rfl, ?_, ?_, ?_⟩
  · show GlobalMeshingHeap.deref _ src = _
    unfold deref
    simp only [e2]
  · intro i hi
    have hi' : i < s.bitmap.bitCount := by omega
    show bm.isSet i = _
    rw [Bitmap.isSet_eq e5 (by omega), e9 i]
    simp [hi']
  · show (h.littleheaps.set _ _)[_]? = _
    rw [List.getElem?_set_self hidx]
  · exact Map.lookup_insert_self _ _ _

/-- C5 amended, at the example heap. -/
theorem mesh_ignores_remap_outcome_witness :
    ∃ hf ht d', exampleHeap.mesh false 1000 2000 = .ok (hf, none) ∧
      exampleHeap.mesh true 1000 2000 = .ok (ht, none) ∧
      hf.arena = exampleHeap.arena ∧ hf = { ht with arena := exampleHeap.arena } ∧
      hf.deref 2000 = .error .badPointer ∧
      hf.deref 1000 = .ok d' ∧ d'.spans = exampleDst.spans ++ [exampleSrc.getSpanStart] ∧
      (∀ i, i < exampleDst.bitmap.bitCount → d'.bitmap.isSet i =
        .ok (exampleDst.bitmap.storageBit i || exampleSrc.bitmap.storageBit i)) ∧
      hf.littleheaps[toSizeT (size2Class exampleSrc.objectSize)]? =
        some ([1000, 2000].erase 2000) ∧
      Map.lookup exampleSrc.getSpanStart hf.miniheaps = some 1000 :=
  mesh_ignores_remap_outcome exampleHeap 1000 2000 2 exampleDst exampleSrc
    [1000, 2000] (by decide) (by decide) (by decide) (by decide) (by decide) (by decide)
    (by decide)
    (by
      intro i hi
      have h1 := (Bitmap.isSet_true hi.1).2
      have h2 := Bitmap.isSet_true hi.2
      have h3 : i < 8 := h2.1
      have h4 := h2.2
      revert h1 h4
      interval_cases i <;> decide)
    (by decide) (by decide)

end GlobalMeshingHeap
end Mesh

namespace Mesh
namespace GlobalMeshingHeap

/-- C6: `miniheapFor(ptr)` returns null when no key is at most `ptr`; when `k` is
the greatest key at most `ptr` and maps to the live miniheap `c`, it returns `c`
if `c` contains `ptr` and null otherwise; a non-null result contains `ptr`; and
in a map whose keys are span starts of non-overlapping spans, a pointer inside
an object resolves to the same miniheap as the start of the object. -/
theorem miniheapFor_greatest_key_containing (h : GlobalMeshingHeap) (ptr : Nat) :
    ((∀ e ∈ h.miniheaps, ptr < e.1) → h.miniheapFor ptr = .ok none) ∧
    (∀ k c d, Map.lookup k h.miniheaps = some c → k ≤ ptr →
      (∀ e ∈ h.miniheaps, e.1 ≤ ptr → e.1 ≤ k) →
      Map.lookup c h.descriptors = some d →
      h.miniheapFor ptr = .ok (if d.contains ptr then some c else none)) ∧
    (∀ m, h.miniheapFor ptr = .ok (some m) →
      ∃ d, h.deref m = .ok d ∧ d.contains ptr = true) ∧
    (∀ k c d i delta, Map.lookup k h.miniheaps = some c →
      Map.lookup c h.descriptors = some d → k ∈ d.spans →
      (∀ e ∈ h.miniheaps, k < e.1 → k + d.spanSize ≤ e.1) →
      (i + 1) * d.objectSize ≤ d.spanSize → delta < d.objectSize →
      ptr = k + i * d.objectSize →
      h.miniheapFor ptr = .ok (some c) ∧ h.miniheapFor (ptr + delta) = .ok (some c)) := by
  refine ⟨miniheapFor_none, fun k c d hk hkp hmax hd => miniheapFor_eq hk hkp hmax hd, ?_, ?_⟩
  · intro m hm
    obtain ⟨k, d, _, _, _, hd, hc⟩ := miniheapFor_some hm
    exact ⟨d, hd, hc⟩
  · intro k c d i delta hk hd hspan hdisj hi hdelta hptr
    have hmul : (i + 1) * d.objectSize = i * d.objectSize + d.objectSize := by
      rw [Nat.add_mul, one_mul]
    have key : ∀ q, k ≤ q → q < k + d.spanSize → h.miniheapFor q = .ok (some c) := by
      intro q hq1 hq2
      have hmax : ∀ e ∈ h.miniheaps, e.1 ≤ q → e.1 ≤ k := by
        intro e hmem hle
        by_contra hcon
        have := hdisj e hmem (by omega)
        omega
      rw [miniheapFor_eq hk hq1 hmax hd, contains_of_mem hspan hq1 hq2]
      rfl
    exact ⟨key ptr (by omega) (by omega), key (ptr + delta) (by omega) (by omega)⟩

/-- C6, at the example heap: the pointer 66048 is the start of slot 1 of the
miniheap at 1000, and 66048 + 100 lies inside that object. -/
theorem miniheapFor_greatest_key_containing_witness :
    exampleHeap.miniheapFor 100 = .ok none ∧
    exampleHeap.miniheapFor 66048 = .ok (some 1000) ∧
    (∃ d, exampleHeap.deref 1000 = .ok d ∧ d.contains 66048 = true) ∧
    exampleHeap.miniheapFor (66048 + 100) = .ok (some 1000) :=
  ⟨(miniheapFor_greatest_key_containing exampleHeap 100).1 (by decide),
    ((miniheapFor_greatest_key_containing exampleHeap 66048).2.2.2 65536 1000 exampleDst 1 100
      (by decide) (by decide) (by decide) (by decide) (by decide) (by decide) (by decide)).1,
    (miniheapFor_greatest_key_containing exampleHeap 66048).2.2.1 1000 (by decide),
    ((miniheapFor_greatest_key_containing exampleHeap 66048).2.2.2 65536 1000 exampleDst 1 100
      (by decide) (by decide) (by decide) (by decide) (by decide) (by decide) (by decide)).2⟩

end GlobalMeshingHeap
end Mesh

namespace Mesh

open bitmap (Bitmap)

namespace GlobalMeshingHeap

/-- C7: for a pointer `ptr` that is not the mesh marker and is owned by the
miniheap `mh`, `free(ptr)` clears the slot of `ptr` in `mh` and then frees `mh`
iff `mh` is done and empty.  When it frees `mh`, the descriptor is deallocated,
the map entry of every span of `mh` is erased (no other key changes), the
count of the size class of `mh` drops by one and `mh` is unlinked from the list
of its class; when it does not, the span map, the size-class lists and the
counts are unchanged. -/
theorem free_clears_slot_and_frees_done_empty (h : GlobalMeshingHeap)
    (isMeshMarker : Nat → Bool) (remapOk : Bool) (ptr mh slot count : Nat) (d : MiniHeap)
    (list : List Nat) (hmark : isMeshMarker ptr = false)
    (hown : h.miniheapFor ptr = .ok (some mh)) (hd : h.deref mh = .ok d)
    (hwf : d.bitmap.WF) (hslot : d.slotOf ptr = some slot) (hrange : slot < d.bitmap.bitCount)
    (hcount : h.littleheapCounts[toSizeT (size2Class d.objectSize)]? = some count)
    (hlist : h.littleheaps[toSizeT (size2Class d.objectSize)]? = some list)
    (hpos : 0 < count) (hlt : count < 2 ^ 64) :
    ∃ d' h', d.free ptr = .ok d' ∧
      d'.bitmap.isSet slot = .ok false ∧
      (∀ j, j ≠ slot → d'.bitmap.isSet j = d.bitmap.isSet j) ∧
      h.free isMeshMarker remapOk ptr = .ok h' ∧
      (h'.deref mh = .error .badPointer ↔ (d'.isDone = true ∧ d'.isEmpty = true)) ∧
      (d'.isDone = true ∧ d'.isEmpty = true →
        (∀ span ∈ d.spans, Map.lookup span h'.miniheaps = none) ∧
        (∀ k, k ∉ d.spans → Map.lookup k h'.miniheaps = Map.lookup k h.miniheaps) ∧
        h'.littleheapCounts =
          h.littleheapCounts.set (toSizeT (size2Class d.objectSize)) (count - 1) ∧
        h'.littleheaps =
          h.littleheaps.set (toSizeT (size2Class d.objectSize)) (list.erase mh)) ∧
      (¬ (d'.isDone = true ∧ d'.isEmpty = true) →
        h'.deref mh = .ok d' ∧ h'.miniheaps = h.miniheaps ∧
        h'.littleheaps = h.littleheaps ∧ h'.littleheapCounts = h.littleheapCounts) := by
  have hlen : slot / 64 < d.bitmap.bits.length := by
    have := hwf.2.1
    rw [Bitmap.wordCount_representationSize] at this
    omega
  have hcnt : (count + 2 ^ 64 - 1) % 2 ^ 64 = count - 1 := by omega
  have hfree := free_eq remapOk hmark hown (lookup_of_deref hd) hwf hslot hrange hcount hlist
  have hother : ∀ k, k ≠ slot →
      (d.bitmap.withoutBit slot).storageBit k = d.bitmap.storageBit k := by
    intro k hk
    rw [Bitmap.storageBit_withoutBit hlen]
    simp [hk]
  by_cases hde : (({ d with bitmap := d.bitmap.withoutBit slot } : MiniHeap).isDone &&
      ({ d with bitmap := d.bitmap.withoutBit slot } : MiniHeap).isEmpty) = true
  · rw [if_pos hde] at hfree
    have hde' : ({ d with bitmap := d.bitmap.withoutBit slot } : MiniHeap).isDone = true ∧
        ({ d with bitmap := d.bitmap.withoutBit slot } : MiniHeap).isEmpty = true := by
      simpa using hde
    refine ⟨{ d with bitmap := d.bitmap.withoutBit slot }, _,
      miniHeap_free_eq hwf hslot hrange, ?_, ?_, hfree, ?_, ?_, ?_⟩
    · show (d.bitmap.withoutBit slot).isSet slot = _
      rw [Bitmap.isSet_eq (Bitmap.withoutBit_WF hwf slot) hrange,
        Bitmap.storageBit_withoutBit hlen]
      simp
    · intro j hj
      exact Bitmap.isSet_congr hwf (Bitmap.withoutBit_WF hwf slot) rfl (hother j hj)
    · constructor
      · intro _; exact hde'
      · intro _
        show GlobalMeshingHeap.deref _ mh = _
        unfold deref
        simp only [Map.lookup_erase_self]
    · intro _
      refine ⟨?_, ?_, ?_, rfl⟩
      · intro span hspan
        exact lookup_foldl_erase_mem d.spans h.miniheaps span hspan
      · intro k hk
        exact lookup_foldl_erase_not_mem d.spans h.miniheaps k hk
      · show h.littleheapCounts.set _ _ = _
        rw [hcnt]
    · intro hcon
      exact absurd hde' hcon
  · rw [if_neg hde] at hfree
    have hde' : ¬ (({ d with bitmap := d.bitmap.withoutBit slot } : MiniHeap).isDone = true ∧
        ({ d with bitmap := d.bitmap.withoutBit slot } : MiniHeap).isEmpty = true) := by
      simpa using hde
    have hderef : (h.store mh { d with bitmap := d.bitmap.withoutBit slot }).deref mh
        = .ok { d with bitmap := d.bitmap.withoutBit slot } :=
      deref_eq (Map.lookup_insert_self _ _ _)
    refine ⟨{ d with bitmap := d.bitmap.withoutBit slot }, _,
      miniHeap_free_eq hwf hslot hrange, ?_, ?_, hfree, ?_, ?_, ?_⟩
    · show (d.bitmap.withoutBit slot).isSet slot = _
      rw [Bitmap.isSet_eq (Bitmap.withoutBit_WF hwf slot) hrange,
        Bitmap.storageBit_withoutBit hlen]
      simp
    · intro j hj
      exact Bitmap.isSet_congr hwf (Bitmap.withoutBit_WF hwf slot) rfl (hother j hj)
    · constructor
      · intro hbad
        rw [hderef] at hbad
        cases hbad
      · intro hcon
        exact absurd hcon hde'
    · intro hcon
      exact absurd hcon hde'
    · intro _
      exact ⟨hderef, rfl, rfl, rfl⟩

/-- C7, at the heap `exampleHeap3` and the pointer of slot 2 of the miniheap at
3000, its only allocated slot: the miniheap is done and becomes empty. -/
theorem free_clears_slot_and_frees_done_empty_witness :
    ∃ d' h', exampleThird.free 197632 = .ok d' ∧
      d'.bitmap.isSet 2 = .ok false ∧
      (∀ j, j ≠ 2 → d'.bitmap.isSet j = exampleThird.bitmap.isSet j) ∧
      exampleHeap3.free (fun _ => false) true 197632 = .ok h' ∧
      (h'.deref 3000 = .error .badPointer ↔ (d'.isDone = true ∧ d'.isEmpty = true)) ∧
      (d'.isDone = true ∧ d'.isEmpty = true →
        (∀ span ∈ exampleThird.spans, Map.lookup span h'.miniheaps = none) ∧
        (∀ k, k ∉ exampleThird.spans →
          Map.lookup k h'.miniheaps = Map.lookup k exampleHeap3.miniheaps) ∧
        h'.littleheapCounts = exampleHeap3.littleheapCounts.set 5 (3 - 1) ∧
        h'.littleheaps = exampleHeap3.littleheaps.set 5 ([1000, 2000, 3000].erase 3000)) ∧
      (¬ (d'.isDone = true ∧ d'.isEmpty = true) →
        h'.deref 3000 = .ok d' ∧ h'.miniheaps = exampleHeap3.miniheaps ∧
        h'.littleheaps = exampleHeap3.littleheaps ∧
        h'.littleheapCounts = exampleHeap3.littleheapCounts) :=
  free_clears_slot_and_frees_done_empty exampleHeap3 (fun _ => false) true 197632 3000 2 3
    exampleThird [1000, 2000, 3000] rfl (by decide) (by decide) (by decide) (by decide) (by decide)
    (by decide) (by decide) (by decide) (by decide)

end GlobalMeshingHeap
end Mesh

namespace Mesh
namespace bitmap
namespace Bitmap

/-- C8: on a well-formed bitmap (fewer than `2 ^ 32` bits) with a clear bit in
`[startAt, bitCount)`, a sequential `setFirstEmpty(startAt)` returns the least index `i ≥ startAt` whose
bit was clear, sets bit `i` and leaves every other bit unchanged. -/
theorem setFirstEmpty_least_clear (b : Bitmap) (hwf : b.WF) (startAt : Nat)
    (_hs : startAt < b.bitCount)
    (hex : ∃ j, startAt ≤ j ∧ j < b.bitCount ∧ b.isSet j = .ok false) :
    ∃ i b', b.setFirstEmpty startAt = .ok (i, b') ∧
      startAt ≤ i ∧ i < b.bitCount ∧ b.isSet i = .ok false ∧
      (∀ j, startAt ≤ j → j < i → b.isSet j = .ok true) ∧
      b'.isSet i = .ok true ∧
      (∀ j, j ≠ i → b'.isSet j = b.isSet j) ∧
      (∀ k, k ≠ i → b'.storageBit k = b.storageBit k) ∧
      b'.bitCount = b.bitCount ∧ b'.bits.length = b.bits.length := by
  obtain ⟨j, hj1, hj2, hj3⟩ := hex
  have hjc : b.storageBit j = false := by
    rw [isSet_eq hwf hj2] at hj3
    exact Except.ok.inj hj3
  obtain ⟨r, hr, hr1, hr2, hr3, hr4⟩ := setFirstEmpty_eq hwf hj1 hj2 hjc
  have hrlt : r < b.bitCount := by omega
  have hlen : r / 64 < b.bits.length := by
    have := hwf.2.1
    rw [wordCount_representationSize] at this
    omega
  have hother : ∀ k, k ≠ r → (b.withBit r).storageBit k = b.storageBit k := by
    intro k hk
    rw [storageBit_withBit hlen]
    simp [hk]
  refine ⟨r, b.withBit r, hr, hr1, hrlt, ?_, ?_, ?_, ?_, hother, rfl, withBit_length b r⟩
  · rw [isSet_eq hwf hrlt, hr3]
  · intro k hk1 hk2
    rw [isSet_eq hwf (by omega), hr4 k hk1 hk2]
  · rw [isSet_eq (withBit_WF hwf r) hrlt, storageBit_withBit hlen]
    simp
  · intro k hk
    exact isSet_congr hwf (withBit_WF hwf r) rfl (hother k hk)

/-- C8, at the ten-bit bitmap with bits 0, 2, 3, 5 set, scanning from index 2. -/
theorem setFirstEmpty_least_clear_witness :
    exampleBitmap.WF ∧ 2 < exampleBitmap.bitCount ∧
    (∃ j, 2 ≤ j ∧ j < exampleBitmap.bitCount ∧ exampleBitmap.isSet j = .ok false) ∧
    ∃ i b', exampleBitmap.setFirstEmpty 2 = .ok (i, b') ∧
      2 ≤ i ∧ i < exampleBitmap.bitCount ∧ exampleBitmap.isSet i = .ok false ∧
      (∀ j, 2 ≤ j → j < i → exampleBitmap.isSet j = .ok true) ∧
      b'.isSet i = .ok true ∧
      (∀ j, j ≠ i → b'.isSet j = exampleBitmap.isSet j) ∧
      (∀ k, k ≠ i → b'.storageBit k = exampleBitmap.storageBit k) ∧
      b'.bitCount = exampleBitmap.bitCount ∧ b'.bits.length = exampleBitmap.bits.length :=
  ⟨by decide, by decide, ⟨4, by decide, by decide, by decide⟩,
    setFirstEmpty_least_clear exampleBitmap (by decide) 2 (by decide)
      ⟨4, by decide, by decide, by decide⟩⟩

set_option maxRecDepth 100000 in
/-- C9: `setFirstEmpty(0)` on a bitmap whose `bitCount` meaningful bits are all
set does not reach `abort()`.  With eight bits it returns the index 8 and sets
the storage bit 8; with 256 atomic bits or 64 relaxed bits the scan, bounded by
`byteCount()` words, reads a word outside the storage. -/
theorem setFirstEmpty_full_no_abort :
    (∀ i, i < fullBitmap8.bitCount → fullBitmap8.isSet i = .ok true) ∧
    fullBitmap8.setFirstEmpty 0 = .ok (8, ⟨.atomic, 8, [511, 0, 0, 0]⟩) ∧
    (∀ i, i < fullBitmap256.bitCount → fullBitmap256.isSet i = .ok true) ∧
    fullBitmap256.setFirstEmpty 0 = .error .outOfBounds ∧
    (∀ i, i < fullRelaxed64.bitCount → fullRelaxed64.isSet i = .ok true) ∧
    fullRelaxed64.setFirstEmpty 0 = .error .outOfBounds := by
  refine ⟨by decide, by decide, by decide, by decide, by decide, by decide⟩

/-- C10: on a well-formed bitmap (atomic or relaxed, fewer than `2 ^ 32` bits) and
for `i < bitCount`,
`tryToSet(i)` returns true iff bit `i` was clear before the call; afterwards
`isSet(i)` is true and every other bit is unchanged. -/
theorem tryToSet_true_iff_was_clear (b : Bitmap) (hwf : b.WF) (i : Nat)
    (hi : i < b.bitCount) :
    ∃ r b', b.tryToSet i = .ok (r, b') ∧
      (r = true ↔ b.isSet i = .ok false) ∧
      b'.isSet i = .ok true ∧
      (∀ j, j ≠ i → b'.isSet j = b.isSet j) ∧
      (∀ k, k ≠ i → b'.storageBit k = b.storageBit k) ∧
      b'.super = b.super ∧ b'.bitCount = b.bitCount ∧ b'.bits.length = b.bits.length := by
  have hlen : i / 64 < b.bits.length := by
    have := hwf.2.1
    rw [wordCount_representationSize] at this
    omega
  have hother : ∀ k, k ≠ i → (b.withBit i).storageBit k = b.storageBit k := by
    intro k hk
    rw [storageBit_withBit hlen]
    simp [hk]
  refine ⟨!b.storageBit i, b.withBit i, tryToSet_eq hwf hi, ?_, ?_, ?_, hother, rfl, rfl,
    withBit_length b i⟩
  · rw [isSet_eq hwf hi]
    cases b.storageBit i <;> simp
  · rw [isSet_eq (withBit_WF hwf i) hi, storageBit_withBit hlen]
    simp
  · intro k hk
    exact isSet_congr hwf (withBit_WF hwf i) rfl (hother k hk)

/-- C10, at the ten-bit bitmap with bits 0, 2, 3, 5 set and index 4. -/
theorem tryToSet_true_iff_was_clear_witness :
    exampleBitmap.WF ∧ 4 < exampleBitmap.bitCount ∧
    ∃ r b', exampleBitmap.tryToSet 4 = .ok (r, b') ∧
      (r = true ↔ exampleBitmap.isSet 4 = .ok false) ∧
      b'.isSet 4 = .ok true ∧
      (∀ j, j ≠ 4 → b'.isSet j = exampleBitmap.isSet j) ∧
      (∀ k, k ≠ 4 → b'.storageBit k = exampleBitmap.storageBit k) ∧
      b'.super = exampleBitmap.super ∧ b'.bitCount = exampleBitmap.bitCount ∧
      b'.bits.length = exampleBitmap.bits.length :=
  ⟨by decide, by decide, tryToSet_true_iff_was_clear exampleBitmap (by decide) 4 (by decide)⟩

end Bitmap
end bitmap
end Mesh

namespace Mesh
namespace bitmap
namespace Bitmap

/-- C11: on a well-formed bitmap (atomic or relaxed, fewer than `2 ^ 32` bits) and
for `i < bitCount`,
`unset(i)` returns true iff bit `i` was already clear before the call, and false
when it cleared a set bit; afterwards `isSet(i)` is false and every other bit is
unchanged. -/
theorem unset_true_iff_was_clear (b : Bitmap) (hwf : b.WF) (i : Nat)
    (hi : i < b.bitCount) :
    ∃ r b', b.unset i = .ok (r, b') ∧
      (r = true ↔ b.isSet i = .ok false) ∧
      (r = false ↔ b.isSet i = .ok true) ∧
      b'.isSet i = .ok false ∧
      (∀ j, j ≠ i → b'.isSet j = b.isSet j) ∧
      (∀ k, k ≠ i → b'.storageBit k = b.storageBit k) ∧
      b'.super = b.super ∧ b'.bitCount = b.bitCount ∧ b'.bits.length = b.bits.length := by
  have hlen : i / 64 < b.bits.length := by
    have := hwf.2.1
    rw [wordCount_representationSize] at this
    omega
  have hother : ∀ k, k ≠ i → (b.withoutBit i).storageBit k = b.storageBit k := by
    intro k hk
    rw [storageBit_withoutBit hlen]
    simp [hk]
  refine ⟨!b.storageBit i, b.withoutBit i, unset_eq hwf hi, ?_, ?_, ?_, ?_, hother, rfl, rfl,
    withoutBit_length b i⟩
  · rw [isSet_eq hwf hi]
    cases b.storageBit i <;> simp
  · rw [isSet_eq hwf hi]
    cases b.storageBit i <;> simp
  · rw [isSet_eq (withoutBit_WF hwf i) hi, storageBit_withoutBit hlen]
    simp
  · intro k hk
    exact isSet_congr hwf (withoutBit_WF hwf i) rfl (hother k hk)

/-- C11, at the ten-bit bitmap with bits 0, 2, 3, 5 set and index 3. -/
theorem unset_true_iff_was_clear_witness :
    exampleBitmap.WF ∧ 3 < exampleBitmap.bitCount ∧
    ∃ r b', exampleBitmap.unset 3 = .ok (r, b') ∧
      (r = true ↔ exampleBitmap.isSet 3 = .ok false) ∧
      (r = false ↔ exampleBitmap.isSet 3 = .ok true) ∧
      b'.isSet 3 = .ok false ∧
      (∀ j, j ≠ 3 → b'.isSet j = exampleBitmap.isSet j) ∧
      (∀ k, k ≠ 3 → b'.storageBit k = exampleBitmap.storageBit k) ∧
      b'.super = exampleBitmap.super ∧ b'.bitCount = exampleBitmap.bitCount ∧
      b'.bits.length = exampleBitmap.bits.length :=
  ⟨by decide, by decide, unset_true_iff_was_clear exampleBitmap (by decide) 3 (by decide)⟩

end Bitmap
end bitmap
end Mesh

namespace Mesh
namespace bitmap
namespace Bitmap

/-- C12: after any sequence of `tryToSet` and `unset` calls with in-range indices
on a freshly constructed bitmap (atomic or relaxed, fewer than `2 ^ 32` bits),
`isSet(i)` is true exactly
when the last operation applied to `i` was a `tryToSet` (false when there was
none), and `inUseCount()` is the number of indices `i < bitCount` with
`isSet(i)`. -/
theorem run_on_fresh_bitmap (b0 : Bitmap)
    (hfresh :
      (∃ maxBits bitCount, bitCount < 2 ^ 32 ∧ constructAtomic maxBits bitCount = .ok b0) ∨
      (∃ bitCount memory, bitCount < 2 ^ 32 ∧
        memory.length = bitmap.wordCount (representationSize bitCount) ∧
        constructRelaxed bitCount memory = b0))
    (ops : List Op) (hops : ∀ op ∈ ops, op.index < b0.bitCount) :
    ∃ b, b0.run ops = .ok b ∧ b.bitCount = b0.bitCount ∧
      (∀ i, i < b0.bitCount → b.isSet i = .ok (lastIsSet ops i)) ∧
      b.inUseCount =
        ((List.range b.bitCount).filter (fun i => decide (b.isSet i = .ok true))).length := by
  have hinit : b0.WF ∧ ∀ w ∈ b0.bits, w = 0 := by
    rcases hfresh with ⟨maxBits, bitCount, h1, h2⟩ | ⟨bitCount, memory, h1, h2, h3⟩
    · obtain ⟨e1, _, _, e4⟩ := constructAtomic_fresh h2 h1
      exact ⟨e1, e4⟩
    · obtain ⟨e1, _, _, e4⟩ := constructRelaxed_fresh h2 h1
      rw [h3] at e1 e4
      exact ⟨e1, e4⟩
  obtain ⟨b, hb, hbwf, hbc, _, _, hbits⟩ :=
    run_spec hinit.1 (storageBit_of_all_zero hinit.2) ops hops
  have hpad : ∀ k, b.bitCount ≤ k → b.storageBit k = false := by
    intro k hk
    rw [hbits k]
    apply lastIsSet_of_not_mem
    intro op hop
    have := hops op hop
    omega
  refine ⟨b, hb, hbc, ?_, ?_⟩
  · intro i hi
    rw [isSet_eq hbwf (by omega), hbits i]
  · rw [inUseCount_eq hbwf hpad]
    refine congrArg List.length (List.filter_congr ?_)
    intro i hi
    rw [isSet_eq hbwf (List.mem_range.1 hi)]
    cases b.storageBit i <;> simp

/-- C12, on a fresh ten-bit atomic bitmap with the calls `tryToSet(1)`,
`tryToSet(9)`, `unset(1)`, `tryToSet(4)`, `unset(7)`. -/
theorem run_on_fresh_bitmap_witness :
    ∃ b, (⟨.atomic, 10, [0, 0, 0, 0]⟩ : Bitmap).run
        [.tryToSet 1, .tryToSet 9, .unset 1, .tryToSet 4, .unset 7] = .ok b ∧
      b.bitCount = (⟨.atomic, 10, [0, 0, 0, 0]⟩ : Bitmap).bitCount ∧
      (∀ i, i < (⟨.atomic, 10, [0, 0, 0, 0]⟩ : Bitmap).bitCount → b.isSet i =
        .ok (lastIsSet [.tryToSet 1, .tryToSet 9, .unset 1, .tryToSet 4, .unset 7] i)) ∧
      b.inUseCount =
        ((List.range b.bitCount).filter (fun i => decide (b.isSet i = .ok true))).length :=
  run_on_fresh_bitmap ⟨.atomic, 10, [0, 0, 0, 0]⟩
    (Or.inl ⟨256, 10, by decide, by decide⟩)
    [.tryToSet 1, .tryToSet 9, .unset 1, .tryToSet 4, .unset 7] (by decide)

end Bitmap
end bitmap
end Mesh

namespace Mesh
namespace bitmap
namespace Bitmap

/-- C13: on a freshly constructed all-zero 256-bit atomic bitmap, for every
`k < 256` the first `k + 1` successive calls `setFirstEmpty(0)` return
`0, 1, …, k`: the `(k + 1)`-th call returns `k`. -/
theorem setFirstEmpty_successive_calls (b0 : Bitmap)
    (hb0 : constructAtomic 256 256 = .ok b0) (k : Nat) (hk : k < 256) :
    ∃ results b, setFirstEmptyTimes (k + 1) b0 = .ok (results, b) ∧
      results = List.range (k + 1) ∧ results[k]? = some k ∧ results.getLast? = some k := by
  obtain ⟨hwf, _, hcount, hzero⟩ := constructAtomic_fresh hb0 (by norm_num)
  obtain ⟨b, hb⟩ := setFirstEmptyTimes_spec (k + 1) 0 b0 hwf (by omega)
    (by
      intro j _
      rw [storageBit_of_all_zero hzero]
      simp)
  refine ⟨List.range (k + 1), b, ?_, rfl, ?_, ?_⟩
  · rw [hb, List.range_eq_range']
  · rw [List.getElem?_range (Nat.lt_succ_self k)]
  · rw [List.range_succ, List.getLast?_concat]

/-- C13, for the third call. -/
theorem setFirstEmpty_successive_calls_witness :
    constructAtomic 256 256 = .ok ⟨.atomic, 256, [0, 0, 0, 0]⟩ ∧ 2 < 256 ∧
    ∃ results b, setFirstEmptyTimes (2 + 1) ⟨.atomic, 256, [0, 0, 0, 0]⟩ = .ok (results, b) ∧
      results = List.range (2 + 1) ∧ results[2]? = some 2 ∧ results.getLast? = some 2 :=
  ⟨by decide, by decide,
    setFirstEmpty_successive_calls ⟨.atomic, 256, [0, 0, 0, 0]⟩ (by decide) 2 (by decide)⟩

end Bitmap
end bitmap
end Mesh

namespace Mesh
namespace bitmap
namespace Bitmap

/-- C14: on a well-formed bitmap (fewer than `2 ^ 32` bits) with `bitCount > 0`,
iterating from `begin()`
with `operator++` until `end()` visits exactly the indices `i < bitCount` with
`isSet(i)`, each once and in strictly ascending order; the `end()` sentinel is
`bitCount()`. -/
theorem iterate_visits_set_bits_ascending (b : Bitmap) (hwf : b.WF) (hpos : 0 < b.bitCount) :
    ∃ visited, b.iterate = .ok visited ∧
      visited = (List.range b.bitCount).filter (fun i => decide (b.isSet i = .ok true)) ∧
      (∀ i, i ∈ visited ↔ (i < b.bitCount ∧ b.isSet i = .ok true)) ∧
      visited.Pairwise (fun i j => i < j) ∧ visited.Nodup ∧ b.end = b.bitCount := by
  have hfilter : (List.range b.bitCount).filter (fun k => b.storageBit k) =
      (List.range b.bitCount).filter (fun i => decide (b.isSet i = .ok true)) := by
    apply List.filter_congr
    intro i hi
    rw [isSet_eq hwf (List.mem_range.1 hi)]
    cases b.storageBit i <;> simp
  refine ⟨_, iterate_eq hwf hpos, hfilter, ?_, ?_, ?_, rfl⟩
  · intro i
    rw [hfilter, List.mem_filter, List.mem_range]
    simp
  · exact List.Pairwise.filter _ (List.pairwise_lt_range _)
  · exact List.Nodup.filter _ (List.nodup_range _)

/-- C14, at the ten-bit bitmap with bits 0, 2, 3, 5 set. -/
theorem iterate_visits_set_bits_ascending_witness :
    exampleBitmap.WF ∧ 0 < exampleBitmap.bitCount ∧
    exampleBitmap.iterate = .ok [0, 2, 3, 5] ∧
    ∃ visited, exampleBitmap.iterate = .ok visited ∧
      visited = (List.range exampleBitmap.bitCount).filter
        (fun i => decide (exampleBitmap.isSet i = .ok true)) ∧
      (∀ i, i ∈ visited ↔ (i < exampleBitmap.bitCount ∧ exampleBitmap.isSet i = .ok true)) ∧
      visited.Pairwise (fun i j => i < j) ∧ visited.Nodup ∧
      exampleBitmap.end = exampleBitmap.bitCount :=
  ⟨by decide, by decide, by decide,
    iterate_visits_set_bits_ascending exampleBitmap (by decide) (by decide)⟩

/-- C15: on a well-formed bitmap (fewer than `2 ^ 32` bits) and for `k < bitCount`,
`lowestSetBitAt(k)`
returns the least index `i ≥ k` with `isSet(i)`, and returns `bitCount()` when
there is none.  (Bits beyond `bitCount` need not be zero for this.) -/
theorem lowestSetBitAt_least_set (b : Bitmap) (hwf : b.WF) (k : Nat) (hk : k < b.bitCount) :
    ∃ r, b.lowestSetBitAt k = .ok r ∧
      ((∃ i, k ≤ i ∧ i < b.bitCount ∧ b.isSet i = .ok true) →
        k ≤ r ∧ r < b.bitCount ∧ b.isSet r = .ok true ∧
        ∀ j, k ≤ j → j < r → b.isSet j = .ok false) ∧
      ((¬ ∃ i, k ≤ i ∧ i < b.bitCount ∧ b.isSet i = .ok true) → r = b.bitCount) := by
  obtain ⟨r, hr, hr1, hr2, hr3, hr4⟩ := lowestSetBitAt_spec hwf hk
  refine ⟨r, hr, ?_, ?_⟩
  · rintro ⟨i, hi1, hi2, hi3⟩
    rw [isSet_eq hwf hi2] at hi3
    have hset : b.storageBit i = true := Except.ok.inj hi3
    have hri : r ≤ i := by
      by_contra hcon
      rw [hr3 i hi1 (by omega)] at hset
      exact Bool.noConfusion hset
    have hrlt : r < b.bitCount := by omega
    refine ⟨hr1, hrlt, ?_, ?_⟩
    · rw [isSet_eq hwf hrlt, hr4 hrlt]
    · intro j hj1 hj2
      rw [isSet_eq hwf (by omega), hr3 j hj1 hj2]
  · intro hnone
    by_contra hcon
    have hrlt : r < b.bitCount := by omega
    exact hnone ⟨r, hr1, hrlt, by rw [isSet_eq hwf hrlt, hr4 hrlt]⟩

/-- C15, at the ten-bit bitmap with bits 0, 2, 3, 5 set: from 4 the answer is 5,
from 6 it is `bitCount()`. -/
theorem lowestSetBitAt_least_set_witness :
    exampleBitmap.WF ∧ 4 < exampleBitmap.bitCount ∧
    exampleBitmap.lowestSetBitAt 4 = .ok 5 ∧ exampleBitmap.lowestSetBitAt 6 = .ok 10 ∧
    ∃ r, exampleBitmap.lowestSetBitAt 4 = .ok r ∧
      ((∃ i, 4 ≤ i ∧ i < exampleBitmap.bitCount ∧ exampleBitmap.isSet i = .ok true) →
        4 ≤ r ∧ r < exampleBitmap.bitCount ∧ exampleBitmap.isSet r = .ok true ∧
        ∀ j, 4 ≤ j → j < r → exampleBitmap.isSet j = .ok false) ∧
      ((¬ ∃ i, 4 ≤ i ∧ i < exampleBitmap.bitCount ∧ exampleBitmap.isSet i = .ok true) →
        r = exampleBitmap.bitCount) :=
  ⟨by decide, by decide, by decide, by decide,
    lowestSetBitAt_least_set exampleBitmap (by decide) 4 (by decide)⟩

/-- C16: on a well-formed bitmap (fewer than `2 ^ 32` bits) and for `k < bitCount`,
`highestSetBitBeforeOrAt(k)` returns the greatest index `i ≤ k` with `isSet(i)`
when one exists, and returns 0 when no bit at or below `k` is set.  (Bits beyond
`bitCount` need not be zero for this.) -/
theorem highestSetBitBeforeOrAt_greatest_set (b : Bitmap) (hwf : b.WF) (k : Nat)
    (hk : k < b.bitCount) :
    ∃ r, b.highestSetBitBeforeOrAt k = .ok r ∧
      ((∃ i, i ≤ k ∧ b.isSet i = .ok true) →
        r ≤ k ∧ b.isSet r = .ok true ∧ ∀ j, r < j → j ≤ k → b.isSet j = .ok false) ∧
      ((¬ ∃ i, i ≤ k ∧ b.isSet i = .ok true) → r = 0) := by
  obtain ⟨r, hr, hr1, hr2⟩ := highestSetBitBeforeOrAt_spec hwf hk
  refine ⟨r, hr, ?_, ?_⟩
  · rintro ⟨i, hi1, hi2⟩
    rw [isSet_eq hwf (by omega)] at hi2
    obtain ⟨e1, e2, e3⟩ := hr1 ⟨i, hi1, Except.ok.inj hi2⟩
    refine ⟨e1, ?_, ?_⟩
    · rw [isSet_eq hwf (by omega), e2]
    · intro j hj1 hj2
      rw [isSet_eq hwf (by omega), e3 j hj1 hj2]
  · intro hnone
    apply hr2
    intro j hj
    cases hsb : b.storageBit j
    · rfl
    · exfalso
      exact hnone ⟨j, hj, by rw [isSet_eq hwf (by omega), hsb]⟩

/-- C16, at the ten-bit bitmap with bits 0, 2, 3, 5 set: up to 4 the answer is 3;
and with bits 2, 3, 5 set no bit is at or below 1 and the answer is 0. -/
theorem highestSetBitBeforeOrAt_greatest_set_witness :
    exampleBitmap.WF ∧ 4 < exampleBitmap.bitCount ∧
    exampleBitmap.highestSetBitBeforeOrAt 4 = .ok 3 ∧
    (⟨.atomic, 10, [44, 0, 0, 0]⟩ : Bitmap).highestSetBitBeforeOrAt 1 = .ok 0 ∧
    ∃ r, exampleBitmap.highestSetBitBeforeOrAt 4 = .ok r ∧
      ((∃ i, i ≤ 4 ∧ exampleBitmap.isSet i = .ok true) →
        r ≤ 4 ∧ exampleBitmap.isSet r = .ok true ∧
        ∀ j, r < j → j ≤ 4 → exampleBitmap.isSet j = .ok false) ∧
      ((¬ ∃ i, i ≤ 4 ∧ exampleBitmap.isSet i = .ok true) → r = 0) :=
  ⟨by decide, by decide, by decide, by decide,
    highestSetBitBeforeOrAt_greatest_set exampleBitmap (by decide) 4 (by decide)⟩

end Bitmap
end bitmap
end Mesh

namespace Mesh

/-- C17: for every power of two `n = 2 ^ j` with `16 ≤ n ≤ 16384`, the byte size
of the size class of `n` is `n`, with `ilog2` the ceiling base-2 logarithm; the
class is a bin index below `NumBins`. -/
theorem class2Size_size2Class_pow2 (n : Nat) (hpow : ∃ j, n = 2 ^ j) (hlo : 16 ≤ n)
    (hhi : n ≤ 16384) :
    class2Size (size2Class n) = n ∧ 0 ≤ size2Class n ∧ size2Class n < NumBins := by
  obtain ⟨j, rfl⟩ := hpow
  have hj4 : 4 ≤ j := by
    by_contra hcon
    have : 2 ^ j ≤ 2 ^ 3 := Nat.pow_le_pow_right (by norm_num) (by omega)
    omega
  have hj14 : j ≤ 14 := by
    by_contra hcon
    have : 2 ^ 15 ≤ 2 ^ j := Nat.pow_le_pow_right (by norm_num) (by omega)
    omega
  have h63 : (2 : Nat) ^ j ≤ 2 ^ 63 := Nat.pow_le_pow_right (by norm_num) (by omega)
  have hlog : ilog2 (2 ^ j) = j := ilog2_two_pow (by omega)
  refine ⟨?_, ?_, ?_⟩
  · rw [class2Size_size2Class (by omega) h63, hlog]
  · rw [size2Class_eq (by omega), hlog]; omega
  · rw [size2Class_eq (by omega), hlog]
    show (j : Int) - 4 < ((11 : Nat) : Int)
    omega

/-- C17, at `n = 4096`, with the sizes 16, 32, 64, 4096 and 16384 of the test
evaluated. -/
theorem class2Size_size2Class_pow2_witness :
    (∃ j, 4096 = 2 ^ j) ∧ 16 ≤ 4096 ∧ 4096 ≤ 16384 ∧
    class2Size (size2Class 16) = 16 ∧ class2Size (size2Class 32) = 32 ∧
    class2Size (size2Class 64) = 64 ∧ class2Size (size2Class 16384) = 16384 ∧
    (class2Size (size2Class 4096) = 4096 ∧ 0 ≤ size2Class 4096 ∧ size2Class 4096 < NumBins) :=
  ⟨⟨12, by decide⟩, by decide, by decide, by decide, by decide, by decide, by decide,
    class2Size_size2Class_pow2 4096 ⟨12, by decide⟩ (by decide) (by decide)⟩

/-- C18: a request of 1 to 8 bytes gets class -1, whose size 8 is below the size
of every one of the `NumBins` classes (the smallest class size that fits is
`class2Size 0 = 16`); a request of 9 to 16384 bytes gets one of the `NumBins`
classes, its size is at least the request and it is the smallest class size
that is. -/
theorem size2Class_small_request_not_a_class :
    (∀ s, 0 < s → s ≤ 8 →
      size2Class s = -1 ∧ class2Size (size2Class s) = 8 ∧ s ≤ class2Size (size2Class s) ∧
      (∀ c : Nat, c < NumBins → class2Size (size2Class s) < class2Size c) ∧
      s ≤ class2Size 0 ∧ class2Size 0 = 16) ∧
    (∀ s, 8 < s → s ≤ 16384 →
      (∃ c : Nat, c < NumBins ∧ size2Class s = c) ∧ s ≤ class2Size (size2Class s) ∧
      (∀ c : Nat, c < NumBins → s ≤ class2Size c →
        class2Size (size2Class s) ≤ class2Size c)) := by
  constructor
  · intro s _ hs
    rw [size2Class_small hs]
    have h8 : class2Size (-1) = 8 := by decide
    have h0 : class2Size 0 = 16 := by decide
    refine ⟨rfl, h8, by omega, ?_, by omega, h0⟩
    intro c hc
    have hc' : c < 11 := hc
    rw [h8, class2Size_ofNat (by omega)]
    have : 2 ^ 4 ≤ 2 ^ (c + 4) := Nat.pow_le_pow_right (by norm_num) (by omega)
    omega
  · intro s hlo hhi
    have h64 : s ≤ 2 ^ 64 := by omega
    have h63 : s ≤ 2 ^ 63 := by omega
    obtain ⟨h1, h2⟩ := ilog2_spec h64
    have hup : ilog2 s ≤ 14 := ilog2_le_of_le_two_pow (by norm_num) (by omega)
    have hdown : 4 ≤ ilog2 s := by
      by_contra hcon
      have : 2 ^ ilog2 s ≤ 2 ^ 3 := Nat.pow_le_pow_right (by norm_num) (by omega)
      omega
    have hprev : 2 ^ (ilog2 s - 1) < s := by
      rcases h2 with h2 | h2
      · omega
      · exact h2
    refine ⟨⟨ilog2 s - 4, ?_, ?_⟩, ?_, ?_⟩
    · show ilog2 s - 4 < 11
      omega
    · rw [size2Class_eq (by omega)]; omega
    · rw [class2Size_size2Class (by omega) h63]; exact h1
    · intro c hc hfit
      have hc' : c < 11 := hc
      rw [class2Size_ofNat (by omega)] at hfit ⊢
      rw [class2Size_size2Class (by omega) h63]
      have := (Nat.pow_lt_pow_iff_right (by norm_num : 1 < 2)).1 (lt_of_lt_of_le hprev hfit)
      exact Nat.pow_le_pow_right (by norm_num) (by omega)

end Mesh

namespace Mesh

open bitmap (Bitmap)

namespace GlobalMeshingHeap

/-- C19: for every size class `c` in 0..10 (`sizeMax = 2 ^ (c + 4)`), with
4096-byte pages and `MinStringLen = 8`, `allocMiniheap(sizeMax)` on a heap with
`NumBins` bins returns a miniheap with `nObjects = max (4096 / sizeMax) 8`
objects and a span of `4096 * ⌈sizeMax * nObjects / 4096⌉` bytes (the least
multiple of 4096 that holds them), and `nObjects = spanSize / sizeMax` and
`nObjects ≤ 256`, the capacity of the atomic bitmap of the miniheap. -/
theorem allocMiniheap_object_count_and_span (h : GlobalMeshingHeap) (a p c : Nat)
    (hc : c < NumBins) (hmax : h.maxObjectSize = 16384)
    (hcounts : h.littleheapCounts.length = NumBins)
    (hlists : h.littleheaps.length = NumBins)
    (hhwm : h.stats.mhClassHWM.length = NumBins) :
    ∃ h' mh, h.allocMiniheap (some a) (some p) (class2Size c) = .ok (h', p) ∧
      h'.deref p = .ok mh ∧
      class2Size c = 2 ^ (c + 4) ∧
      mh.objectSize = 2 ^ (c + 4) ∧
      mh.objectCount = max (4096 / 2 ^ (c + 4)) 8 ∧
      mh.spanSize = 4096 * ((2 ^ (c + 4) * mh.objectCount + 4095) / 4096) ∧
      (4096 ∣ mh.spanSize ∧ 2 ^ (c + 4) * mh.objectCount ≤ mh.spanSize ∧
        mh.spanSize < 2 ^ (c + 4) * mh.objectCount + 4096) ∧
      mh.objectCount = mh.spanSize / 2 ^ (c + 4) ∧
      mh.objectCount ≤ 256 ∧
      mh.bitmap.bitCount = mh.objectCount ∧
      64 * mh.bitmap.bits.length = 256 := by
  have hc' : c < 11 := hc
  have hsize : class2Size (c : Int) = 2 ^ (c + 4) := class2Size_ofNat (by omega)
  obtain ⟨h', bm, hrun, hbm, hderef, _, _⟩ := allocMiniheap_eq h a p c hc hmax hcounts hlists hhwm
  obtain ⟨hn, _, hdiv, hspan⟩ := span_numbers hc'
  obtain ⟨_, _, hbits, _⟩ := Bitmap.constructAtomic_fresh hbm (by omega)
  have hlen := Bitmap.constructAtomic_length hbm
  rw [hsize]
  refine ⟨h', _, hrun, hderef, rfl, rfl, rfl, ?_, ⟨?_, ?_, ?_⟩, hdiv, hn, hbits, ?_⟩
  · show PageSize * PageCount _ = _
    rfl
  · exact ⟨_, rfl⟩
  · show _ ≤ PageSize * PageCount _
    rw [hspan]
  · show PageSize * PageCount _ < _
    rw [hspan]
    exact Nat.lt_add_of_pos_right (by norm_num)
  · show 64 * bm.bits.length = 256
    rw [hlen]
    decide

/-- C19, at class 0 (16-byte objects) of the example heap: 256 objects in one
page. -/
theorem allocMiniheap_object_count_and_span_witness :
    0 < NumBins ∧ exampleHeap.maxObjectSize = 16384 ∧
    exampleHeap.littleheapCounts.length = NumBins ∧
    exampleHeap.littleheaps.length = NumBins ∧
    exampleHeap.stats.mhClassHWM.length = NumBins ∧
    ∃ h' mh, exampleHeap.allocMiniheap (some 262144) (some 3000) (class2Size (0 : Nat)) =
        .ok (h', 3000) ∧
      h'.deref 3000 = .ok mh ∧
      class2Size (0 : Nat) = 2 ^ (0 + 4) ∧
      mh.objectSize = 2 ^ (0 + 4) ∧
      mh.objectCount = max (4096 / 2 ^ (0 + 4)) 8 ∧
      mh.spanSize = 4096 * ((2 ^ (0 + 4) * mh.objectCount + 4095) / 4096) ∧
      (4096 ∣ mh.spanSize ∧ 2 ^ (0 + 4) * mh.objectCount ≤ mh.spanSize ∧
        mh.spanSize < 2 ^ (0 + 4) * mh.objectCount + 4096) ∧
      mh.objectCount = mh.spanSize / 2 ^ (0 + 4) ∧
      mh.objectCount ≤ 256 ∧
      mh.bitmap.bitCount = mh.objectCount ∧
      64 * mh.bitmap.bits.length = 256 :=
  ⟨by decide, by decide, by decide, by decide, by decide,
    allocMiniheap_object_count_and_span exampleHeap 262144 3000 0 (by decide) (by decide)
      (by decide) (by decide) (by decide)⟩

/-- C20 as stated fails: a request of 16 bytes, which is not above
`maxObjectSize = 16384`, is not handed to any other path by `malloc`; the call
ends in `abort()`. -/
theorem malloc_small_request_aborts :
    16 ≤ exampleHeap.maxObjectSize ∧
    exampleHeap.malloc (some 900000) 16 = .error .abort ∧
    ¬ ∃ r, exampleHeap.malloc (some 900000) 16 = .ok r := by
  refine ⟨by decide, by decide, ?_⟩
  rintro ⟨r, hr⟩
  have h : exampleHeap.malloc (some 900000) 16 = .error .abort := by decide
  rw [h] at hr
  exact Except.noConfusion hr

/-- C20, amended: for a request of at most `2 ^ 63` bytes on a heap with
`maxObjectSize = 16384`, `malloc(sz)` returns what the big heap returns, and the
big heap records the allocation, if and only if `sz > maxObjectSize`; for
`sz ≤ maxObjectSize` the call ends in `abort()`. -/
theorem malloc_big_heap_or_abort (h : GlobalMeshingHeap) (hmax : h.maxObjectSize = 16384)
    (ptr : Option Nat) (sz : Nat) (hsz : sz ≤ 2 ^ 63) :
    ((∃ r, h.malloc ptr sz = .ok r) ↔ h.maxObjectSize < sz) ∧
    (h.maxObjectSize < sz →
      h.malloc ptr sz = .ok
        (match ptr with
         | some p => { h with bigheap := h.bigheap.malloc p sz }
         | none => h, ptr)) ∧
    (sz ≤ h.maxObjectSize → h.malloc ptr sz = .error .abort) := by
  have hiff := class2Size_size2Class_le_iff hsz
  have hbig : h.maxObjectSize < sz →
      h.malloc ptr sz = .ok
        (match ptr with
         | some p => { h with bigheap := h.bigheap.malloc p sz }
         | none => h, ptr) := by
    intro hlt
    unfold malloc
    simp only []
    rw [hmax] at hlt ⊢
    rw [if_neg (by rw [hiff]; omega)]
    cases ptr <;> rfl
  have hsmall : sz ≤ h.maxObjectSize → h.malloc ptr sz = .error .abort := by
    intro hle
    unfold malloc
    simp only []
    rw [hmax] at hle ⊢
    rw [if_pos (hiff.2 hle)]
  refine ⟨⟨?_, fun hlt => ⟨_, hbig hlt⟩⟩, hbig, hsmall⟩
  rintro ⟨r, hr⟩
  by_contra hcon
  rw [hsmall (by omega)] at hr
  exact Except.noConfusion hr

/-- C20 amended, at a request of 16385 bytes on the example heap, for which the
big heap returns 900000. -/
theorem malloc_big_heap_or_abort_witness :
    exampleHeap.maxObjectSize = 16384 ∧ 16385 ≤ 2 ^ 63 ∧
    exampleHeap.malloc (some 900000) 16385 =
      .ok ({ exampleHeap with bigheap := exampleHeap.bigheap.malloc 900000 16385 },
        some 900000) ∧
    (((∃ r, exampleHeap.malloc (some 900000) 16385 = .ok r) ↔
        exampleHeap.maxObjectSize < 16385) ∧
    (exampleHeap.maxObjectSize < 16385 →
      exampleHeap.malloc (some 900000) 16385 = .ok
        (match (some 900000 : Option Nat) with
         | some p => { exampleHeap with bigheap := exampleHeap.bigheap.malloc p 16385 }
         | none => exampleHeap, some 900000)) ∧
    (16385 ≤ exampleHeap.maxObjectSize →
      exampleHeap.malloc (some 900000) 16385 = .error .abort)) :=
  ⟨by decide, by decide, by decide,
    malloc_big_heap_or_abort exampleHeap (by decide) (some 900000) 16385 (by decide)⟩

end GlobalMeshingHeap
end Mesh

namespace Mesh

open bitmap (Bitmap)

namespace GlobalMeshingHeap

/-- C21: `getSize(ptr)` returns 0 when `ptr` is null or the mesh marker, whatever
the heap state (the span map and the big heap are not consulted); for any other
`ptr`, on a heap whose span map points to live descriptors, `miniheapFor(ptr)`
returns, and `getSize(ptr)` is the size of the owning miniheap when it is
non-null and the size the big heap recorded otherwise. -/
theorem getSize_null_marker_small_big (h : GlobalMeshingHeap) (isMeshMarker : Nat → Bool)
    (ptr : Nat)
    (hlive : ∀ e ∈ h.miniheaps, (Map.lookup e.2 h.descriptors).isSome = true) :
    ((ptr = 0 ∨ isMeshMarker ptr = true) →
      ∀ h' : GlobalMeshingHeap, h'.getSize isMeshMarker ptr = .ok 0) ∧
    (ptr ≠ 0 → isMeshMarker ptr = false →
      ∃ mh, h.miniheapFor ptr = .ok mh ∧
        (∀ m, mh = some m → ∃ d, h.deref m = .ok d ∧ d.contains ptr = true ∧
          h.getSize isMeshMarker ptr = .ok (d.getSize ptr) ∧ d.getSize ptr = d.objectSize) ∧
        (mh = none → h.getSize isMeshMarker ptr = .ok (h.bigheap.getSize ptr) ∧
          h.bigheap.getSize ptr = (Map.lookup ptr h.bigheap.live).getD 0)) := by
  refine ⟨fun hp h' => getSize_zero h' isMeshMarker hp, ?_⟩
  intro h0 hmark
  obtain ⟨mh, hmh⟩ := miniheapFor_total hlive ptr
  refine ⟨mh, hmh, ?_, ?_⟩
  · intro m hm
    subst hm
    obtain ⟨_, d, _, _, _, hd, hc⟩ := miniheapFor_some hmh
    exact ⟨d, hd, hc, getSize_small h0 hmark hmh hd, rfl⟩
  · intro hm
    subst hm
    exact ⟨getSize_big h0 hmark hmh, rfl⟩

/-- C21, on the example heap with a big allocation of 20000 bytes at 900000 and
the marker at 12345: the sizes of null, of the marker, of a pointer into the
first miniheap and of the big allocation. -/
theorem getSize_null_marker_small_big_witness :
    (∀ e ∈ exampleHeapBig.miniheaps,
      (Map.lookup e.2 exampleHeapBig.descriptors).isSome = true) ∧
    exampleHeapBig.getSize exampleMarker 0 = .ok 0 ∧
    exampleHeapBig.getSize exampleMarker 12345 = .ok 0 ∧
    exampleHeapBig.getSize exampleMarker 66048 = .ok 512 ∧
    exampleHeapBig.getSize exampleMarker 900000 = .ok 20000 ∧
    (∃ mh, exampleHeapBig.miniheapFor 66048 = .ok mh ∧
      (∀ m, mh = some m → ∃ d, exampleHeapBig.deref m = .ok d ∧ d.contains 66048 = true ∧
        exampleHeapBig.getSize exampleMarker 66048 = .ok (d.getSize 66048) ∧
        d.getSize 66048 = d.objectSize) ∧
      (mh = none →
        exampleHeapBig.getSize exampleMarker 66048 = .ok (exampleHeapBig.bigheap.getSize 66048) ∧
        exampleHeapBig.bigheap.getSize 66048 =
          (Map.lookup 66048 exampleHeapBig.bigheap.live).getD 0)) :=
  ⟨by decide,
    (getSize_null_marker_small_big exampleHeapBig exampleMarker 0 (by decide)).1
      (Or.inl rfl) exampleHeapBig,
    (getSize_null_marker_small_big exampleHeapBig exampleMarker 12345 (by decide)).1
      (Or.inr (by decide)) exampleHeapBig,
    by decide, by decide,
    (getSize_null_marker_small_big exampleHeapBig exampleMarker 66048 (by decide)).2
      (by decide) (by decide)⟩

end GlobalMeshingHeap
end Mesh

namespace Mesh

open bitmap (Bitmap)

/-- C22: for every power-of-two alignment `a` with `2 ≤ a ≤ 4096` and every size
`s < 4096` (also `s = 0`), `memalign(a, s)` serves from the smallest size class
whose size is at least `s` and a multiple of `a` (one exists, so the big heap is
not used), and when the miniheap it allocates from has a page-aligned span, the
pointer returned is divisible by `a`. -/
theorem memalign_pointer_divisible (attached : Nat → MiniHeap × Nat) (big : Option Nat)
    (a s : Nat) (hpow : ∃ j, a = 2 ^ j) (_hlo : 2 ≤ a) (hhi : a ≤ 4096) (hs : s < 4096)
    (hatt : ∀ c ∈ List.range NumBins,
      (attached c).1.objectSize = class2Size c ∧ PageSize ∣ (attached c).1.getSpanStart ∧
      (attached c).1.bitmap.WF ∧ (attached c).2 < (attached c).1.bitmap.bitCount) :
    ∃ c r, memalignClass a s = some c ∧ c < NumBins ∧ s ≤ class2Size c ∧ a ∣ class2Size c ∧
      (∀ c', c' < c → ¬ (s ≤ class2Size c' ∧ a ∣ class2Size c')) ∧
      memalign attached big a s = .ok r ∧ ∀ p, r = some p → a ∣ p := by
  obtain ⟨j, hj⟩ := hpow
  have hj12 : j ≤ 12 := by
    by_contra hcon
    have : 2 ^ 13 ≤ 2 ^ j := Nat.pow_le_pow_right (by norm_num) (by omega)
    omega
  obtain ⟨c, hc, hlt, hge, hdvd, hmin⟩ := memalignClass_some hj hj12 (Nat.le_of_lt hs)
  obtain ⟨hsize, hpage, hwf, hslot⟩ := hatt c (List.mem_range.2 hlt)
  have hapage : a ∣ PageSize := by
    rw [hj]
    exact pow_dvd_pow 2 hj12
  refine ⟨c, if (attached c).1.bitmap.storageBit (attached c).2 = false
      then some ((attached c).1.getSpanStart + (attached c).2 * (attached c).1.objectSize)
      else none, hc, hlt, hge, hdvd, hmin, ?_, ?_⟩
  · unfold memalign
    simp only [hc, MiniHeap.mallocAt, Bitmap.tryToSet_eq hwf hslot, bind, Except.bind]
    cases (attached c).1.bitmap.storageBit (attached c).2 <;> rfl
  · intro p hp
    by_cases hbit : (attached c).1.bitmap.storageBit (attached c).2 = false
    · rw [if_pos hbit] at hp
      have hp' := Option.some.inj hp
      rw [← hp', hsize]
      exact Nat.dvd_add (Nat.dvd_trans hapage hpage) (Dvd.dvd.mul_left hdvd _)
    · rw [if_neg hbit] at hp
      exact Option.noConfusion hp

/-- C22, at `memalign(64, 100)` with fresh miniheaps over the span at 65536 and
the slot 3: the class of 128-byte objects serves, and the pointer is 65920. -/
theorem memalign_pointer_divisible_witness :
    (∃ j, 64 = 2 ^ j) ∧ 2 ≤ 64 ∧ 64 ≤ 4096 ∧ 100 < 4096 ∧
    (∀ c ∈ List.range NumBins,
      (exampleAttached c).1.objectSize = class2Size c ∧
      PageSize ∣ (exampleAttached c).1.getSpanStart ∧
      (exampleAttached c).1.bitmap.WF ∧
      (exampleAttached c).2 < (exampleAttached c).1.bitmap.bitCount) ∧
    memalignClass 64 100 = some 3 ∧
    memalign exampleAttached none 64 100 = .ok (some 65920) ∧
    memalign exampleAttached none 4096 0 = .ok (some (65536 + 3 * 4096)) ∧
    (∃ c r, memalignClass 64 100 = some c ∧ c < NumBins ∧ 100 ≤ class2Size c ∧
      64 ∣ class2Size c ∧
      (∀ c', c' < c → ¬ (100 ≤ class2Size c' ∧ 64 ∣ class2Size c')) ∧
      memalign exampleAttached none 64 100 = .ok r ∧ ∀ p, r = some p → 64 ∣ p) :=
  ⟨⟨6, by decide⟩, by decide, by decide, by decide, by decide, by decide, by decide, by decide,
    memalign_pointer_divisible exampleAttached none 64 100 ⟨6, by decide⟩ (by decide)
      (by decide) (by decide) (by decide)⟩

end Mesh

namespace Mesh
namespace bitmap
namespace Bitmap

/-- C23: on a relaxed bitmap of 10 bits fresh from its constructor (no storage
bit set), `setAll()` and `invert()` set the storage bits 10 to 63 too, after
which `inUseCount()` is 64 and exceeds `bitCount()`; `setFirstEmpty(0)` on a full
eight-bit bitmap sets the storage bit 8.  Both constructors leave no storage bit
set; and on a well-formed bitmap without storage bits at positions `≥ bitCount`,
`clear()`, `tryToSet(i)` and `unset(i)` with `i < bitCount`, and `setFirstEmpty`
when a clear bit is left, keep those positions zero, and
`inUseCount() ≤ bitCount()`. -/
theorem setAll_invert_set_bits_beyond_bitCount :
    ((∀ k, k < 64 → (constructRelaxed 10 [0]).storageBit k = false) ∧
      (constructRelaxed 10 [0]).inUseCount = 0) ∧
    (∃ b, (constructRelaxed 10 [0]).setAll = .ok b ∧ b.bitCount = 10 ∧
      (∀ k, 10 ≤ k → k < 64 → b.storageBit k = true) ∧ b.inUseCount = 64 ∧
      ¬ b.inUseCount ≤ b.bitCount) ∧
    (∃ b, (constructRelaxed 10 [0]).invert = .ok b ∧ b.bitCount = 10 ∧
      (∀ k, 10 ≤ k → k < 64 → b.storageBit k = true) ∧ b.inUseCount = 64 ∧
      ¬ b.inUseCount ≤ b.bitCount) ∧
    (∃ r b, fullBitmap8.setFirstEmpty 0 = .ok (r, b) ∧ b.bitCount = 8 ∧
      b.storageBit 8 = true ∧ b.inUseCount = 9 ∧ ¬ b.inUseCount ≤ b.bitCount) ∧
    (∀ maxBits bitCount b, bitCount < 2 ^ 32 → constructAtomic maxBits bitCount = .ok b →
      ∀ k, b.storageBit k = false) ∧
    (∀ bitCount memory, bitCount < 2 ^ 32 →
      memory.length = bitmap.wordCount (representationSize bitCount) →
      ∀ k, (constructRelaxed bitCount memory).storageBit k = false) ∧
    (∀ b : Bitmap, b.WF → (∀ k, b.bitCount ≤ k → b.storageBit k = false) →
      b.inUseCount ≤ b.bitCount ∧
      (b.clear.bitCount = b.bitCount ∧
        ∀ k, b.clear.bitCount ≤ k → b.clear.storageBit k = false) ∧
      (∀ i, i < b.bitCount →
        (∃ r b', b.tryToSet i = .ok (r, b') ∧ b'.WF ∧ b'.bitCount = b.bitCount ∧
          ∀ k, b'.bitCount ≤ k → b'.storageBit k = false) ∧
        (∃ r b', b.unset i = .ok (r, b') ∧ b'.WF ∧ b'.bitCount = b.bitCount ∧
          ∀ k, b'.bitCount ≤ k → b'.storageBit k = false)) ∧
      (∀ startAt j, startAt ≤ j → j < b.bitCount → b.storageBit j = false →
        ∃ r b', b.setFirstEmpty startAt = .ok (r, b') ∧ b'.WF ∧ b'.bitCount = b.bitCount ∧
          ∀ k, b'.bitCount ≤ k → b'.storageBit k = false)) := by
  refine ⟨⟨by decide, by decide⟩, ⟨⟨.relaxed, 10, [allOnes]⟩, by decide, rfl, by decide,
    by decide, by decide⟩, ⟨⟨.relaxed, 10, [allOnes]⟩, by decide, rfl, by decide,
    by decide, by decide⟩, ⟨8, ⟨.atomic, 8, [511, 0, 0, 0]⟩, by decide, rfl, by decide,
    by decide, by decide⟩, ?_, ?_, ?_⟩
  · intro maxBits bitCount b hmax hb k
    exact storageBit_of_all_zero (constructAtomic_fresh hb hmax).2.2.2 k
  · intro bitCount memory hmax hmem k
    exact storageBit_of_all_zero (constructRelaxed_fresh hmem hmax).2.2.2 k
  intro b hwf hpad
  exact ⟨inUseCount_le hwf hpad, clear_padding hpad,
    fun i hi => ⟨tryToSet_padding hwf hpad hi, unset_padding hwf hpad hi⟩,
    fun startAt j hs hj hc => setFirstEmpty_padding hwf hpad hs hj hc⟩

end Bitmap
end bitmap
end Mesh

namespace Mesh

open bitmap (Bitmap)

namespace GlobalMeshingHeap

/-- C24: if the bitmaps of `dst` and `src` are well-formed, have the same bit
count and are disjoint on entry to `mesh`, then the copy loop, entered with the
iterator `begin()` returned, runs to its end: at every iteration neither
assertion fails (`dst->bitmap().isSet(off)` is false and `mallocAt(off)` is
non-null), and one object is copied for every set bit `off` of `src`, in
ascending order, to the slot `dstSpan + off * objectSize` that `mallocAt`
returned.  `begin()` returns whenever the bit count is positive. -/
theorem mesh_copy_loop_slots_free (h : GlobalMeshingHeap) (dst src : Nat) (d s : MiniHeap)
    (hd : h.deref dst = .ok d) (hs : h.deref src = .ok s)
    (hdwf : d.bitmap.WF) (hswf : s.bitmap.WF)
    (hbits : d.bitmap.bitCount = s.bitmap.bitCount)
    (hdis : ∀ i, i < s.bitmap.bitCount →
      ¬ (d.bitmap.isSet i = .ok true ∧ s.bitmap.isSet i = .ok true)) :
    (0 < s.bitmap.bitCount → ∃ it, s.bitmap.begin = .ok it) ∧
    (∀ off, s.bitmap.isSet off = .ok true → d.bitmap.isSet off = .ok false) ∧
    (∀ it, s.bitmap.begin = .ok it →
      ∃ h', meshLoop dst src s.getSpanStart d.objectSize (s.bitmap.bitCount + 1) it h
          = .ok h' ∧
        h'.memcpys = h.memcpys ++
          ((List.range s.bitmap.bitCount).filter
            (fun off => decide (s.bitmap.isSet off = .ok true))).map
            (fun off => (d.getSpanStart + off * d.objectSize,
              s.getSpanStart + off * d.objectSize, d.objectSize))) := by
  have hdis' : ∀ j, j < s.bitmap.bitCount → s.bitmap.storageBit j = true →
      d.bitmap.storageBit j = false := by
    intro j hj hsj
    cases hdj : d.bitmap.storageBit j
    · rfl
    · exfalso
      apply hdis j hj
      rw [Bitmap.isSet_eq hdwf (by omega), Bitmap.isSet_eq hswf hj, hdj, hsj]
      exact ⟨rfl, rfl⟩
  have hfilter : (List.range s.bitmap.bitCount).filter
        (fun off => decide (s.bitmap.isSet off = .ok true)) =
      (List.range s.bitmap.bitCount).filter (fun k => s.bitmap.storageBit k) := by
    apply List.filter_congr
    intro i hi
    rw [Bitmap.isSet_eq hswf (List.mem_range.1 hi)]
    cases s.bitmap.storageBit i <;> simp
  refine ⟨?_, ?_, ?_⟩
  · intro hpos
    obtain ⟨r, hr, _⟩ := Bitmap.lowestSetBitAt_spec hswf hpos
    exact ⟨r, hr⟩
  · intro off hoff
    obtain ⟨hlt, hset⟩ := Bitmap.isSet_true hoff
    rw [Bitmap.isSet_eq hdwf (by omega), hdis' off hlt hset]
  · intro it hit
    obtain ⟨_, hit2, hit3, hit4⟩ := Bitmap.begin_spec hswf hit
    have hsplit : s.bitmap.bitCount = it + (s.bitmap.bitCount - it) := by omega
    have hlist : (List.range s.bitmap.bitCount).filter (fun k => s.bitmap.storageBit k) =
        (List.range' it (s.bitmap.bitCount - it)).filter (fun k => s.bitmap.storageBit k) := by
      rw [List.range_eq_range']
      conv_lhs => rw [hsplit, Bitmap.range'_split, List.filter_append,
        Bitmap.filter_range'_eq_nil _ 0 it (fun j _ hj2 => hit3 j (by omega))]
      simp
    rw [hfilter, hlist]
    by_cases hne : dst = src
    · subst hne
      have hds : d = s := Except.ok.inj (hd.symm.trans hs)
      subst hds
      have hend : it = d.bitmap.bitCount := by
        by_contra hcon
        have hlt : it < d.bitmap.bitCount := by omega
        have h1 := hit4 hlt
        rw [hdis' it hlt h1] at h1
        exact Bool.noConfusion h1
      refine ⟨h, ?_, ?_⟩
      · unfold meshLoop
        simp only [hd, bind, Except.bind, Bitmap.end]
        rw [if_pos hend]
      · rw [hend, Nat.sub_self]
        simp
    · exact meshLoop_copies dst src s.getSpanStart d.objectSize hne s hswf
        (s.bitmap.bitCount + 1) it h d (lookup_of_deref hs) (lookup_of_deref hd) hdwf hbits
        hit2 hit4 (fun j _ hj2 hj3 => hdis' j hj2 hj3) (by omega)

/-- C24, at the example heap: the copy loop of `mesh(1000, 2000)` copies the
objects of the slots 1, 3, 5, 7. -/
theorem mesh_copy_loop_slots_free_witness :
    exampleHeap.deref 1000 = .ok exampleDst ∧ exampleHeap.deref 2000 = .ok exampleSrc ∧
    exampleSrc.bitmap.begin = .ok 1 ∧
    (∃ h', meshLoop 1000 2000 exampleSrc.getSpanStart exampleDst.objectSize
          (exampleSrc.bitmap.bitCount + 1) 1 exampleHeap = .ok h' ∧
        h'.memcpys = exampleHeap.memcpys ++
          ((List.range exampleSrc.bitmap.bitCount).filter
            (fun off => decide (exampleSrc.bitmap.isSet off = .ok true))).map
            (fun off => (exampleDst.getSpanStart + off * exampleDst.objectSize,
              exampleSrc.getSpanStart + off * exampleDst.objectSize,
              exampleDst.objectSize))) ∧
    ((List.range exampleSrc.bitmap.bitCount).filter
      (fun off => decide (exampleSrc.bitmap.isSet off = .ok true))) = [1, 3, 5, 7] :=
  ⟨by decide, by decide, by decide,
    (mesh_copy_loop_slots_free exampleHeap 1000 2000 exampleDst exampleSrc (by decide)
      (by decide) (by decide) (by decide) (by decide) (by decide)).2.2 1 (by decide),
    by decide⟩

end GlobalMeshingHeap
end Mesh

namespace Mesh

open bitmap (Bitmap)

/-- C25: `randomSort` pairs every element of the shuffled range with its
successor, so three miniheaps in a row that are not done, the middle one
disjoint from both neighbours, give two emitted pairs that share the middle
one.  For the list of the open miniheaps with the slots {0, 2, 4, 6},
{1, 3, 5, 7} and {2} followed by a done one, and the shuffle that leaves the
order, the pairs are (first, second) and (second, third); and `mesh` of the
first pair deallocates the second miniheap, on which `mesh` of the second pair
then fails. -/
theorem randomSort_middle_heap_in_two_pairs :
    randomSort MiniHeap.isDone MiniHeap.bitmap id
        [exampleOpenA, exampleOpenB, exampleOpenC, exampleSrc] =
      ([[exampleOpenA, exampleOpenB], [exampleOpenB, exampleOpenC]], .ok ()) ∧
    (∀ pair ∈ [[exampleOpenA, exampleOpenB], [exampleOpenB, exampleOpenC]],
      exampleOpenB ∈ pair) ∧
    [exampleOpenA, exampleOpenB] ≠ [exampleOpenB, exampleOpenC] ∧
    (∀ (T : Type) (isDone : T → Bool) (bitmapOf : T → Bitmap) (h1 h2 h3 : T) (rest : List T),
      isDone h1 = false → isDone h2 = false → isDone h3 = false →
      (bitmapOf h1).wordCount = (bitmapOf h2).wordCount →
      (bitmapOf h2).wordCount = (bitmapOf h3).wordCount →
      bitmapsMeshable (bitmapOf h1).bits (bitmapOf h2).bits (bitmapOf h1).wordCount = true →
      bitmapsMeshable (bitmapOf h2).bits (bitmapOf h3).bits (bitmapOf h2).wordCount = true →
      ∃ found, (randomSortLoop isDone bitmapOf (h1 :: h2 :: h3 :: rest)).1 =
        [h1, h2] :: [h2, h3] :: found) ∧
    (∃ h, exampleHeap3.mesh true 1000 2000 = .ok (h, none) ∧
      h.deref 2000 = .error .badPointer ∧
      h.mesh true 2000 3000 = .error .badPointer) := by
  refine ⟨by decide, by decide, by decide, ?_, ?_⟩
  · intro T isDone bitmapOf h1 h2 h3 rest d1 d2 d3 w12 w23 m12 m23
    refine ⟨(randomSortLoop isDone bitmapOf (h3 :: rest)).1, ?_⟩
    have m12' : bitmapsMeshable (bitmapOf h1).bits (bitmapOf h2).bits
        (bitmapOf h2).wordCount = true := by rw [← w12]; exact m12
    have m23' : bitmapsMeshable (bitmapOf h2).bits (bitmapOf h3).bits
        (bitmapOf h3).wordCount = true := by rw [← w23]; exact m23
    have step2 : randomSortLoop isDone bitmapOf (h2 :: h3 :: rest) =
        ([h2, h3] :: (randomSortLoop isDone bitmapOf (h3 :: rest)).1,
          (randomSortLoop isDone bitmapOf (h3 :: rest)).2) := by
      rw [randomSortLoop]
      simp [d2, d3, w23, m23']
    rw [randomSortLoop]
    simp [d1, d2, w12, m12', step2]
  · cases hm : exampleHeap3.mesh true 1000 2000 with
    | error e =>
      have : (exampleHeap3.mesh true 1000 2000).toOption.isSome = true := by decide
      rw [hm] at this
      simp [Except.toOption] at this
    | ok r =>
      have h2 : r.2 = none := by
        have : ((exampleHeap3.mesh true 1000 2000).map (fun r => r.2)) = .ok none := by decide
        rw [hm] at this
        exact Except.ok.inj this
      have h3 : ((exampleHeap3.mesh true 1000 2000).bind (fun r => r.1.deref 2000)) =
          .error .badPointer := by decide
      have h4 : ((exampleHeap3.mesh true 1000 2000).bind (fun r => r.1.mesh true 2000 3000)) =
          .error .badPointer := by decide
      rw [hm] at h3 h4
      obtain ⟨h, o⟩ := r
      simp only at h2
      subst h2
      exact ⟨h, rfl, h3, h4⟩

/-- C26: a request of 1 to 8 bytes has the class -1, which is not a bin index,
and its class size is 8, below the minimum object size; with it the assertion
`sizeClass >= 0` of `allocMiniheap` fails.  A request of 9 to 16384 bytes has a
class in `[0, NumBins)` whose size is a power of two between 16 and 16384. -/
theorem size2Class_small_request_negative :
    (∀ sz, 0 < sz → sz ≤ 8 →
      size2Class sz = -1 ∧ ¬ (0 ≤ size2Class sz) ∧ class2Size (size2Class sz) = 8 ∧
      class2Size (size2Class sz) < MinObjectSize) ∧
    (∀ (h : GlobalMeshingHeap) (span buf : Option Nat), 8 ≤ h.maxObjectSize →
      h.allocMiniheap span buf 8 = .error .assertFail) ∧
    (∀ sz, 8 < sz → sz ≤ 16384 →
      0 ≤ size2Class sz ∧ size2Class sz < NumBins ∧
      ∃ j, 4 ≤ j ∧ j ≤ 14 ∧ class2Size (size2Class sz) = 2 ^ j) := by
  have h8 : class2Size (-1) = 8 := by decide
  refine ⟨?_, ?_, ?_⟩
  · intro sz _ hsz
    rw [size2Class_small hsz, h8]
    exact ⟨rfl, by decide, rfl, by decide⟩
  · intro h span buf hmax
    unfold GlobalMeshingHeap.allocMiniheap
    rw [if_neg (by simpa using hmax)]
    simp only [size2Class_small (le_refl 8), h8]
    rw [if_neg (by simp), if_pos (by decide)]
  · intro sz hlo hhi
    have h64 : sz ≤ 2 ^ 64 := by omega
    have h63 : sz ≤ 2 ^ 63 := by omega
    obtain ⟨h1, _⟩ := ilog2_spec h64
    have hup : ilog2 sz ≤ 14 := ilog2_le_of_le_two_pow (by norm_num) (by omega)
    have hdown : 4 ≤ ilog2 sz := by
      by_contra hcon
      have : 2 ^ ilog2 sz ≤ 2 ^ 3 := Nat.pow_le_pow_right (by norm_num) (by omega)
      omega
    refine ⟨?_, ?_, ilog2 sz, hdown, hup, class2Size_size2Class (by omega) h63⟩
    · rw [size2Class_eq (by omega)]; omega
    · rw [size2Class_eq (by omega)]
      show (ilog2 sz : Int) - 4 < ((11 : Nat) : Int)
      omega

end Mesh

namespace Mesh

namespace GlobalMeshingHeap

/-- C27: for every heap state, `meshAllSizeClasses` returns the state it was
given: no merge set is collected, `StopTheWorld` and `mesh` are not called, and
the mesh count, the size-class lists and the span map are unchanged; hence
`free(meshMarker)`, which runs it 128 times, returns the state it was given
too. -/
theorem meshAllSizeClasses_changes_nothing (h : GlobalMeshingHeap) (remapOk : Bool)
    (isMeshMarker : Nat → Bool) (ptr : Nat) (hmark : isMeshMarker ptr = true) :
    (∃ h1, h.meshAllSizeClasses remapOk = .ok h1 ∧ h1 = h ∧
      h1.stopTheWorldCalls = h.stopTheWorldCalls ∧ h1.memcpys = h.memcpys ∧
      h1.stats.meshCount = h.stats.meshCount ∧ h1.littleheaps = h.littleheaps ∧
      h1.littleheapCounts = h.littleheapCounts ∧ h1.miniheaps = h.miniheaps) ∧
    (∃ h2, h.free isMeshMarker remapOk ptr = .ok h2 ∧ h2 = h ∧
      h2.stopTheWorldCalls = h.stopTheWorldCalls ∧ h2.memcpys = h.memcpys ∧
      h2.descriptors = h.descriptors ∧ h2.stats = h.stats ∧
      h2.littleheaps = h.littleheaps ∧ h2.littleheapCounts = h.littleheapCounts ∧
      h2.miniheaps = h.miniheaps ∧ h2.bigheap = h.bigheap ∧ h2.arena = h.arena ∧
      h2.nextMeshCheck = h.nextMeshCheck) :=
  ⟨⟨h, meshAllSizeClasses_eq h remapOk, rfl, rfl, rfl, rfl, rfl, rfl, rfl⟩,
    ⟨h, free_marker h remapOk hmark, rfl, rfl, rfl, rfl, rfl, rfl, rfl, rfl, rfl, rfl, rfl⟩⟩

/-- C27, on the example heap with the marker at 12345. -/
theorem meshAllSizeClasses_changes_nothing_witness :
    exampleMarker 12345 = true ∧
    (∃ h2, exampleHeap.free exampleMarker true 12345 = .ok h2 ∧ h2 = exampleHeap ∧
      h2.stopTheWorldCalls = exampleHeap.stopTheWorldCalls ∧
      h2.memcpys = exampleHeap.memcpys ∧
      h2.descriptors = exampleHeap.descriptors ∧ h2.stats = exampleHeap.stats ∧
      h2.littleheaps = exampleHeap.littleheaps ∧
      h2.littleheapCounts = exampleHeap.littleheapCounts ∧
      h2.miniheaps = exampleHeap.miniheaps ∧ h2.bigheap = exampleHeap.bigheap ∧
      h2.arena = exampleHeap.arena ∧ h2.nextMeshCheck = exampleHeap.nextMeshCheck) :=
  ⟨by decide,
    (meshAllSizeClasses_changes_nothing exampleHeap true exampleMarker 12345 (by decide)).2⟩

/-- C28: with draws of the distribution in `[1, MeshPeriod]`, in every state
reached from the constructor by calls of `shouldMesh` the counter
`_nextMeshCheck` lies in `[1, MeshPeriod]`; and from such a state with counter
`n`, the next `n - 1` calls return false, each leaving the counter one lower and
at least 1 (no decrement wraps around), and the `n`-th returns true and leaves
the counter at the value drawn, in `[1, MeshPeriod]`. -/
theorem shouldMesh_counter_in_range (MeshPeriod : Nat) (hMP : MeshPeriod < 2 ^ 64)
    (draw0 : Nat) (hdraw0 : 1 ≤ draw0 ∧ draw0 ≤ MeshPeriod)
    (draws : List Nat) (hdraws : ∀ d ∈ draws, 1 ≤ d ∧ d ≤ MeshPeriod) :
    (1 ≤ ((construct draw0).shouldMeshCalls draws).1.nextMeshCheck ∧
      ((construct draw0).shouldMeshCalls draws).1.nextMeshCheck ≤ MeshPeriod) ∧
    (∀ (pre : List Nat) (last : Nat),
      pre.length + 1 = ((construct draw0).shouldMeshCalls draws).1.nextMeshCheck →
      1 ≤ last ∧ last ≤ MeshPeriod →
      ((((construct draw0).shouldMeshCalls draws).1.shouldMeshCalls (pre ++ [last])).2 =
          List.replicate pre.length false ++ [true] ∧
        (((construct draw0).shouldMeshCalls draws).1.shouldMeshCalls
          (pre ++ [last])).1.nextMeshCheck = last ∧
        ∀ k, k ≤ pre.length →
          (((construct draw0).shouldMeshCalls draws).1.shouldMeshCalls
            (pre.take k)).1.nextMeshCheck =
            ((construct draw0).shouldMeshCalls draws).1.nextMeshCheck - k ∧
          1 ≤ ((construct draw0).shouldMeshCalls draws).1.nextMeshCheck - k)) := by
  have hinit : (construct draw0).nextMeshCheck = draw0 := rfl
  obtain ⟨hlo, hhi⟩ := shouldMeshCalls_range hMP draws (construct draw0) hdraws
    (by rw [hinit]; exact hdraw0.1) (by rw [hinit]; exact hdraw0.2)
  refine ⟨⟨hlo, hhi⟩, ?_⟩
  generalize ((construct draw0).shouldMeshCalls draws).1 = h at hlo hhi
  intro pre last hlen _
  have hlt : h.nextMeshCheck < 2 ^ 64 := by omega
  have hpre := shouldMeshCalls_countdown pre h (by omega) hlt
  refine ⟨?_, ?_, ?_⟩
  · rw [shouldMeshCalls_append, hpre]
    rw [shouldMeshCalls_cons, shouldMesh_last (by show h.nextMeshCheck - pre.length = 1; omega)]
    rfl
  · rw [shouldMeshCalls_append, hpre]
    rw [shouldMeshCalls_cons, shouldMesh_last (by show h.nextMeshCheck - pre.length = 1; omega)]
    rfl
  · intro k hk
    have hklen : (pre.take k).length = k := by
      rw [List.length_take]; omega
    rw [shouldMeshCalls_countdown (pre.take k) h (by omega) hlt, hklen]
    exact ⟨rfl, by omega⟩

/-- C28, with `MeshPeriod = 10`: the constructor draws 3, two calls return false
and the third returns true and redraws 5; from there four calls return false and
the fifth returns true and redraws 7. -/
theorem shouldMesh_counter_in_range_witness :
    (10 < 2 ^ 64) ∧ (1 ≤ 3 ∧ 3 ≤ 10) ∧ (∀ d ∈ [9, 9, 5], 1 ≤ d ∧ d ≤ 10) ∧
    ((construct 3).shouldMeshCalls [9, 9, 5]).2 = [false, false, true] ∧
    ((construct 3).shouldMeshCalls [9, 9, 5]).1.nextMeshCheck = 5 ∧
    (((construct 3).shouldMeshCalls [9, 9, 5]).1.shouldMeshCalls ([2, 2, 2, 2] ++ [7])).2 =
      List.replicate 4 false ++ [true] ∧
    (((construct 3).shouldMeshCalls [9, 9, 5]).1.shouldMeshCalls
      ([2, 2, 2, 2] ++ [7])).1.nextMeshCheck = 7 :=
  ⟨by decide, by decide, by decide, by decide, by decide,
    ((shouldMesh_counter_in_range 10 (by decide) 3 (by decide) [9, 9, 5] (by decide)).2
      [2, 2, 2, 2] 7 (by decide) (by decide)).1,
    ((shouldMesh_counter_in_range 10 (by decide) 3 (by decide) [9, 9, 5] (by decide)).2
      [2, 2, 2, 2] 7 (by decide) (by decide)).2.1⟩

end GlobalMeshingHeap
end Mesh
